import Mathlib

/-!
Octave: the mxArray representation bridge and the sparse operator installers.

A shallow embedding of

* `libinterp/corefcn/mxarray.h`: the `mxArray` handle, its accessors and the two
  forwarding macros `DO_MUTABLE_METHOD` / `DO_VOID_MUTABLE_METHOD`;
* `libinterp/operators/op-m-scm.cc`, `op-cm-scm.cc`, `op-pm-sm.cc`: the `div` and `pow`
  kernels and the three installer functions.

Conventions: `mwSize`, `mwIndex` are `Nat`, C `int` is `Int`, a pointer argument is the
`Nat` address it holds, a `const char *` argument is a `String`.  A C++ member function that
may throw through `error (...)` returns `Except String _`; a member function that may change
the object it is called on returns the new object state next to its result.
-/

namespace Octave

/-! ## Part 1: `mxarray.h` -/

/-- The virtual member functions of `mxArray_base` that `mxArray` forwards to, each with the
arguments of the call (`mxarray.h`, lines 107-285). -/
inductive RepCall where
  | is_octave_value
  | iscell
  | is_char
  | is_class (name_arg : String)
  | is_complex
  | is_double
  | is_function_handle
  | is_int16
  | is_int32
  | is_int64
  | is_int8
  | is_logical
  | is_numeric
  | is_single
  | is_sparse
  | is_struct
  | is_uint16
  | is_uint32
  | is_uint64
  | is_uint8
  | is_logical_scalar
  | is_logical_scalar_true
  | get_m
  | get_n
  | get_dimensions
  | get_number_of_dimensions
  | set_m (m : Nat)
  | set_n (n : Nat)
  | set_dimensions (dims_arg : Nat) (ndims_arg : Nat)
  | get_number_of_elements
  | is_scalar
  | get_class_id
  | get_class_name
  | get_property (idx : Nat) (pname : String)
  | set_property (idx : Nat) (pname : String) (pval : Nat)
  | set_class_name (name_arg : String)
  | get_cell (idx : Nat)
  | set_cell (idx : Nat) (val : Nat)
  | get_scalar
  | get_data
  | get_doubles
  | get_singles
  | get_int8s
  | get_int16s
  | get_int32s
  | get_int64s
  | get_uint8s
  | get_uint16s
  | get_uint32s
  | get_uint64s
  | get_complex_doubles
  | get_complex_singles
  | get_imag_data
  | set_data (pr : Nat)
  | set_doubles (data : Nat)
  | set_singles (data : Nat)
  | set_int8s (data : Nat)
  | set_int16s (data : Nat)
  | set_int32s (data : Nat)
  | set_int64s (data : Nat)
  | set_uint8s (data : Nat)
  | set_uint16s (data : Nat)
  | set_uint32s (data : Nat)
  | set_uint64s (data : Nat)
  | set_complex_doubles (data : Nat)
  | set_complex_singles (data : Nat)
  | set_imag_data (pi : Nat)
  | get_ir
  | get_jc
  | get_nzmax
  | set_ir (ir : Nat)
  | set_jc (jc : Nat)
  | set_nzmax (nzmax : Nat)
  | add_field (key : String)
  | remove_field (key_num : Int)
  | get_field_by_number (index : Nat) (key_num : Int)
  | set_field_by_number (index : Nat) (key_num : Int) (val : Nat)
  | get_number_of_fields
  | get_field_name_by_number (key_num : Int)
  | get_field_number (key : String)
  | get_string (buf : Nat) (buflen : Nat)
  | array_to_string
  | calc_single_subscript (nsubs : Nat) (subs : Nat)
  | get_element_size

/-- The handle `class mxArray` (`mxarray.h`, lines 318-673): its two data members, the
`mutable mxArray_base *m_rep` (here the state of the representation object it points to) and
`char *m_name` (`none` for a null pointer). -/
structure mxArray (R : Type) where
  m_rep : R
  m_name : Option String

/-- The interface `class mxArray_base` as seen from the handle: `call c r` is the virtual
call `r->c`, returning what the member function returns (or the message of the `error` it
raises) together with the state of the representation afterwards (representations keep
`mutable` members, so a `const` member function may still change it); `mutation_needed` and
`mutate` are the two virtual functions of lines 287-289, `mutate` returning a whole new
`mxArray` or `none` for `nullptr`. -/
structure mxArray_base (R V : Type) where
  call : RepCall → R → Except String V × R
  mutation_needed : R → Bool
  mutate : R → Option (mxArray R)

/-- One observable step of an accessor of the handle. -/
inductive Event (R : Type) where
  /-- The call `m_rep->METHOD_CALL`, made on the representation `rep`. -/
  | method (c : RepCall) (rep : R)
  /-- The call `m_rep->mutation_needed ()` on `rep` and its answer. -/
  | mutation_needed (rep : R) (answer : Bool)
  /-- The call `maybe_mutate ()`, with the active representation before and after it. -/
  | maybe_mutate (before after : R)

/-- What one accessor call on the handle does: the value it returns (`none` for a `void`
accessor) or the error it leaves with, the handle afterwards, and the steps it took. -/
structure Outcome (R V : Type) where
  retval : Except String (Option V)
  self : mxArray R
  trace : List (Event R)

/-- Number of `m_rep->METHOD_CALL` steps in a trace. -/
def methodCalls {R : Type} : List (Event R) → Nat
  | [] => 0
  | .method _ _ :: es => methodCalls es + 1
  | _ :: es => methodCalls es

/-- Number of `maybe_mutate ()` steps in a trace. -/
def maybeMutateCalls {R : Type} : List (Event R) → Nat
  | [] => 0
  | .maybe_mutate _ _ :: es => maybeMutateCalls es + 1
  | _ :: es => maybeMutateCalls es

/-- Number of `mutation_needed ()` steps in a trace. -/
def mutationNeededCalls {R : Type} : List (Event R) → Nat
  | [] => 0
  | .mutation_needed _ _ :: es => mutationNeededCalls es + 1
  | _ :: es => mutationNeededCalls es

/-- The value a non-void accessor hands back for the result of a representation call. -/
def retOf {V : Type} (res : Except String V) : Except String (Option V) :=
  match res with
  | .ok v => .ok (some v)
  | .error e => .error e

/-- The value a `void` accessor hands back for the result of a representation call. -/
def voidOf {V : Type} (res : Except String V) : Except String (Option V) :=
  match res with
  | .ok _ => .ok none
  | .error e => .error e

namespace mxArray

variable {R V : Type}

/-- The accessor `const char * get_name () const { return m_name; }` (line 448). -/
def get_name (self : mxArray R) : Option String := self.m_name

/-- The forward `bool mutation_needed () const { return m_rep->mutation_needed (); }`
(line 597). -/
def mutation_needed (ops : mxArray_base R V) (self : mxArray R) : Bool :=
  ops.mutation_needed self.m_rep

/-- The forward `mxArray * mutate () const { return m_rep->mutate (); }` (line 599). -/
def mutate (ops : mxArray_base R V) (self : mxArray R) : Option (mxArray R) :=
  ops.mutate self.m_rep

/-- Modelled from the spec: the body of `void mxArray::maybe_mutate () const`, which
`mxarray.h` (line 665) only declares.  The spec (4.4, step 3): "replace the active
representation with the one produced by its own `mutate()` operation".  The function is
`const` and `m_rep` is the only `mutable` member, so it can assign `m_rep` only; when
`mutate ()` produces nothing (the `nullptr` of the default at line 289) there is nothing to
replace the representation with. -/
def maybe_mutate (ops : mxArray_base R V) (self : mxArray R) : mxArray R :=
  match ops.mutate self.m_rep with
  | some new_val => { self with m_rep := new_val.m_rep }
  | none => self

/-- The macro `DO_MUTABLE_METHOD(RET_T, METHOD_CALL)` (lines 64-73), `METHOD_CALL` being
`c`:
```
RET_T retval = m_rep->METHOD_CALL;
if (m_rep->mutation_needed ()) { maybe_mutate (); retval = m_rep->METHOD_CALL; }
return retval
```
An `error` raised by either call leaves the accessor at that point. -/
def DO_MUTABLE_METHOD (ops : mxArray_base R V) (c : RepCall) (self : mxArray R) :
    Outcome R V :=
  let first := ops.call c self.m_rep
  let self1 : mxArray R := { self with m_rep := first.2 }
  match first.1 with
  | .error e => { retval := .error e, self := self1, trace := [.method c self.m_rep] }
  | .ok retval =>
    if ops.mutation_needed self1.m_rep then
      let self2 := maybe_mutate ops self1
      let second := ops.call c self2.m_rep
      { retval := retOf second.1
        self := { self2 with m_rep := second.2 }
        trace := [.method c self.m_rep, .mutation_needed self1.m_rep true,
                  .maybe_mutate self1.m_rep self2.m_rep, .method c self2.m_rep] }
    else
      { retval := .ok (some retval)
        self := self1
        trace := [.method c self.m_rep, .mutation_needed self1.m_rep false] }

/-- The macro `DO_VOID_MUTABLE_METHOD(METHOD_CALL)` (lines 75-82):
```
m_rep->METHOD_CALL;
if (m_rep->mutation_needed ()) { maybe_mutate (); m_rep->METHOD_CALL; }
```
-/
def DO_VOID_MUTABLE_METHOD (ops : mxArray_base R V) (c : RepCall) (self : mxArray R) :
    Outcome R V :=
  let first := ops.call c self.m_rep
  let self1 : mxArray R := { self with m_rep := first.2 }
  match first.1 with
  | .error e => { retval := .error e, self := self1, trace := [.method c self.m_rep] }
  | .ok _ =>
    if ops.mutation_needed self1.m_rep then
      let self2 := maybe_mutate ops self1
      let second := ops.call c self2.m_rep
      { retval := voidOf second.1
        self := { self2 with m_rep := second.2 }
        trace := [.method c self.m_rep, .mutation_needed self1.m_rep true,
                  .maybe_mutate self1.m_rep self2.m_rep, .method c self2.m_rep] }
    else
      { retval := .ok none
        self := self1
        trace := [.method c self.m_rep, .mutation_needed self1.m_rep false] }

/-- An accessor whose body is `return m_rep->METHOD_CALL;` (for instance line 425,
`mwSize get_m () const { return m_rep->get_m (); }`). -/
def RETURN_REP_METHOD (ops : mxArray_base R V) (c : RepCall) (self : mxArray R) :
    Outcome R V :=
  let first := ops.call c self.m_rep
  { retval := retOf first.1
    self := { self with m_rep := first.2 }
    trace := [.method c self.m_rep] }

/-- An accessor whose body is `m_rep->METHOD_CALL;` with no result (line 460,
`set_property`). -/
def VOID_REP_METHOD (ops : mxArray_base R V) (c : RepCall) (self : mxArray R) :
    Outcome R V :=
  let first := ops.call c self.m_rep
  { retval := voidOf first.1
    self := { self with m_rep := first.2 }
    trace := [.method c self.m_rep] }

end mxArray

/-- The four shapes an accessor body of `class mxArray` takes in `mxarray.h`. -/
inductive AccessorBody where
  /-- The body `{ return m_rep->METHOD_CALL; }`. -/
  | return_rep
  /-- The body `{ m_rep->METHOD_CALL; }`. -/
  | void_rep
  /-- The body `{ DO_MUTABLE_METHOD (RET_T, METHOD_CALL); }`. -/
  | mutable_method
  /-- The body `{ DO_VOID_MUTABLE_METHOD (METHOD_CALL); }`. -/
  | void_mutable_method
  deriving DecidableEq, Repr

/-- The body `mxarray.h` (lines 380-595) gives the accessor of each name. -/
def accessorBody : RepCall → AccessorBody
  | .is_octave_value => .return_rep
  | .iscell => .return_rep
  | .is_char => .return_rep
  | .is_class _ => .return_rep
  | .is_complex => .return_rep
  | .is_double => .return_rep
  | .is_function_handle => .return_rep
  | .is_int16 => .return_rep
  | .is_int32 => .return_rep
  | .is_int64 => .return_rep
  | .is_int8 => .return_rep
  | .is_logical => .return_rep
  | .is_numeric => .return_rep
  | .is_single => .return_rep
  | .is_sparse => .return_rep
  | .is_struct => .return_rep
  | .is_uint16 => .return_rep
  | .is_uint32 => .return_rep
  | .is_uint64 => .return_rep
  | .is_uint8 => .return_rep
  | .is_logical_scalar => .return_rep
  | .is_logical_scalar_true => .return_rep
  | .get_m => .return_rep
  | .get_n => .return_rep
  | .get_dimensions => .return_rep
  | .get_number_of_dimensions => .return_rep
  | .set_m _ => .void_mutable_method
  | .set_n _ => .void_mutable_method
  | .set_dimensions _ _ => .mutable_method
  | .get_number_of_elements => .return_rep
  | .is_scalar => .return_rep
  | .get_class_id => .return_rep
  | .get_class_name => .return_rep
  | .get_property _ _ => .return_rep
  | .set_property _ _ _ => .void_rep
  | .set_class_name _ => .void_mutable_method
  | .get_cell _ => .mutable_method
  | .set_cell _ _ => .void_mutable_method
  | .get_scalar => .return_rep
  | .get_data => .mutable_method
  | .get_doubles => .mutable_method
  | .get_singles => .mutable_method
  | .get_int8s => .mutable_method
  | .get_int16s => .mutable_method
  | .get_int32s => .mutable_method
  | .get_int64s => .mutable_method
  | .get_uint8s => .mutable_method
  | .get_uint16s => .mutable_method
  | .get_uint32s => .mutable_method
  | .get_uint64s => .mutable_method
  | .get_complex_doubles => .mutable_method
  | .get_complex_singles => .mutable_method
  | .get_imag_data => .mutable_method
  | .set_data _ => .void_mutable_method
  | .set_doubles _ => .mutable_method
  | .set_singles _ => .mutable_method
  | .set_int8s _ => .mutable_method
  | .set_int16s _ => .mutable_method
  | .set_int32s _ => .mutable_method
  | .set_int64s _ => .mutable_method
  | .set_uint8s _ => .mutable_method
  | .set_uint16s _ => .mutable_method
  | .set_uint32s _ => .mutable_method
  | .set_uint64s _ => .mutable_method
  | .set_complex_doubles _ => .mutable_method
  | .set_complex_singles _ => .mutable_method
  | .set_imag_data _ => .void_mutable_method
  | .get_ir => .mutable_method
  | .get_jc => .mutable_method
  | .get_nzmax => .return_rep
  | .set_ir _ => .void_mutable_method
  | .set_jc _ => .void_mutable_method
  | .set_nzmax _ => .void_mutable_method
  | .add_field _ => .mutable_method
  | .remove_field _ => .void_mutable_method
  | .get_field_by_number _ _ => .mutable_method
  | .set_field_by_number _ _ _ => .void_mutable_method
  | .get_number_of_fields => .return_rep
  | .get_field_name_by_number _ => .mutable_method
  | .get_field_number _ => .mutable_method
  | .get_string _ _ => .return_rep
  | .array_to_string => .return_rep
  | .calc_single_subscript _ _ => .return_rep
  | .get_element_size => .return_rep

namespace mxArray

variable {R V : Type}

/-- The accessor of `class mxArray` named by `c`, called with the arguments `c` carries. -/
def accessor (ops : mxArray_base R V) (c : RepCall) (self : mxArray R) : Outcome R V :=
  match accessorBody c with
  | .return_rep => RETURN_REP_METHOD ops c self
  | .void_rep => VOID_REP_METHOD ops c self
  | .mutable_method => DO_MUTABLE_METHOD ops c self
  | .void_mutable_method => DO_VOID_MUTABLE_METHOD ops c self

/-- A sequence of accessor calls made one after the other on the same handle; the outcomes
in order. -/
def accessors (ops : mxArray_base R V) : List RepCall → mxArray R → List (Outcome R V)
  | [], _ => []
  | c :: cs, self =>
    let o := accessor ops c self
    o :: accessors ops cs o.self

end mxArray

/-- Whether the accessor named by `c` is built with one of the two macros. -/
def isMutableAccessor (c : RepCall) : Bool :=
  match accessorBody c with
  | .mutable_method => true
  | .void_mutable_method => true
  | _ => false

/-- What the accessor named by `c` hands back for the result `res` of a representation
call: the value for an accessor with a return type, nothing for a `void` one. -/
def resultOf {V : Type} (c : RepCall) (res : Except String V) : Except String (Option V) :=
  match accessorBody c with
  | .return_rep => retOf res
  | .mutable_method => retOf res
  | .void_rep => voidOf res
  | .void_mutable_method => voidOf res

namespace mxArray

variable {R V : Type}

/-- The first `m_rep->METHOD_CALL` of an accessor: its result and the representation
afterwards. -/
def firstCall (ops : mxArray_base R V) (c : RepCall) (self : mxArray R) :
    Except String V × R :=
  ops.call c self.m_rep

/-- The handle after the first call followed by `maybe_mutate ()`. -/
def swapped (ops : mxArray_base R V) (c : RepCall) (self : mxArray R) : mxArray R :=
  maybe_mutate ops { self with m_rep := (firstCall ops c self).2 }

/-- The second `m_rep->METHOD_CALL`, made on the representation that is active after
`maybe_mutate ()`. -/
def secondCall (ops : mxArray_base R V) (c : RepCall) (self : mxArray R) :
    Except String V × R :=
  ops.call c (swapped ops c self).m_rep

end mxArray

/-! ### A small family of representations to evaluate the handle on -/

/-- Three representation classes: `cheap` holds no raw data and asks for a mutation when
asked for it (its `mutate ()` yields a `full` one when `good`, a `needy` one otherwise);
`full` holds its data at address `pr` and never asks; `needy` always reports that a mutation
is needed and keeps the default `mutate ()` of `mxArray_base`. -/
inductive ToyRep where
  | cheap (mutate_flag : Bool) (good : Bool)
  | full (pr : Nat)
  | needy (pr : Nat)
  deriving DecidableEq, Repr

/-- The member functions of the three classes of `ToyRep`. -/
def toyOps : mxArray_base ToyRep Nat where
  call := fun c r =>
    match r, c with
    | .cheap _ good, .get_data => (.ok 0, .cheap true good)
    | .cheap _ good, .set_m _ => (.ok 0, .cheap true good)
    | .cheap _ good, .get_scalar => (.ok 1, .cheap true good)
    | .cheap f good, .get_cell _ => (.error "cheap: invalid type for mxArray::get_cell", .cheap f good)
    | .cheap f good, _ => (.ok 0, .cheap f good)
    | .full pr, .get_data => (.ok pr, .full pr)
    | .full pr, .get_scalar => (.ok 2, .full pr)
    | .full pr, .set_m m => (.ok 0, .full (pr + m))
    | .full pr, _ => (.ok 0, .full pr)
    | .needy pr, _ => (.ok pr, .needy pr)
  mutation_needed := fun r =>
    match r with
    | .cheap f _ => f
    | .full _ => false
    | .needy _ => true
  mutate := fun r =>
    match r with
    | .cheap _ true => some { m_rep := .full 7, m_name := none }
    | .cheap _ false => some { m_rep := .needy 9, m_name := none }
    | .full _ => none
    | .needy _ => none

/-- A named handle on a fresh `cheap` representation whose `mutate ()` yields a `full`
one. -/
def toyHandle : mxArray ToyRep := { m_rep := .cheap false true, m_name := some "x" }

/-- A named handle on a fresh `cheap` representation whose `mutate ()` yields a `needy`
one. -/
def toyHandleNeedy : mxArray ToyRep := { m_rep := .cheap false false, m_name := some "y" }

/-- The states a representation object can be in after member functions were called on
it: `Reaches ops r r1` when `r1` is `r` after some sequence of calls. -/
inductive Reaches {R V : Type} (ops : mxArray_base R V) (r : R) : R → Prop where
  | refl : Reaches ops r r
  | call (c : RepCall) {r1 : R} : Reaches ops r r1 → Reaches ops r (ops.call c r1).2

/-! ### Counting the calls made on a representation -/

/-- A representation object together with two counters: `calls`, the member-function calls
`m_rep->METHOD_CALL` made on it and on the representations it took the place of, and
`swaps`, the number of times a representation was put in the place of another. -/
structure Counted (R : Type) where
  rep : R
  calls : Nat
  swaps : Nat

/-- The interface `ops` with the counters kept: a member-function call adds one to `calls`,
and the representation `mutate ()` produces takes the counters over and adds one to `swaps`.
What the member functions return and the representation states are those of `ops`. -/
def counted {R V : Type} (ops : mxArray_base R V) : mxArray_base (Counted R) V where
  call := fun c s =>
    ((ops.call c s.rep).1, { rep := (ops.call c s.rep).2, calls := s.calls + 1, swaps := s.swaps })
  mutation_needed := fun s => ops.mutation_needed s.rep
  mutate := fun s =>
    match ops.mutate s.rep with
    | some new_val =>
      some { m_rep := { rep := new_val.m_rep, calls := s.calls, swaps := s.swaps + 1 }
             m_name := new_val.m_name }
    | none => none

/-- The member functions of a representation called directly one after the other, without a
handle: for each call, what the accessor of that name hands back for its result, and the
state of the representation afterwards. -/
def repCalls {R V : Type} (ops : mxArray_base R V) :
    List RepCall → R → List (Except String (Option V) × R)
  | [], _ => []
  | c :: cs, r =>
    (resultOf c (ops.call c r).1, (ops.call c r).2) :: repCalls ops cs (ops.call c r).2

/-! ## Part 2: the operator files `op-m-scm.cc`, `op-cm-scm.cc`, `op-pm-sm.cc` -/

/-- The library types and functions the kernels of `op-m-scm.cc` and `op-cm-scm.cc` call and
do not define: the array and matrix types, the division of an array by a complex scalar
(`operator /`), and `xdiv`, which receives the matrix type by reference and may update it,
and may raise an error. -/
structure Lib where
  NDArray : Type
  ComplexNDArray : Type
  Matrix : Type
  ComplexMatrix : Type
  SparseComplexMatrix : Type
  Complex : Type
  MatrixType : Type
  nd_div : NDArray → Complex → ComplexNDArray
  cnd_div : ComplexNDArray → Complex → ComplexNDArray
  xdiv_m_scm : Matrix → SparseComplexMatrix → MatrixType →
    Except String (ComplexMatrix × MatrixType)
  xdiv_cm_scm : ComplexMatrix → SparseComplexMatrix → MatrixType →
    Except String (ComplexMatrix × MatrixType)

/-- An operand of class `octave_matrix`, as far as the kernels look at it. -/
structure octave_matrix (L : Lib) where
  rows : Nat
  columns : Nat
  array_value : L.NDArray
  matrix_value : L.Matrix

/-- An operand of class `octave_complex_matrix`, as far as the kernels look at it. -/
structure octave_complex_matrix (L : Lib) where
  rows : Nat
  columns : Nat
  complex_array_value : L.ComplexNDArray
  complex_matrix_value : L.ComplexMatrix

/-- An operand of class `octave_sparse_complex_matrix`, as far as the kernels look at it;
`matrix_type` is the cached matrix type, read by `v2.matrix_type ()` and written by
`v2.matrix_type (typ)`. -/
structure octave_sparse_complex_matrix (L : Lib) where
  rows : Nat
  columns : Nat
  complex_value : L.Complex
  sparse_complex_matrix_value : L.SparseComplexMatrix
  matrix_type : L.MatrixType

/-- The values the `div` kernels build: `octave_value (const ComplexNDArray&)` and
`octave_value (const ComplexMatrix&)`. -/
inductive octave_value (L : Lib) where
  | complex_nd_array (a : L.ComplexNDArray)
  | complex_matrix (m : L.ComplexMatrix)

/-- The library functions a `div` kernel can call. -/
inductive LibCall where
  | scalar_div
  | xdiv
  deriving DecidableEq, Repr

/-- What a `div` kernel does: the value it returns or the error it leaves with, the right
operand afterwards, and the library calls it made. -/
structure KernelOutcome (L : Lib) where
  retval : Except String (octave_value L)
  v2 : octave_sparse_complex_matrix L
  calls : List LibCall

namespace op_m_scm

/-- The kernel `DEFBINOP (div, matrix, sparse_complex_matrix)` (`op-m-scm.cc`,
lines 53-70). -/
def oct_binop_div (L : Lib) (v1 : octave_matrix L) (v2 : octave_sparse_complex_matrix L) :
    KernelOutcome L :=
  if v2.rows = 1 ∧ v2.columns = 1 then
    { retval := .ok (.complex_nd_array (L.nd_div v1.array_value v2.complex_value))
      v2 := v2
      calls := [.scalar_div] }
  else
    let typ := v2.matrix_type
    match L.xdiv_m_scm v1.matrix_value v2.sparse_complex_matrix_value typ with
    | .error e => { retval := .error e, v2 := v2, calls := [.xdiv] }
    | .ok (ret, typ1) =>
      { retval := .ok (.complex_matrix ret)
        v2 := { v2 with matrix_type := typ1 }
        calls := [.xdiv] }

/-- The kernel `DEFBINOPX (pow, matrix, sparse_complex_matrix)` (`op-m-scm.cc`,
lines 72-75): the body
is the single statement `error ("can't do A ^ B for A and B both matrices");`. -/
def oct_binop_pow (L : Lib) (_a1 : octave_matrix L) (_a2 : octave_sparse_complex_matrix L) :
    Except String (octave_value L) :=
  .error "can't do A ^ B for A and B both matrices"

end op_m_scm

namespace op_cm_scm

/-- The kernel `DEFBINOP (div, complex_matrix, sparse_complex_matrix)` (`op-cm-scm.cc`,
lines 52-69). -/
def oct_binop_div (L : Lib) (v1 : octave_complex_matrix L)
    (v2 : octave_sparse_complex_matrix L) : KernelOutcome L :=
  if v2.rows = 1 ∧ v2.columns = 1 then
    { retval := .ok (.complex_nd_array (L.cnd_div v1.complex_array_value v2.complex_value))
      v2 := v2
      calls := [.scalar_div] }
  else
    let typ := v2.matrix_type
    match L.xdiv_cm_scm v1.complex_matrix_value v2.sparse_complex_matrix_value typ with
    | .error e => { retval := .error e, v2 := v2, calls := [.xdiv] }
    | .ok (ret, typ1) =>
      { retval := .ok (.complex_matrix ret)
        v2 := { v2 with matrix_type := typ1 }
        calls := [.xdiv] }

/-- The kernel `DEFBINOPX (pow, complex_matrix, sparse_complex_matrix)` (`op-cm-scm.cc`,
lines 71-74). -/
def oct_binop_pow (L : Lib) (_a1 : octave_complex_matrix L)
    (_a2 : octave_sparse_complex_matrix L) : Except String (octave_value L) :=
  .error "can't do A ^ B for A and B both matrices"

end op_cm_scm

/-- What a `div` kernel's `xdiv` branch hands back for the result of `xdiv`. -/
def xdivResult {L : Lib} (res : Except String (L.ComplexMatrix × L.MatrixType)) :
    Except String (octave_value L) :=
  match res with
  | .error e => .error e
  | .ok (ret, _) => .ok (.complex_matrix ret)

/-- A library over the integers to evaluate the kernels on: arrays and matrices are lists
of entries, a complex number is a pair, the matrix type is a number; dividing by a complex
scalar divides by its real part, `xdiv` fails on an empty right operand and otherwise
divides by its first entry and marks the matrix type as computed. -/
@[reducible]
def toyLib : Lib where
  NDArray := List Int
  ComplexNDArray := List (Int × Int)
  Matrix := List Int
  ComplexMatrix := List (Int × Int)
  SparseComplexMatrix := List (Int × Int)
  Complex := Int × Int
  MatrixType := Nat
  nd_div := fun a z => a.map fun x => (x / z.1, 0)
  cnd_div := fun a z => a.map fun x => (x.1 / z.1, x.2 / z.1)
  xdiv_m_scm := fun a b typ =>
    match b with
    | [] => .error "operator /: nonconformant arguments"
    | z :: _ => .ok (a.map fun x => (x / z.1, 0), typ + 1)
  xdiv_cm_scm := fun a b typ =>
    match b with
    | [] => .error "operator /: nonconformant arguments"
    | z :: _ => .ok (a.map fun x => (x.1 / z.1, x.2 / z.1), typ + 1)

/-- A 1x2 real matrix with entries 6 and 8. -/
def toyMatrix : octave_matrix toyLib :=
  { rows := 1, columns := 2, array_value := [6, 8], matrix_value := [6, 8] }

/-- A 1x2 complex matrix with entries 6+2i and 8+4i. -/
def toyComplexMatrix : octave_complex_matrix toyLib :=
  { rows := 1, columns := 2, complex_array_value := [(6, 2), (8, 4)],
    complex_matrix_value := [(6, 2), (8, 4)] }

/-- A 1x1 sparse complex matrix holding 2. -/
def toySparseScalar : octave_sparse_complex_matrix toyLib :=
  { rows := 1, columns := 1, complex_value := (2, 0),
    sparse_complex_matrix_value := [(2, 0)], matrix_type := (0 : Nat) }

/-- A 2x2 sparse complex matrix whose first entry is 2. -/
def toySparseSquare : octave_sparse_complex_matrix toyLib :=
  { rows := 2, columns := 2, complex_value := (2, 0),
    sparse_complex_matrix_value := [(2, 0), (0, 0), (0, 0), (2, 0)], matrix_type := (0 : Nat) }

/-! ### The installers -/

/-- The value classes the three installers name. `other n` stands for any further class. -/
inductive TypeId where
  | octave_matrix
  | octave_complex_matrix
  | octave_sparse_complex_matrix
  | octave_perm_matrix
  | octave_sparse_matrix
  | other (n : Nat)
  deriving DecidableEq, Repr

/-- The operator tags the `INSTALL_BINOP_TI` calls of the three files name. -/
inductive binary_op where
  | op_add | op_sub | op_mul | op_div | op_pow | op_ldiv
  | op_mul_trans | op_mul_herm
  | op_lt | op_le | op_eq | op_ge | op_gt | op_ne
  | op_el_mul | op_el_div | op_el_pow | op_el_ldiv | op_el_and | op_el_or
  deriving DecidableEq, Repr

/-- The operator tag the `INSTALL_ASSIGNOP_TI` call names. -/
inductive assign_op where
  | op_asn_eq
  deriving DecidableEq, Repr

/-- The three operator files. -/
inductive SourceFile where
  | op_m_scm
  | op_cm_scm
  | op_pm_sm
  deriving DecidableEq, Repr

/-- A kernel: a function `static` to one operator file, named as in the `INSTALL_..._TI`
call that registers it. -/
structure Kernel where
  file : SourceFile
  name : String
  deriving DecidableEq, Repr

/-- One registration call of an installer, with its arguments after `ti`. -/
inductive Registration where
  | INSTALL_BINOP_TI (op : binary_op) (t1 t2 : TypeId) (f : Kernel)
  | INSTALL_CATOP_TI (t1 t2 : TypeId) (f : Kernel)
  | INSTALL_ASSIGNOP_TI (op : assign_op) (t1 t2 : TypeId) (f : Kernel)
  | INSTALL_ASSIGNCONV_TI (t1 t2 tr : TypeId)
  | INSTALL_WIDENOP_TI (t1 t2 : TypeId) (f : Kernel)
  deriving DecidableEq, Repr

/-- A kernel of `op-m-scm.cc`. -/
def m_scm (name : String) : Kernel := { file := .op_m_scm, name := name }

/-- A kernel of `op-cm-scm.cc`. -/
def cm_scm (name : String) : Kernel := { file := .op_cm_scm, name := name }

/-- A kernel of `op-pm-sm.cc`. -/
def pm_sm (name : String) : Kernel := { file := .op_pm_sm, name := name }

/-- The calls `install_m_scm_ops` makes, in order (`op-m-scm.cc`, lines 137-173). -/
def install_m_scm_ops_calls : List Registration := [
    .INSTALL_BINOP_TI .op_add .octave_matrix .octave_sparse_complex_matrix (m_scm "add"),
    .INSTALL_BINOP_TI .op_sub .octave_matrix .octave_sparse_complex_matrix (m_scm "sub"),
    .INSTALL_BINOP_TI .op_mul .octave_matrix .octave_sparse_complex_matrix (m_scm "mul"),
    .INSTALL_BINOP_TI .op_div .octave_matrix .octave_sparse_complex_matrix (m_scm "div"),
    .INSTALL_BINOP_TI .op_pow .octave_matrix .octave_sparse_complex_matrix (m_scm "pow"),
    .INSTALL_BINOP_TI .op_ldiv .octave_matrix .octave_sparse_complex_matrix (m_scm "ldiv"),
    .INSTALL_BINOP_TI .op_lt .octave_matrix .octave_sparse_complex_matrix (m_scm "lt"),
    .INSTALL_BINOP_TI .op_le .octave_matrix .octave_sparse_complex_matrix (m_scm "le"),
    .INSTALL_BINOP_TI .op_eq .octave_matrix .octave_sparse_complex_matrix (m_scm "eq"),
    .INSTALL_BINOP_TI .op_ge .octave_matrix .octave_sparse_complex_matrix (m_scm "ge"),
    .INSTALL_BINOP_TI .op_gt .octave_matrix .octave_sparse_complex_matrix (m_scm "gt"),
    .INSTALL_BINOP_TI .op_ne .octave_matrix .octave_sparse_complex_matrix (m_scm "ne"),
    .INSTALL_BINOP_TI .op_el_mul .octave_matrix .octave_sparse_complex_matrix (m_scm "el_mul"),
    .INSTALL_BINOP_TI .op_el_div .octave_matrix .octave_sparse_complex_matrix (m_scm "el_div"),
    .INSTALL_BINOP_TI .op_el_pow .octave_matrix .octave_sparse_complex_matrix (m_scm "el_pow"),
    .INSTALL_BINOP_TI .op_el_ldiv .octave_matrix .octave_sparse_complex_matrix (m_scm "el_ldiv"),
    .INSTALL_BINOP_TI .op_el_and .octave_matrix .octave_sparse_complex_matrix (m_scm "el_and"),
    .INSTALL_BINOP_TI .op_el_or .octave_matrix .octave_sparse_complex_matrix (m_scm "el_or"),
    .INSTALL_CATOP_TI .octave_matrix .octave_sparse_complex_matrix (m_scm "m_scm"),
    .INSTALL_ASSIGNCONV_TI .octave_matrix .octave_sparse_complex_matrix
      .octave_complex_matrix,
    .INSTALL_WIDENOP_TI .octave_matrix .octave_sparse_complex_matrix
      (m_scm "sparse_complex_matrix_conv")]

/-- The calls `install_cm_scm_ops` makes, in order (`op-cm-scm.cc`, lines 144-198). -/
def install_cm_scm_ops_calls : List Registration := [
    .INSTALL_BINOP_TI .op_add .octave_complex_matrix .octave_sparse_complex_matrix (cm_scm "add"),
    .INSTALL_BINOP_TI .op_sub .octave_complex_matrix .octave_sparse_complex_matrix (cm_scm "sub"),
    .INSTALL_BINOP_TI .op_mul .octave_complex_matrix .octave_sparse_complex_matrix (cm_scm "mul"),
    .INSTALL_BINOP_TI .op_div .octave_complex_matrix .octave_sparse_complex_matrix (cm_scm "div"),
    .INSTALL_BINOP_TI .op_pow .octave_complex_matrix .octave_sparse_complex_matrix (cm_scm "pow"),
    .INSTALL_BINOP_TI .op_ldiv .octave_complex_matrix .octave_sparse_complex_matrix (cm_scm "ldiv"),
    .INSTALL_BINOP_TI .op_mul_trans .octave_complex_matrix .octave_sparse_complex_matrix (cm_scm "mul_trans"),
    .INSTALL_BINOP_TI .op_mul_herm .octave_complex_matrix .octave_sparse_complex_matrix (cm_scm "mul_herm"),
    .INSTALL_BINOP_TI .op_lt .octave_complex_matrix .octave_sparse_complex_matrix (cm_scm "lt"),
    .INSTALL_BINOP_TI .op_le .octave_complex_matrix .octave_sparse_complex_matrix (cm_scm "le"),
    .INSTALL_BINOP_TI .op_eq .octave_complex_matrix .octave_sparse_complex_matrix (cm_scm "eq"),
    .INSTALL_BINOP_TI .op_ge .octave_complex_matrix .octave_sparse_complex_matrix (cm_scm "ge"),
    .INSTALL_BINOP_TI .op_gt .octave_complex_matrix .octave_sparse_complex_matrix (cm_scm "gt"),
    .INSTALL_BINOP_TI .op_ne .octave_complex_matrix .octave_sparse_complex_matrix (cm_scm "ne"),
    .INSTALL_BINOP_TI .op_el_mul .octave_complex_matrix .octave_sparse_complex_matrix (cm_scm "el_mul"),
    .INSTALL_BINOP_TI .op_el_div .octave_complex_matrix .octave_sparse_complex_matrix (cm_scm "el_div"),
    .INSTALL_BINOP_TI .op_el_pow .octave_complex_matrix .octave_sparse_complex_matrix (cm_scm "el_pow"),
    .INSTALL_BINOP_TI .op_el_ldiv .octave_complex_matrix .octave_sparse_complex_matrix (cm_scm "el_ldiv"),
    .INSTALL_BINOP_TI .op_el_and .octave_complex_matrix .octave_sparse_complex_matrix (cm_scm "el_and"),
    .INSTALL_BINOP_TI .op_el_or .octave_complex_matrix .octave_sparse_complex_matrix (cm_scm "el_or"),
    .INSTALL_CATOP_TI .octave_complex_matrix .octave_sparse_complex_matrix (cm_scm "cm_scm"),
    .INSTALL_ASSIGNOP_TI .op_asn_eq .octave_complex_matrix .octave_sparse_complex_matrix
      (cm_scm "assign"),
    .INSTALL_ASSIGNCONV_TI .octave_complex_matrix .octave_sparse_complex_matrix
      .octave_complex_matrix,
    .INSTALL_WIDENOP_TI .octave_complex_matrix .octave_sparse_complex_matrix
      (cm_scm "sparse_complex_matrix_conv")]

/-- The calls `install_pm_sm_ops` makes, in order (`op-pm-sm.cc`, lines 95-106). -/
def install_pm_sm_ops_calls : List Registration := [
    .INSTALL_BINOP_TI .op_mul .octave_perm_matrix .octave_sparse_matrix (pm_sm "mul_pm_sm"),
    .INSTALL_BINOP_TI .op_ldiv .octave_perm_matrix .octave_sparse_matrix (pm_sm "ldiv_pm_sm"),
    .INSTALL_BINOP_TI .op_mul .octave_sparse_matrix .octave_perm_matrix (pm_sm "mul_sm_pm"),
    .INSTALL_BINOP_TI .op_div .octave_sparse_matrix .octave_perm_matrix (pm_sm "div_sm_pm")]

/-- The key (operator kind, left type, right type) of an `INSTALL_BINOP_TI` call; nothing
for the other registration calls. -/
def Registration.binopKey : Registration → Option (binary_op × TypeId × TypeId)
  | .INSTALL_BINOP_TI op t1 t2 _ => some (op, t1, t2)
  | _ => none

/-- The keys of the `INSTALL_BINOP_TI` calls of an installer, in order. -/
def binopKeys (calls : List Registration) : List (binary_op × TypeId × TypeId) :=
  calls.filterMap Registration.binopKey

/-- Modelled from the spec: the operator table `octave::type_info`, which the three files
only receive as `ti` (its class is defined outside src).  The spec (3, OperatorTableEntry and
ConversionEdge): a mapping from the key (operator kind, left type, right type) to a kernel
for the binary kinds, at most one kernel per key, and for widening a mapping from the source
type to the target type and the conversion function, at most one per source type.  One map
per kind of registration call: binary operators, concatenation, assignment, the preferred
type of an assignment conversion, widening. -/
structure type_info where
  binary_ops : binary_op × TypeId × TypeId → Option Kernel
  cat_ops : TypeId × TypeId → Option Kernel
  assign_ops : assign_op × TypeId × TypeId → Option Kernel
  pref_assign_conv : TypeId × TypeId → Option TypeId
  widening_ops : TypeId → Option (TypeId × Kernel)

/-- Modelled from the spec: what one registration call does to the table, the `INSTALL_..._TI`
macros and the `install_...` member functions of `type_info` being defined outside src.
The spec (4.2): "Installation is idempotent-by-replacement (last registration for a given
key wins)"; every other key keeps its entry. -/
def type_info.install (ti : type_info) : Registration → type_info
  | .INSTALL_BINOP_TI op t1 t2 f =>
    { ti with binary_ops := Function.update ti.binary_ops (op, t1, t2) (some f) }
  | .INSTALL_CATOP_TI t1 t2 f =>
    { ti with cat_ops := Function.update ti.cat_ops (t1, t2) (some f) }
  | .INSTALL_ASSIGNOP_TI op t1 t2 f =>
    { ti with assign_ops := Function.update ti.assign_ops (op, t1, t2) (some f) }
  | .INSTALL_ASSIGNCONV_TI t1 t2 tr =>
    { ti with pref_assign_conv := Function.update ti.pref_assign_conv (t1, t2) (some tr) }
  | .INSTALL_WIDENOP_TI t1 t2 f =>
    { ti with widening_ops := Function.update ti.widening_ops t1 (some (t2, f)) }

/-- The calls of an installer made one after the other on a table. -/
def type_info.installAll (ti : type_info) (calls : List Registration) : type_info :=
  calls.foldl type_info.install ti

/-- The installer `void install_m_scm_ops (octave::type_info& ti)` (`op-m-scm.cc`,
line 136). -/
def install_m_scm_ops (ti : type_info) : type_info := ti.installAll install_m_scm_ops_calls

/-- The installer `void install_cm_scm_ops (octave::type_info& ti)` (`op-cm-scm.cc`,
line 143). -/
def install_cm_scm_ops (ti : type_info) : type_info := ti.installAll install_cm_scm_ops_calls

/-- The installer `void install_pm_sm_ops (octave::type_info& ti)` (`op-pm-sm.cc`,
line 94). -/
def install_pm_sm_ops (ti : type_info) : type_info := ti.installAll install_pm_sm_ops_calls

/-- The entry of the table a registration call writes. -/
inductive TableKey where
  | binary (op : binary_op) (t1 t2 : TypeId)
  | cat (t1 t2 : TypeId)
  | assign (op : assign_op) (t1 t2 : TypeId)
  | assign_conv (t1 t2 : TypeId)
  | widen (t : TypeId)
  deriving DecidableEq, Repr

/-- The entry of the table the registration call `r` writes. -/
def Registration.key : Registration → TableKey
  | .INSTALL_BINOP_TI op t1 t2 _ => .binary op t1 t2
  | .INSTALL_CATOP_TI t1 t2 _ => .cat t1 t2
  | .INSTALL_ASSIGNOP_TI op t1 t2 _ => .assign op t1 t2
  | .INSTALL_ASSIGNCONV_TI t1 t2 _ => .assign_conv t1 t2
  | .INSTALL_WIDENOP_TI t1 _ _ => .widen t1

/-- The empty table. -/
def type_info.empty : type_info where
  binary_ops := fun _ => none
  cat_ops := fun _ => none
  assign_ops := fun _ => none
  pref_assign_conv := fun _ => none
  widening_ops := fun _ => none

/-! ## Part 3: looking an entry of the operator table up -/

/-- What a registration call stores under its key: a kernel, the preferred type of an
assignment conversion, or the target type and the conversion function of a widening. -/
inductive TableEntry where
  | kernel (f : Kernel)
  | result_type (tr : TypeId)
  | conversion (t2 : TypeId) (f : Kernel)
  deriving DecidableEq, Repr

/-- The entry the registration call `r` stores. -/
def Registration.entry : Registration → TableEntry
  | .INSTALL_BINOP_TI _ _ _ f => .kernel f
  | .INSTALL_CATOP_TI _ _ f => .kernel f
  | .INSTALL_ASSIGNOP_TI _ _ _ f => .kernel f
  | .INSTALL_ASSIGNCONV_TI _ _ tr => .result_type tr
  | .INSTALL_WIDENOP_TI _ t2 f => .conversion t2 f

/-- Modelled from the spec: the `lookup` of the operator table, which no file under src
defines.  The spec (4.2): "`lookup(kind, left_type[, right_type]) -> optional<kernel>`",
"a pure function of the three-part key", "only exact TypeId pairs match directly": the
entry stored under exactly that key, if any. -/
def type_info.lookup (ti : type_info) : TableKey → Option TableEntry
  | .binary op t1 t2 => (ti.binary_ops (op, t1, t2)).map TableEntry.kernel
  | .cat t1 t2 => (ti.cat_ops (t1, t2)).map TableEntry.kernel
  | .assign op t1 t2 => (ti.assign_ops (op, t1, t2)).map TableEntry.kernel
  | .assign_conv t1 t2 => (ti.pref_assign_conv (t1, t2)).map TableEntry.result_type
  | .widen t => (ti.widening_ops t).map fun p => TableEntry.conversion p.1 p.2

/-- Modelled from the spec: `lookup` for a binary operator, as a kernel (spec 4.2). -/
def type_info.lookup_binary_op (ti : type_info) (op : binary_op) (t1 t2 : TypeId) :
    Option Kernel :=
  ti.binary_ops (op, t1, t2)

/-- The last call of a sequence of registration calls that writes the key `k`, if any. -/
def lastInstall (calls : List Registration) (k : TableKey) : Option Registration :=
  calls.reverse.find? fun r => decide (r.key = k)

/-! ## Part 4: `ov-null-mat.h` and `ov-re-diag.h` -/

/-- The value classes of `ov-null-mat.h` and `ov-re-diag.h` with the classes they derive
from; `other n` stands for any further class of the interpreter. -/
inductive ov_class where
  | octave_matrix
  | octave_char_matrix_str
  | octave_char_matrix_sq_str
  | octave_base_diag
  | octave_diag_matrix
  | octave_null_matrix
  | octave_null_str
  | octave_null_sq_str
  | other (n : Nat)
  deriving DecidableEq, Repr

/-- The base class written after `: public` in the class head (`ov-null-mat.h`, lines 46,
65, 86; `ov-re-diag.h`, line 41); nothing for a class whose head is not under src. -/
def ov_class.base : ov_class → Option ov_class
  | .octave_null_matrix => some .octave_matrix
  | .octave_null_str => some .octave_char_matrix_str
  | .octave_null_sq_str => some .octave_char_matrix_sq_str
  | .octave_diag_matrix => some .octave_base_diag
  | _ => none

/-- The `isnull` a class body under src declares: `bool isnull () const { return true; }`
in each of the three classes of `ov-null-mat.h` (lines 54, 75, 96), none in
`octave_diag_matrix`. -/
def ov_class.isnull_declared : ov_class → Option Bool
  | .octave_null_matrix => some true
  | .octave_null_str => some true
  | .octave_null_sq_str => some true
  | _ => none

/-- Modelled from the spec: the `isnull ()` a class inherits when its body declares none,
defined in the base classes outside src.  The spec (4.4): "`isnull()` is true only for the
three designated sentinels". -/
def octave_base_value_isnull : Bool := false

/-- A value object: its class and its dimensions. -/
structure octave_base_value where
  cls : ov_class
  rows : Nat
  columns : Nat
  deriving DecidableEq, Repr

namespace octave_base_value

/-- The virtual call `isnull ()`: the function the class declares, else the inherited
one. -/
def isnull (v : octave_base_value) : Bool :=
  match v.cls.isnull_declared with
  | some b => b
  | none => octave_base_value_isnull

/-- Whether the value has no elements. -/
def isempty (v : octave_base_value) : Bool := v.rows == 0 || v.columns == 0

end octave_base_value

/-- A default-constructed object of class `c`: the empty 0x0 value, as built by
`octave_matrix ()`, `octave_char_matrix_str ()`, `octave_char_matrix_sq_str ()` and
`octave_base_diag<DiagMatrix, Matrix> ()`. -/
def default_constructed (c : ov_class) : octave_base_value :=
  { cls := c, rows := 0, columns := 0 }

/-- The one object `octave_null_matrix ()` builds (`ov-null-mat.h`, line 48:
`octave_null_matrix () : octave_matrix () { }`), held by `instance`. -/
def octave_null_matrix_instance : octave_base_value := default_constructed .octave_null_matrix

/-- The one object `octave_null_str ()` builds (line 67), held by `instance`. -/
def octave_null_str_instance : octave_base_value := default_constructed .octave_null_str

/-- The one object `octave_null_sq_str ()` builds (line 88), held by `instance`. -/
def octave_null_sq_str_instance : octave_base_value :=
  default_constructed .octave_null_sq_str

namespace octave_diag_matrix

/-- The member `octave_base_value * clone () const { return new octave_diag_matrix (*this); }`
(`ov-re-diag.h`, lines 56-57). -/
def clone (self : octave_base_value) : octave_base_value :=
  { self with cls := .octave_diag_matrix }

/-- The member `octave_base_value * empty_clone () const { return new octave_diag_matrix (); }`
(`ov-re-diag.h`, lines 58-59). -/
def empty_clone (_self : octave_base_value) : octave_base_value :=
  default_constructed .octave_diag_matrix

end octave_diag_matrix

/-- Modelled from the spec: the `clone ()` of a value, which the three classes of
`ov-null-mat.h` do not declare and inherit from base classes defined outside src.  The
design rationale of `ov-null-mat.h` (lines 35-39): "Cloning the object returns just a normal
empty matrix"; the spec (4.4): the clone is "an ordinary, non-sentinel representation of the
same declared type".  A sentinel is copied into an object of the class it derives from;
`octave_diag_matrix` has its own `clone`; any other object is copied as it is. -/
def octave_base_value.clone (v : octave_base_value) : octave_base_value :=
  match v.cls with
  | .octave_null_matrix => { v with cls := .octave_matrix }
  | .octave_null_str => { v with cls := .octave_char_matrix_str }
  | .octave_null_sq_str => { v with cls := .octave_char_matrix_sq_str }
  | .octave_diag_matrix => octave_diag_matrix.clone v
  | _ => v

/-- A handle on a value object: the object and the number of handles sharing it. -/
structure ov_handle where
  rep : octave_base_value
  count : Nat
  deriving DecidableEq, Repr

namespace ov_handle

/-- The call `isnull ()` through the handle. -/
def isnull (h : ov_handle) : Bool := h.rep.isnull

/-- Modelled from the spec: what a handle does before it changes its value, defined
outside src.  The spec (4.4): "any attempt to mutate or extend such an instance must first
clone it"; the design rationale of `ov-null-mat.h`: the one object "can have shallow
copies", which "are, in fact, read-only".  A handle that shares its object with another
handle replaces it by its clone and then owns it alone. -/
def make_unique (h : ov_handle) : ov_handle :=
  if h.count > 1 then { rep := h.rep.clone, count := 1 } else h

/-- Modelled from the spec: a mutating operation on a handle (spec 4.4 and 8): the handle
makes its object its own and a member function then changes the object in place, here its
dimensions, to `rows` x `columns`. -/
def resize (h : ov_handle) (rows columns : Nat) : ov_handle :=
  let u := h.make_unique
  { u with rep := { u.rep with rows := rows, columns := columns } }

end ov_handle

/-- The three objects held by the `static const octave_value instance` members. -/
def sentinels : List octave_base_value :=
  [octave_null_matrix_instance, octave_null_str_instance, octave_null_sq_str_instance]

/-- A handle that shares the object `v` with the `instance` member that holds it: at least
two handles share the object. -/
def shares_instance (h : ov_handle) (v : octave_base_value) : Prop :=
  h.rep = v ∧ 2 ≤ h.count


/-! ## Part 5: the kernels of `op-pm-sm.cc` -/

/-- The library types and functions the `mul` kernels of `op-pm-sm.cc` call and do not
define: the permutation and sparse matrix types, `double`, the product of a sparse matrix
with a scalar on either side, and the two matrix products, which may raise an error. -/
structure PmSmLib where
  PermMatrix : Type
  SparseMatrix : Type
  Double : Type
  sparse_times_scalar : SparseMatrix → Double → SparseMatrix
  scalar_times_sparse : Double → SparseMatrix → SparseMatrix
  perm_times_sparse : PermMatrix → SparseMatrix → Except String SparseMatrix
  sparse_times_perm : SparseMatrix → PermMatrix → Except String SparseMatrix

/-- An operand of class `octave_perm_matrix`, as far as the kernels look at it. -/
structure octave_perm_matrix (L : PmSmLib) where
  rows : Nat
  columns : Nat
  perm_matrix_value : L.PermMatrix
  sparse_matrix_value : L.SparseMatrix

/-- An operand of class `octave_sparse_matrix`, as far as the kernels look at it. -/
structure octave_sparse_matrix (L : PmSmLib) where
  rows : Nat
  columns : Nat
  scalar_value : L.Double
  sparse_matrix_value : L.SparseMatrix

namespace op_pm_sm

/-- The kernel `DEFBINOP (mul_pm_sm, perm_matrix, sparse_matrix)` (`op-pm-sm.cc`,
lines 43-58); the result is the sparse matrix the returned `octave_value` is built from. -/
def oct_binop_mul_pm_sm (L : PmSmLib) (v1 : octave_perm_matrix L)
    (v2 : octave_sparse_matrix L) : Except String L.SparseMatrix :=
  if v2.rows = 1 ∧ v2.columns = 1 then
    let d := v2.scalar_value
    .ok (L.sparse_times_scalar v1.sparse_matrix_value d)
  else if v1.rows = 1 ∧ v1.columns = 1 then
    .ok v2.sparse_matrix_value
  else
    L.perm_times_sparse v1.perm_matrix_value v2.sparse_matrix_value

/-- The kernel `DEFBINOP (mul_sm_pm, sparse_matrix, perm_matrix)` (`op-pm-sm.cc`,
lines 70-85). -/
def oct_binop_mul_sm_pm (L : PmSmLib) (v1 : octave_sparse_matrix L)
    (v2 : octave_perm_matrix L) : Except String L.SparseMatrix :=
  if v1.rows = 1 ∧ v1.columns = 1 then
    let d := v1.scalar_value
    .ok (L.scalar_times_sparse d v2.sparse_matrix_value)
  else if v2.rows = 1 ∧ v2.columns = 1 then
    .ok v1.sparse_matrix_value
  else
    L.sparse_times_perm v1.sparse_matrix_value v2.perm_matrix_value

end op_pm_sm

/-- A library over the integers to evaluate the kernels on: a permutation matrix is the
list of its column indices, a sparse matrix the list of its rows; the scalar products scale
every entry, a product with a permutation reorders the rows and fails on a size mismatch. -/
@[reducible]
def toyPmSmLib : PmSmLib where
  PermMatrix := List Nat
  SparseMatrix := List (List Int)
  Double := Int
  sparse_times_scalar := fun a d => a.map fun row => row.map fun x => x * d
  scalar_times_sparse := fun d a => a.map fun row => row.map fun x => d * x
  perm_times_sparse := fun p a =>
    if p.length = a.length then .ok (p.map fun i => a.getD i [])
    else .error "operator *: nonconformant arguments"
  sparse_times_perm := fun a p =>
    if a.all (fun row => row.length == p.length) then
      .ok (a.map fun row => p.map fun i => row.getD i 0)
    else .error "operator *: nonconformant arguments"

/-- The 2x2 permutation matrix that swaps the two rows. -/
def toySwap : octave_perm_matrix toyPmSmLib :=
  { rows := 2, columns := 2, perm_matrix_value := [1, 0],
    sparse_matrix_value := [[0, 1], [1, 0]] }

/-- The 1x1 permutation matrix. -/
def toyPermOne : octave_perm_matrix toyPmSmLib :=
  { rows := 1, columns := 1, perm_matrix_value := [0], sparse_matrix_value := [[1]] }

/-- The 1x1 sparse matrix holding 3. -/
def toySparseThree : octave_sparse_matrix toyPmSmLib :=
  { rows := 1, columns := 1, scalar_value := (3 : Int), sparse_matrix_value := [[3]] }

/-- The 2x2 sparse matrix with rows (1, 2) and (3, 4). -/
def toySparseTwoByTwo : octave_sparse_matrix toyPmSmLib :=
  { rows := 2, columns := 2, scalar_value := (1 : Int),
    sparse_matrix_value := [[1, 2], [3, 4]] }


/-! ## Part 6: `KeyboardTranslator.cpp`

A set of flags (`Qt::KeyboardModifiers`, `KeyboardTranslator::States`) is the finite set of
the enumerators that are set in it: `a | b` is the union, `a & b` the intersection, `0`
(`Qt::NoModifier`, `NoState`) the empty set, and a set of flags used as a condition is true
when it is not empty.  A byte of a `QByteArray` is the `Nat` below 256 it holds; a `QString`
is the list of its characters. -/

namespace KeyboardTranslator

/-- The enumerators of `Qt::KeyboardModifier` other than `Qt::NoModifier`. -/
inductive KeyboardModifier where
  | ShiftModifier
  | ControlModifier
  | AltModifier
  | MetaModifier
  | KeypadModifier
  | GroupSwitchModifier
  deriving DecidableEq, Repr

/-- The flag set `Qt::KeyboardModifiers`. -/
abbrev KeyboardModifiers := Finset KeyboardModifier

/-- The enumerators of `KeyboardTranslator::State` other than `NoState`. -/
inductive State where
  | NewLineState
  | AnsiState
  | CursorKeysState
  | AlternateScreenState
  | AnyModifierState
  deriving DecidableEq, Repr

/-- The flag set `KeyboardTranslator::States`. -/
abbrev States := Finset State

/-- The enumerators of `KeyboardTranslator::Command` that `KeyboardTranslator.cpp` names. -/
inductive Command where
  | NoCommand
  | EraseCommand
  | ScrollPageUpCommand
  | ScrollPageDownCommand
  | ScrollLineUpCommand
  | ScrollLineDownCommand
  | ScrollLockCommand
  deriving DecidableEq, Repr

/-- The data members of `KeyboardTranslator::Entry`, as named in the constructor
(lines 579-587) and in `operator==` (lines 591-600). -/
structure Entry where
  _keyCode : Int
  _modifiers : KeyboardModifiers
  _modifierMask : KeyboardModifiers
  _state : States
  _stateMask : States
  _command : Command
  _text : List Nat
  deriving DecidableEq

/-- The constructor `KeyboardTranslator::Entry::Entry()` (lines 579-587). -/
def Entry.new : Entry :=
  { _keyCode := 0
    _modifiers := ∅
    _modifierMask := ∅
    _state := ∅
    _stateMask := ∅
    _command := .NoCommand
    _text := [] }

/-- The member `bool KeyboardTranslator::Entry::matches(int keyCode,
Qt::KeyboardModifiers modifiers, States state) const` (lines 602-634). -/
def Entry.matches (self : Entry) (keyCode : Int) (modifiers : KeyboardModifiers)
    (state : States) : Bool :=
  if self._keyCode ≠ keyCode then false
  else if (modifiers ∩ self._modifierMask) ≠ (self._modifiers ∩ self._modifierMask) then
    false
  else
    -- if modifiers is non-zero, the 'any modifier' state is implicit
    let state := if modifiers ≠ ∅ then state ∪ {State.AnyModifierState} else state
    if (state ∩ self._stateMask) ≠ (self._state ∩ self._stateMask) then false
    else
      let anyModifiersSet : Bool :=
        decide (modifiers ≠ ∅) && decide (modifiers ≠ {KeyboardModifier.KeypadModifier})
      if (self._stateMask ∩ {State.AnyModifierState}) ≠ ∅ then
        -- test fails if any modifier is required but none are set
        if (self._state ∩ {State.AnyModifierState}) ≠ ∅ ∧ anyModifiersSet = false then false
        -- test fails if no modifier is allowed but one or more are set
        else if ¬ ((self._state ∩ {State.AnyModifierState}) ≠ ∅) ∧ anyModifiersSet = true then
          false
        else true
      else true

/-- An entry for the key 0x01000013 (`Qt::Key_Up`) that allows no modifier: its state mask
is `AnyModifierState`, its state and its modifier mask are empty (`key Up-AnyMod`). -/
def upNoModifier : Entry :=
  { Entry.new with _keyCode := 0x01000013, _stateMask := {State.AnyModifierState} }

/-- An entry for the key 0x01000013 (`Qt::Key_Up`) that requires a modifier: its state mask
and its state are `AnyModifierState` (`key Up+AnyMod`). -/
def upAnyModifier : Entry :=
  { Entry.new with
    _keyCode := 0x01000013
    _state := {State.AnyModifierState}
    _stateMask := {State.AnyModifierState} }

end KeyboardTranslator


namespace KeyboardTranslator

/-! ### `escapedText` and `unescape` -/

/-- The value `QChar(ch).isPrint()` for the character of a byte (Latin-1): every character
that is not in a Unicode category Other, that is 0x20-0x7e and 0xa0-0xff without the soft
hyphen 0xad. -/
def isPrint (ch : Nat) : Bool :=
  (0x20 ≤ ch && ch ≤ 0x7e) || (0xa0 ≤ ch && ch ≤ 0xff && ch != 0xad)

/-- The value of a hexadecimal digit character `0-9`, `a-f`, `A-F`; nothing for another
byte. -/
def hexDigitValue (ch : Nat) : Option Nat :=
  if 48 ≤ ch ∧ ch ≤ 57 then some (ch - 48)
  else if 97 ≤ ch ∧ ch ≤ 102 then some (ch - 87)
  else if 65 ≤ ch ∧ ch ≤ 70 then some (ch - 55)
  else none

/-- The C library function `isxdigit`. -/
def isxdigit (ch : Nat) : Bool := (hexDigitValue ch).isSome

/-- The value `QByteArray(1,ch).toInt(nullptr, 16)`: the byte array made of the one byte
`ch`, read as a number in base 16; 0 when the conversion fails. -/
def toInt16 (ch : Nat) : Nat := (hexDigitValue ch).getD 0

/-- The value `QByteArray::number(n)`: the decimal digits of `n`. -/
def number (n : Nat) : List Nat := (Nat.toDigits 10 n).map Char.toNat

/-- The call `result.replace(pos, len, after)` of `QByteArray`. -/
def replace (result : List Nat) (pos len : Nat) (after : List Nat) : List Nat :=
  result.take pos ++ after ++ result.drop (pos + len)

/-- The call `result.remove(pos, len)` of `QByteArray`. -/
def remove (result : List Nat) (pos len : Nat) : List Nat :=
  result.take pos ++ result.drop (pos + len)

/-- The call `result.insert(i, ch)` of `QByteArray`. -/
def insert (result : List Nat) (i : Nat) (ch : Nat) : List Nat :=
  result.take i ++ ch :: result.drop i

/-- The string a `char` array holds for a function that takes a `const char *`: the bytes
before the first 0. -/
def cstr (chars : List Nat) : List Nat := chars.takeWhile fun c => c != 0

/-- The `replacement` the `switch` of `escapedText` picks for the byte `ch` (lines 645-657):
a letter for the six named control bytes, `'x'` for any other byte that is not printable,
0 otherwise. -/
def escapedTextReplacement (ch : Nat) : Nat :=
  match ch with
  | 27 => 69
  | 8 => 98
  | 12 => 102
  | 9 => 116
  | 13 => 114
  | 10 => 110
  | _ => if !isPrint ch then 120 else 0

/-- The body of the `for` loop of `escapedText` at index `i` (lines 640-668). -/
def escapedTextAt (result : List Nat) (i : Nat) : List Nat :=
  let ch := result.getD i 0
  let replacement := escapedTextReplacement ch
  if replacement = 120 then
    replace result i 1 ([92, 120] ++ number (toInt16 ch))
  else if replacement ≠ 0 then
    insert (insert (remove result i 1) i 92) (i + 1) replacement
  else result

/-- The loop `for ( int i = 0 ; i < result.count() ; i++ )` of `escapedText`, from index
`i`; `none` when `fuel` iterations do not reach the end. -/
def escapedTextLoop : Nat → Nat → List Nat → Option (List Nat)
  | 0, i, result => if i < result.length then none else some result
  | fuel + 1, i, result =>
    if i < result.length then escapedTextLoop fuel (i + 1) (escapedTextAt result i)
    else some result

/-- The member `QByteArray KeyboardTranslator::Entry::escapedText(bool expandWildCards,
Qt::KeyboardModifiers modifiers) const` (lines 635-671), as a function of the byte array
`text(expandWildCards,modifiers)` it starts from (`text` is defined outside src).  A byte
becomes at most four bytes, none of which is replaced again. -/
def escapedText (text : List Nat) : Option (List Nat) :=
  escapedTextLoop (4 * text.length) 0 text

/-- The value `sscanf(hexDigits,"%x",&charValue)` leaves in `charValue`, which starts
at 0: the number the hexadecimal digits of the string spell, 0 for the empty string. -/
def sscanf_x (hexDigits : List Nat) : Nat :=
  hexDigits.foldl (fun acc c => acc * 16 + (hexDigitValue c).getD 0) 0

/-- The body of the `for` loop of `unescape` at index `i` (lines 678-719). -/
def unescapeAt (result : List Nat) (i : Nat) : List Nat :=
  let ch := result.getD i 0
  if ch = 92 then
    match result.getD (i + 1) 0 with
    | 69 => replace result i 2 (cstr [27, 0])
    | 98 => replace result i 2 (cstr [8, 0])
    | 102 => replace result i 2 (cstr [12, 0])
    | 116 => replace result i 2 (cstr [9, 0])
    | 114 => replace result i 2 (cstr [13, 0])
    | 110 => replace result i 2 (cstr [10, 0])
    | 120 =>
      -- format is \xh or \xhh
      let h0 := if i + 2 < result.length ∧ isxdigit (result.getD (i + 2) 0) = true
        then result.getD (i + 2) 0 else 0
      let h1 := if i + 3 < result.length ∧ isxdigit (result.getD (i + 3) 0) = true
        then result.getD (i + 3) 0 else 0
      let hexDigits := cstr [h0, h1, 0]
      let charValue := sscanf_x hexDigits
      let charsToRemove := 2 + hexDigits.length
      replace result i charsToRemove (cstr [charValue % 256, 0])
    | _ => result
  else result

/-- The loop `for ( int i = 0 ; i < result.count()-1 ; i++ )` of `unescape`, from index
`i`; `none` when `fuel` iterations do not reach the end. -/
def unescapeLoop : Nat → Nat → List Nat → Option (List Nat)
  | 0, i, result => if i + 1 < result.length then none else some result
  | fuel + 1, i, result =>
    if i + 1 < result.length then unescapeLoop fuel (i + 1) (unescapeAt result i)
    else some result

/-- The member `QByteArray KeyboardTranslator::Entry::unescape(const QByteArray& input)
const` (lines 672-724).  No iteration makes the array longer, so as many iterations as the
input has bytes reach the end. -/
def unescape (input : List Nat) : Option (List Nat) :=
  unescapeLoop input.length 0 input

/-- The bytes of a string of ASCII characters. -/
def bytes (s : String) : List Nat := s.toList.map Char.toNat

end KeyboardTranslator


namespace KeyboardTranslator

/-! ### `KeyboardTranslatorReader` -/

/-- The value `ch.isLetterOrNumber()` of `QChar`, on the ASCII characters. -/
def isLetterOrNumber (ch : Char) : Bool := ch.isAlphanum

/-- The member `bool KeyboardTranslatorReader::parseAsModifier(const QString& item,
Qt::KeyboardModifier& modifier)` (lines 404-420): the modifier it stores when it returns
true, nothing when it returns false. -/
def parseAsModifier (item : List Char) : Option KeyboardModifier :=
  if item = "shift".toList then some .ShiftModifier
  else if item = "ctrl".toList ∨ item = "control".toList then some .ControlModifier
  else if item = "alt".toList then some .AltModifier
  else if item = "meta".toList then some .MetaModifier
  else if item = "keypad".toList then some .KeypadModifier
  else none

/-- The member `bool KeyboardTranslatorReader::parseAsStateFlag(const QString& item,
KeyboardTranslator::State& flag)` (lines 421-437). -/
def parseAsStateFlag (item : List Char) : Option State :=
  if item = "appcukeys".toList then some .CursorKeysState
  else if item = "ansi".toList then some .AnsiState
  else if item = "newline".toList then some .NewLineState
  else if item = "appscreen".toList then some .AlternateScreenState
  else if item = "anymod".toList then some .AnyModifierState
  else none

/-- The member `bool KeyboardTranslatorReader::parseAsKeyCode(const QString& item,
int& keyCode)` (lines 438-459).  The library function `QKeySequence::fromString` is the
parameter `fromString`: the first key of the sequence, nothing for an empty sequence.
`Qt::Key_PageUp` is 0x01000016 and `Qt::Key_PageDown` is 0x01000017. -/
def parseAsKeyCode (fromString : List Char → Option Int) (item : List Char) : Option Int :=
  match fromString item with
  | some key => some key
  | none =>
    if item = "prior".toList then some 0x01000016
    else if item = "next".toList then some 0x01000017
    else none

/-- The local variables of `decodeSequence` that the loop changes. -/
structure DecodeState where
  isWanted : Bool
  buffer : List Char
  keyCode : Int
  tempModifiers : KeyboardModifiers
  tempModifierMask : KeyboardModifiers
  tempFlags : States
  tempFlagMask : States

/-- The body of `if ( (endOfItem || isLastLetter) && !buffer.isEmpty() )` in
`decodeSequence` (lines 357-384): the item in `buffer` is read as a modifier, else as a
state flag, else as a key code, and the buffer is cleared. -/
def decodeItem (fromString : List Char → Option Int) (s : DecodeState) : DecodeState :=
  match parseAsModifier s.buffer with
  | some itemModifier =>
    { s with
      tempModifierMask := s.tempModifierMask ∪ {itemModifier}
      tempModifiers := if s.isWanted then s.tempModifiers ∪ {itemModifier} else s.tempModifiers
      buffer := [] }
  | none =>
    match parseAsStateFlag s.buffer with
    | some itemFlag =>
      { s with
        tempFlagMask := s.tempFlagMask ∪ {itemFlag}
        tempFlags := if s.isWanted then s.tempFlags ∪ {itemFlag} else s.tempFlags
        buffer := [] }
    | none =>
      match parseAsKeyCode fromString s.buffer with
      | some itemKeyCode => { s with keyCode := itemKeyCode, buffer := [] }
      | none => { s with buffer := [] }

/-- One iteration of the `for` loop of `decodeSequence` (lines 346-393) on the character
`ch`, `isLastLetter` telling whether it is the last one of the text. -/
def decodeChar (fromString : List Char → Option Int) (ch : Char) (isLastLetter : Bool)
    (s : DecodeState) : DecodeState :=
  let endOfItem := !isLetterOrNumber ch
  let s1 := if isLetterOrNumber ch then { s with buffer := s.buffer ++ [ch] } else s
  let s2 := if (endOfItem || isLastLetter) && !s1.buffer.isEmpty
    then decodeItem fromString s1 else s1
  if ch = '+' then { s2 with isWanted := true }
  else if ch = '-' then { s2 with isWanted := false }
  else s2

/-- The loop `for ( int i = 0 ; i < text.count() ; i++ )` of `decodeSequence` on the
characters that are left. -/
def decodeLoop (fromString : List Char → Option Int) : List Char → DecodeState → DecodeState
  | [], s => s
  | ch :: rest, s => decodeLoop fromString rest (decodeChar fromString ch rest.isEmpty s)

/-- The values `decodeSequence` leaves in its five reference parameters. -/
structure Decoded where
  keyCode : Int
  modifiers : KeyboardModifiers
  modifierMask : KeyboardModifiers
  flags : States
  flagMask : States

/-- The member `bool KeyboardTranslatorReader::decodeSequence(const QString& text,
int& keyCode, Qt::KeyboardModifiers& modifiers, Qt::KeyboardModifiers& modifierMask,
KeyboardTranslator::States& flags, KeyboardTranslator::States& flagMask)` (lines 332-402);
it always returns true. -/
def decodeSequence (fromString : List Char → Option Int) (text : List Char) (keyCode : Int)
    (modifiers modifierMask : KeyboardModifiers) (flags flagMask : States) : Decoded :=
  let s := decodeLoop fromString text
    { isWanted := true
      buffer := []
      keyCode := keyCode
      tempModifiers := modifiers
      tempModifierMask := modifierMask
      tempFlags := flags
      tempFlagMask := flagMask }
  { keyCode := s.keyCode
    modifiers := s.tempModifiers
    modifierMask := s.tempModifierMask
    flags := s.tempFlags
    flagMask := s.tempFlagMask }

/-- The text of a key sequence: the name of the key followed by the items, each with `+`
(wanted) or `-` (not wanted) in front. -/
def sequenceText (keyName : List Char) (items : List (Bool × List Char)) : List Char :=
  keyName ++ items.flatMap fun item => (if item.1 then '+' else '-') :: item.2

end KeyboardTranslator


namespace KeyboardTranslator

/-- What reading the item `item`, a sign and a name, does to the local variables of
`decodeSequence`. -/
def applyItem (fromString : List Char → Option Int) (s : DecodeState)
    (item : Bool × List Char) : DecodeState :=
  decodeItem fromString { s with buffer := item.2, isWanted := item.1 }

end KeyboardTranslator


namespace KeyboardTranslator

/-- A stand-in for `QKeySequence::fromString` that knows the key `up` (`Qt::Key_Up`,
0x01000013) only. -/
def toyFromString (item : List Char) : Option Int :=
  if item = "up".toList then some 0x01000013 else none

/-! ### Regular expressions

The three patterns of `tokenize` use literals, character classes, greedy repetition of a
class, alternation and capture groups.  `Regex.run` matches a pattern at the start of the
input the way a backtracking matcher does: the continuation `k` receives what is left of
the input and the captures, and a failure of `k` makes the matcher try the next shorter
repetition or the next alternative. -/

/-- The patterns `tokenize` is built from. -/
inductive Regex where
  | lit (c : Char)
  | starCls (p : Char → Bool)
  | plusCls (p : Char → Bool)
  | seq (a b : Regex)
  | alt (a b : Regex)
  | group (n : Nat) (a : Regex)

/-- The captures of a match: the text of each group that took part in it, newest first. -/
abbrev Captures := List (Nat × List Char)

/-- Greedy repetition of the class `p`: as many characters as possible first, one fewer
when what follows fails. -/
def starRun {α : Type} (p : Char → Bool) : List Char → (List Char → Option α) → Option α
  | [], k => k []
  | x :: rest, k =>
    if p x then
      match starRun p rest k with
      | some r => some r
      | none => k (x :: rest)
    else k (x :: rest)

/-- The pattern matched at the start of `input`, then `k` on the rest. -/
def Regex.run : Regex → List Char → Captures →
    (List Char → Captures → Option Captures) → Option Captures
  | .lit c, input, caps, k =>
    match input with
    | x :: rest => if x = c then k rest caps else none
    | [] => none
  | .starCls p, input, caps, k => starRun p input fun rest => k rest caps
  | .plusCls p, input, caps, k =>
    match input with
    | x :: rest => if p x then starRun p rest fun r => k r caps else none
    | [] => none
  | .seq a b, input, caps, k => a.run input caps fun rest caps1 => b.run rest caps1 k
  | .alt a b, input, caps, k =>
    match a.run input caps k with
    | some r => some r
    | none => b.run input caps k
  | .group n a, input, caps, k =>
    a.run input caps fun rest caps1 =>
      k rest ((n, input.take (input.length - rest.length)) :: caps1)

/-- The call `re.match (text)` of `QRegularExpression`: the first match, looked for from
every position of the text in turn; `none` when `hasMatch ()` is false. -/
def Regex.match_ (re : Regex) : List Char → Option Captures
  | [] => re.run [] [] fun _ caps => some caps
  | x :: rest =>
    match re.run (x :: rest) [] fun _ caps => some caps with
    | some caps => some caps
    | none => Regex.match_ re rest

/-- The call `match.captured (n)`: the text of group `n`, empty when the group took no part
in the match. -/
def captured (caps : Captures) (n : Nat) : List Char :=
  match caps.find? fun c => c.1 == n with
  | some c => c.2
  | none => []

/-- The literal text `s` as a pattern, followed by `re`. -/
def Regex.lits (s : List Char) (re : Regex) : Regex :=
  s.foldr (fun c acc => .seq (.lit c) acc) re

/-- The class `\s` of a pattern: space, tab, line feed, vertical tab, form feed, carriage
return. -/
def reSpace (c : Char) : Bool := c = ' ' || (9 ≤ c.toNat && c.toNat ≤ 13)

/-- The class `\w` of a pattern: ASCII letters, digits and the underscore. -/
def reWord (c : Char) : Bool := c.isAlphanum || c = '_'

/-- The class `.` of a pattern: every character but the line feed. -/
def reDot (c : Char) : Bool := c.toNat != 10

/-- The double quote character. -/
def dquote : Char := Char.ofNat 34

/-- The line feed character. -/
def newline : Char := Char.ofNat 10

/-- The pattern `\#.*` of `static QRegularExpression comment` (line 520). -/
def commentRegex : Regex := .seq (.lit (Char.ofNat 35)) (.starCls reDot)

/-- The pattern `keyboard\s+"(.*)"` of `static QRegularExpression title` (line 522). -/
def titleRegex : Regex :=
  Regex.lits "keyboard".toList
    (.seq (.plusCls reSpace) (.seq (.lit dquote) (.seq (.group 1 (.starCls reDot)) (.lit dquote))))

/-- The pattern `key\s+([\w\+\s\-]+)\s*:\s*("(.*)"|\w+)` of `static QRegularExpression key`
(line 525). -/
def keyRegex : Regex :=
  Regex.lits "key".toList
    (.seq (.plusCls reSpace)
      (.seq (.group 1 (.plusCls fun c => reWord c || c = '+' || reSpace c || c = '-'))
        (.seq (.starCls reSpace)
          (.seq (.lit ':')
            (.seq (.starCls reSpace)
              (.group 2
                (.alt (.seq (.lit dquote) (.seq (.group 3 (.starCls reDot)) (.lit dquote)))
                  (.plusCls reWord))))))))

/-! ### `tokenize`, `readNext`, `createEntry` -/

/-- The value `ch.isSpace()` of `QChar` (Qt, `qchar.h`): true for the space U+0020, for
the control characters U+0009 to U+000D and U+0085, for the no-break space U+00A0, and for
the characters of the Unicode categories Separator_Space (U+1680, U+2000 to U+200A, U+202F,
U+205F, U+3000), Separator_Line (U+2028) and Separator_Paragraph (U+2029), as of Unicode 6.3
and later; false for every other character. -/
def isSpace (c : Char) : Bool :=
  c = ' ' || (9 ≤ c.toNat && c.toNat ≤ 13) || c.toNat = 0x85 || c.toNat = 0xa0 ||
    c.toNat = 0x1680 || (0x2000 ≤ c.toNat && c.toNat ≤ 0x200a) || c.toNat = 0x2028 ||
    c.toNat = 0x2029 || c.toNat = 0x202f || c.toNat = 0x205f || c.toNat = 0x3000

/-- The words of a text: the maximal runs of characters that are not whitespace; `cur` is
the word being read. -/
def wordsOf : List Char → List Char → List (List Char)
  | [], cur => if cur.isEmpty then [] else [cur]
  | c :: rest, cur =>
    if isSpace c then
      if cur.isEmpty then wordsOf rest [] else cur :: wordsOf rest []
    else wordsOf rest (cur ++ [c])

/-- The call `line.simplified()` of `QString`: whitespace removed from both ends and every
run of whitespace inside replaced by one space U+0020; whitespace is every character for
which `QChar::isSpace()` is true, the no-break space among them. -/
def simplified (line : List Char) : List Char :=
  List.intercalate [' '] (wordsOf line [])

/-- The enumerators of `KeyboardTranslatorReader::Token::Type` that `tokenize` uses. -/
inductive TokenType where
  | TitleKeyword
  | TitleText
  | KeyKeyword
  | KeySequence
  | Command
  | OutputText
  deriving DecidableEq, Repr

/-- The structure `KeyboardTranslatorReader::Token`: a type and a text. -/
structure Token where
  type : TokenType
  text : List Char
  deriving DecidableEq, Repr

/-- The member `QList<Token> KeyboardTranslatorReader::tokenize (const QString& line)`
(lines 514-569). -/
def tokenize (line : List Char) : List Token :=
  let text := simplified line
  if text.isEmpty || (commentRegex.match_ text).isSome then []
  else
    match titleRegex.match_ text with
    | some m =>
      [{ type := .TitleKeyword, text := [] }, { type := .TitleText, text := captured m 1 }]
    | none =>
      match keyRegex.match_ text with
      | some m =>
        let keyToken : Token := { type := .KeyKeyword, text := [] }
        let sequenceToken : Token :=
          { type := .KeySequence, text := (captured m 1).filter fun c => c != ' ' }
        if (captured m 3).isEmpty then
          [keyToken, sequenceToken, { type := .Command, text := captured m 2 }]
        else
          [keyToken, sequenceToken, { type := .OutputText, text := captured m 3 }]
      | none => []

/-- The call `text.toLower()` of `QString`, on the ASCII characters. -/
def toLower (text : List Char) : List Char := text.map Char.toLower

/-- The member `bool KeyboardTranslatorReader::parseAsCommand(const QString& text,
KeyboardTranslator::Command& command)` (lines 312-330); the comparison ignores the case. -/
def parseAsCommand (text : List Char) : Option Command :=
  if toLower text = "erase".toList then some .EraseCommand
  else if toLower text = "scrollpageup".toList then some .ScrollPageUpCommand
  else if toLower text = "scrollpagedown".toList then some .ScrollPageDownCommand
  else if toLower text = "scrolllineup".toList then some .ScrollLineUpCommand
  else if toLower text = "scrolllinedown".toList then some .ScrollLineDownCommand
  else if toLower text = "scrolllock".toList then some .ScrollLockCommand
  else none

/-- The setters of `KeyboardTranslator::Entry` that `readNext` calls; `KeyboardTranslator.h`,
which defines them, is not under src, so they are parameters of the reader. -/
structure EntrySetters where
  setKeyCode : Entry → Int → Entry
  setState : Entry → States → Entry
  setStateMask : Entry → States → Entry
  setModifiers : Entry → KeyboardModifiers → Entry
  setModifierMask : Entry → KeyboardModifiers → Entry
  setText : Entry → List Nat → Entry
  setCommand : Entry → Command → Entry

/-- The lines of a device as `readLine ()` returns them, each with its line feed; `cur` is
the line being read. -/
def linesOf : List Char → List Char → List (List Char)
  | [], cur => if cur.isEmpty then [] else [cur]
  | c :: rest, cur =>
    if c = newline then (cur ++ [c]) :: linesOf rest [] else linesOf rest (cur ++ [c])

/-- The data members of `KeyboardTranslatorReader`; `_source` is the list of the lines not
read yet. -/
structure KeyboardTranslatorReader where
  _source : List (List Char)
  _description : List Char
  _hasNext : Bool
  _nextEntry : Entry

/-- The entry `readNext` builds from the tokens of a key line (lines 263-302);
`Qt::Key_unknown` is 0x01ffffff. -/
def entryOfTokens (api : EntrySetters) (fromString : List Char → Option Int)
    (tokens : List Token) : Entry :=
  let tok1 := tokens.getD 1 { type := .KeyKeyword, text := [] }
  let tok2 := tokens.getD 2 { type := .KeyKeyword, text := [] }
  let d := decodeSequence fromString (toLower tok1.text) 0x01ffffff ∅ ∅ ∅ ∅
  let text : List Nat :=
    if tok2.type = .OutputText then tok2.text.map Char.toNat else []
  let command : Command :=
    if tok2.type = .OutputText then .NoCommand
    else if tok2.type = .Command then
      match parseAsCommand tok2.text with
      | some c => c
      | none => .NoCommand
    else .NoCommand
  let newEntry := Entry.new
  let newEntry := api.setKeyCode newEntry d.keyCode
  let newEntry := api.setState newEntry d.flags
  let newEntry := api.setStateMask newEntry d.flagMask
  let newEntry := api.setModifiers newEntry d.modifiers
  let newEntry := api.setModifierMask newEntry d.modifierMask
  let newEntry := api.setText newEntry text
  api.setCommand newEntry command

/-- The member `void KeyboardTranslatorReader::readNext()` (lines 255-310), on the lines
that are left. -/
def readNextFrom (api : EntrySetters) (fromString : List Char → Option Int)
    (description : List Char) (nextEntry : Entry) :
    List (List Char) → KeyboardTranslatorReader
  | [] =>
    { _source := [], _description := description, _hasNext := false, _nextEntry := nextEntry }
  | line :: rest =>
    let tokens := tokenize line
    if !tokens.isEmpty && (tokens.head?.map fun t => t.type) = some .KeyKeyword then
      { _source := rest
        _description := description
        _hasNext := true
        _nextEntry := entryOfTokens api fromString tokens }
    else readNextFrom api fromString description nextEntry rest

/-- The loop of the constructor (lines 241-250): lines are read until one gives a
description; the description and the lines that are left. -/
def readDescription : List Char → List (List Char) → List Char × List (List Char)
  | description, [] => (description, [])
  | description, line :: rest =>
    if description.isEmpty then
      let tokens := tokenize line
      if !tokens.isEmpty && (tokens.head?.map fun t => t.type) = some .TitleKeyword then
        readDescription (tokens.getD 1 { type := .TitleText, text := [] }).text rest
      else readDescription description rest
    else (description, line :: rest)

/-- The constructor `KeyboardTranslatorReader::KeyboardTranslatorReader( QIODevice* source )`
(lines 237-253), on the bytes of the device. -/
def KeyboardTranslatorReader.new (api : EntrySetters) (fromString : List Char → Option Int)
    (source : List Char) : KeyboardTranslatorReader :=
  let r := readDescription [] (linesOf source [])
  readNextFrom api fromString r.1 Entry.new r.2

/-- The member `KeyboardTranslator::Entry KeyboardTranslatorReader::createEntry(
const QString& condition, const QString& result )` (lines 469-497). -/
def createEntry (api : EntrySetters) (fromString : List Char → Option Int)
    (condition result : List Char) : Entry :=
  let entryString := "keyboard ".toList ++ [dquote] ++ "temporary".toList ++ [dquote, newline]
    ++ "key ".toList
  let entryString := entryString ++ condition
  let entryString := entryString ++ " : ".toList
  let entryString :=
    if (parseAsCommand result).isSome then entryString ++ result
    else entryString ++ ([dquote] ++ result ++ [dquote])
  let reader := KeyboardTranslatorReader.new api fromString entryString
  if reader._hasNext then reader._nextEntry else Entry.new

/-- The setters as plain assignments of the data member each is named after. -/
def plainSetters : EntrySetters where
  setKeyCode := fun e v => { e with _keyCode := v }
  setState := fun e v => { e with _state := v }
  setStateMask := fun e v => { e with _stateMask := v }
  setModifiers := fun e v => { e with _modifiers := v }
  setModifierMask := fun e v => { e with _modifierMask := v }
  setText := fun e v => { e with _text := v }
  setCommand := fun e v => { e with _command := v }

end KeyboardTranslator


namespace KeyboardTranslator

/-- The bytes the loop of `escapedText` puts in the place of the byte `ch`. -/
def escapeByte (ch : Nat) : List Nat :=
  if escapedTextReplacement ch = 120 then [92, 120] ++ number (toInt16 ch)
  else if escapedTextReplacement ch ≠ 0 then [92, escapedTextReplacement ch]
  else [ch]

end KeyboardTranslator


/-! ## Part 7: the conversions of `op-m-scm.cc` and `op-cm-scm.cc` -/

/-- The library functions the two `sparse_complex_matrix_conv` functions call and do not
define: the member `complex_matrix_value ()` of an `octave_matrix` operand, and the
constructor `SparseComplexMatrix (const ComplexMatrix&)`. -/
structure ConvLib (L : Lib) where
  complex_matrix_value : octave_matrix L → L.ComplexMatrix
  SparseComplexMatrix : L.ComplexMatrix → L.SparseComplexMatrix

/-- The object `new octave_sparse_complex_matrix (m)` a conversion returns: the type of the
class named after `new`, and the sparse complex matrix `m` the object is built from. -/
structure new_octave_base_value (L : Lib) where
  type_id : TypeId
  built_from : L.SparseComplexMatrix

namespace op_m_scm

/-- The conversion `DEFCONV (sparse_complex_matrix_conv, matrix, sparse_complex_matrix)`
(`op-m-scm.cc`, lines 130-135):
`return new octave_sparse_complex_matrix (SparseComplexMatrix (v.complex_matrix_value ()));` -/
def oct_conv_sparse_complex_matrix_conv (L : Lib) (C : ConvLib L) (v : octave_matrix L) :
    new_octave_base_value L :=
  { type_id := .octave_sparse_complex_matrix
    built_from := C.SparseComplexMatrix (C.complex_matrix_value v) }

end op_m_scm

namespace op_cm_scm

/-- The conversion `DEFCONV (sparse_complex_matrix_conv, complex_matrix,
sparse_complex_matrix)` (`op-cm-scm.cc`, lines 133-139), with the same body. -/
def oct_conv_sparse_complex_matrix_conv (L : Lib) (C : ConvLib L)
    (v : octave_complex_matrix L) : new_octave_base_value L :=
  { type_id := .octave_sparse_complex_matrix
    built_from := C.SparseComplexMatrix v.complex_matrix_value }

end op_cm_scm

/-- The widening edge of an `INSTALL_WIDENOP_TI` call: source type, target type and
conversion function; nothing for the other registration calls. -/
def Registration.widenEdge : Registration → Option (TypeId × TypeId × Kernel)
  | .INSTALL_WIDENOP_TI t1 t2 f => some (t1, t2, f)
  | _ => none

/-- The widening edges the three installers of src register, in the order
`install_m_scm_ops`, `install_cm_scm_ops`, `install_pm_sm_ops`. -/
def widenEdges : List (TypeId × TypeId × Kernel) :=
  (install_m_scm_ops_calls ++ install_cm_scm_ops_calls ++ install_pm_sm_ops_calls).filterMap
    Registration.widenEdge

/-! ## Part 8: the default member functions of `mxArray_base` -/

/-- The C library formatting of a format string whose only conversions are `%s`: each `%s`
is replaced by the next argument. -/
def sprintf : List Char → List String → List Char
  | '%' :: 's' :: fmt, arg :: args => arg.toList ++ sprintf fmt args
  | c :: fmt, args => c :: sprintf fmt args
  | [], _ => []

/-- The function `error (const char *fmt, ...)`, declared in `error.h` (included at
`mxarray.h`, line 59) and used as a function that does not return: it raises an error whose
message is the formatted text. -/
def error {α : Type} (fmt : String) (args : List String) : Except String α :=
  .error (String.mk (sprintf fmt.toList args))

namespace mxArray_base

variable {R : Type}

/-- The member `OCTAVE_NORETURN void err_invalid_type (const char *op) const`
(`mxarray.h`, lines 302-305); `get_class_name` is the virtual member function of that
name. -/
def err_invalid_type {α : Type} (get_class_name : R → String) (self : R) (op : String) :
    Except String α :=
  error "%s: invalid type for mxArray::%s" [get_class_name self, op]

/-- The default `virtual mxArray * get_property (mwIndex, const char *) const`
(`mxarray.h`, lines 195-199): `return nullptr;`, here `none`. -/
def get_property (_self : R) (_idx : Nat) (_pname : String) : Except String (Option Nat) :=
  .ok none

/-- The default `virtual void set_property (mwIndex, const char *, const mxArray *)`
(`mxarray.h`, lines 201-205). -/
def set_property (get_class_name : R → String) (self : R) (_idx : Nat) (_pname : String)
    (_pval : Nat) : Except String Unit :=
  err_invalid_type get_class_name self "set_property"

/-- The default `virtual mxArray * get_cell (mwIndex) const` (`mxarray.h`,
lines 207-210). -/
def get_cell (get_class_name : R → String) (self : R) (_idx : Nat) :
    Except String (Option Nat) :=
  err_invalid_type get_class_name self "get_cell"

end mxArray_base


/-! ## Part 9: the escaped form of a text, as the specification words it -/

namespace KeyboardTranslator

/-- The escaped form of a byte string in the words of the specification: each of the six
control bytes 27, 8, 12, 9, 13, 10 is replaced by a backslash (92) and the letter `E`, `b`,
`f`, `t`, `r`, `n`; every other byte stays.  It is compared with `escapedText`, which is
translated from the source. -/
def spec_escapedForm (t : List Nat) : List Nat :=
  t.flatMap fun b =>
    if b = 27 then [92, 69]
    else if b = 8 then [92, 98]
    else if b = 12 then [92, 102]
    else if b = 9 then [92, 116]
    else if b = 13 then [92, 114]
    else if b = 10 then [92, 110]
    else [b]

end KeyboardTranslator


/-! ## Theorems, part 1: the representation bridge -/

section Bridge

variable {R V : Type}

theorem accessor_mutable (ops : mxArray_base R V) (c : RepCall) (self : mxArray R)
    (hc : accessorBody c = .mutable_method) :
    mxArray.accessor ops c self = mxArray.DO_MUTABLE_METHOD ops c self := by
  simp [mxArray.accessor, hc]

theorem accessor_void_mutable (ops : mxArray_base R V) (c : RepCall) (self : mxArray R)
    (hc : accessorBody c = .void_mutable_method) :
    mxArray.accessor ops c self = mxArray.DO_VOID_MUTABLE_METHOD ops c self := by
  simp [mxArray.accessor, hc]

theorem isMutableAccessor_cases (c : RepCall) (hc : isMutableAccessor c = true) :
    accessorBody c = .mutable_method ∨ accessorBody c = .void_mutable_method := by
  unfold isMutableAccessor at hc
  cases hb : accessorBody c <;> simp [hb] at hc ⊢

/-- The outcome of an accessor built with either macro when the first call raises an
error. -/
theorem accessor_first_error (ops : mxArray_base R V) (c : RepCall) (self : mxArray R)
    (hc : isMutableAccessor c = true) (e : String)
    (h1 : (mxArray.firstCall ops c self).1 = .error e) :
    mxArray.accessor ops c self =
      { retval := .error e
        self := { self with m_rep := (mxArray.firstCall ops c self).2 }
        trace := [.method c self.m_rep] } := by
  unfold mxArray.firstCall at h1
  rcases isMutableAccessor_cases c hc with hb | hb
  · rw [accessor_mutable ops c self hb]
    simp [mxArray.DO_MUTABLE_METHOD, mxArray.firstCall, h1]
  · rw [accessor_void_mutable ops c self hb]
    simp [mxArray.DO_VOID_MUTABLE_METHOD, mxArray.firstCall, h1]

/-- The outcome of an accessor built with either macro when the first call returns and the
representation then reports that no mutation is needed. -/
theorem accessor_no_mutation (ops : mxArray_base R V) (c : RepCall) (self : mxArray R)
    (hc : isMutableAccessor c = true) (v : V)
    (h1 : (mxArray.firstCall ops c self).1 = .ok v)
    (hm : ops.mutation_needed (mxArray.firstCall ops c self).2 = false) :
    mxArray.accessor ops c self =
      { retval := resultOf c (.ok v)
        self := { self with m_rep := (mxArray.firstCall ops c self).2 }
        trace := [.method c self.m_rep,
                  .mutation_needed (mxArray.firstCall ops c self).2 false] } := by
  unfold mxArray.firstCall at h1 hm
  rcases isMutableAccessor_cases c hc with hb | hb
  · rw [accessor_mutable ops c self hb]
    simp [mxArray.DO_MUTABLE_METHOD, mxArray.firstCall, h1, hm, resultOf, hb, retOf]
  · rw [accessor_void_mutable ops c self hb]
    simp [mxArray.DO_VOID_MUTABLE_METHOD, mxArray.firstCall, h1, hm, resultOf, hb, voidOf]

/-- The outcome of an accessor built with either macro when the first call returns and the
representation then reports that a mutation is needed. -/
theorem accessor_mutation (ops : mxArray_base R V) (c : RepCall) (self : mxArray R)
    (hc : isMutableAccessor c = true) (v : V)
    (h1 : (mxArray.firstCall ops c self).1 = .ok v)
    (hm : ops.mutation_needed (mxArray.firstCall ops c self).2 = true) :
    mxArray.accessor ops c self =
      { retval := resultOf c (mxArray.secondCall ops c self).1
        self := { mxArray.swapped ops c self with m_rep := (mxArray.secondCall ops c self).2 }
        trace := [.method c self.m_rep,
                  .mutation_needed (mxArray.firstCall ops c self).2 true,
                  .maybe_mutate (mxArray.firstCall ops c self).2
                    (mxArray.swapped ops c self).m_rep,
                  .method c (mxArray.swapped ops c self).m_rep] } := by
  unfold mxArray.firstCall at h1 hm
  rcases isMutableAccessor_cases c hc with hb | hb
  · rw [accessor_mutable ops c self hb]
    simp [mxArray.DO_MUTABLE_METHOD, mxArray.firstCall, mxArray.secondCall, mxArray.swapped,
      h1, hm, resultOf, hb]
  · rw [accessor_void_mutable ops c self hb]
    simp [mxArray.DO_VOID_MUTABLE_METHOD, mxArray.firstCall, mxArray.secondCall,
      mxArray.swapped, h1, hm, resultOf, hb]

theorem maybe_mutate_name (ops : mxArray_base R V) (self : mxArray R) :
    (mxArray.maybe_mutate ops self).m_name = self.m_name := by
  unfold mxArray.maybe_mutate
  cases ops.mutate self.m_rep <;> rfl

/-- An accessor whose body is a plain forward makes the one call and nothing else. -/
theorem accessor_forward (ops : mxArray_base R V) (c : RepCall) (self : mxArray R)
    (hc : isMutableAccessor c = false) :
    mxArray.accessor ops c self =
      { retval := resultOf c (mxArray.firstCall ops c self).1
        self := { self with m_rep := (mxArray.firstCall ops c self).2 }
        trace := [.method c self.m_rep] } := by
  unfold isMutableAccessor at hc
  cases hb : accessorBody c <;> simp [hb] at hc <;>
    simp [mxArray.accessor, hb, mxArray.RETURN_REP_METHOD, mxArray.VOID_REP_METHOD,
      mxArray.firstCall, resultOf]

/-- Facts about one accessor call on a representation that reports no mutation needed
after the first call, whatever the accessor. -/
theorem accessor_direct (ops : mxArray_base R V) (c : RepCall) (self : mxArray R)
    (hm : ops.mutation_needed (ops.call c self.m_rep).2 = false) :
    (mxArray.accessor ops c self).trace.head? = some (.method c self.m_rep) ∧
    methodCalls (mxArray.accessor ops c self).trace = 1 ∧
    maybeMutateCalls (mxArray.accessor ops c self).trace = 0 ∧
    (mxArray.accessor ops c self).retval = resultOf c (ops.call c self.m_rep).1 ∧
    (mxArray.accessor ops c self).self.m_rep = (ops.call c self.m_rep).2 := by
  cases hmut : isMutableAccessor c
  · rw [accessor_forward ops c self hmut]
    simp [methodCalls, maybeMutateCalls, mxArray.firstCall]
  · cases h1 : (ops.call c self.m_rep).1 with
    | error e =>
      rw [accessor_first_error ops c self hmut e h1]
      rcases isMutableAccessor_cases c hmut with hb | hb <;>
        simp [methodCalls, maybeMutateCalls, mxArray.firstCall, resultOf, hb, retOf, voidOf]
    | ok v =>
      rw [accessor_no_mutation ops c self hmut v h1 hm]
      simp [methodCalls, maybeMutateCalls, mxArray.firstCall]

/-- Every outcome of a sequence of accessor calls on a handle whose representation never
reports a needed mutation is served by one call on that representation. -/
theorem accessors_direct (ops : mxArray_base R V) (B : R)
    (hnever : ∀ r, Reaches ops B r → ops.mutation_needed r = false) (cs : List RepCall) :
    ∀ (self : mxArray R), Reaches ops B self.m_rep →
      ∀ o ∈ mxArray.accessors ops cs self, ∃ c r, c ∈ cs ∧ Reaches ops B r ∧
        o.trace.head? = some (.method c r) ∧ methodCalls o.trace = 1 ∧
        maybeMutateCalls o.trace = 0 ∧ o.retval = resultOf c (ops.call c r).1 ∧
        o.self.m_rep = (ops.call c r).2 := by
  induction cs with
  | nil => intro self _ o ho; simp [mxArray.accessors] at ho
  | cons c cs ih =>
    intro self hs o ho
    have hd := accessor_direct ops c self (hnever _ (Reaches.call c hs))
    simp only [mxArray.accessors, List.mem_cons] at ho
    rcases ho with rfl | ho
    · exact ⟨c, self.m_rep, by simp, hs, hd⟩
    · have hs2 : Reaches ops B (mxArray.accessor ops c self).self.m_rep := by
        rw [hd.2.2.2.2]; exact Reaches.call c hs
      obtain ⟨c2, r, hc2, hr⟩ := ih _ hs2 o ho
      exact ⟨c2, r, List.mem_cons_of_mem _ hc2, hr⟩

theorem toy_full_reaches (pr : Nat) (r : ToyRep) (h : Reaches toyOps (.full pr) r) :
    ∃ q, r = .full q := by
  induction h with
  | refl => exact ⟨pr, rfl⟩
  | call c _ ih =>
    obtain ⟨q, rfl⟩ := ih
    cases c <;> simp [toyOps]

theorem toy_full_never (pr : Nat) (r : ToyRep) (h : Reaches toyOps (.full pr) r) :
    toyOps.mutation_needed r = false := by
  obtain ⟨q, rfl⟩ := toy_full_reaches pr r h
  rfl

/-- The counters do not change what an accessor does, and they count its steps: `calls`
grows by the number of `m_rep->METHOD_CALL` steps of the accessor, `swaps` by at most the
number of its `maybe_mutate ()` steps, and by exactly that number when `mutate ()` produces
a representation. -/
theorem counted_accessor (ops : mxArray_base R V) (c : RepCall) (self : mxArray R)
    (n m : Nat) :
    (mxArray.accessor (counted ops) c
        { m_rep := { rep := self.m_rep, calls := n, swaps := m }, m_name := self.m_name }).retval
      = (mxArray.accessor ops c self).retval ∧
    (mxArray.accessor (counted ops) c
        { m_rep := { rep := self.m_rep, calls := n, swaps := m },
          m_name := self.m_name }).self.m_rep.rep
      = (mxArray.accessor ops c self).self.m_rep ∧
    (mxArray.accessor (counted ops) c
        { m_rep := { rep := self.m_rep, calls := n, swaps := m },
          m_name := self.m_name }).self.m_rep.calls
      = n + methodCalls (mxArray.accessor ops c self).trace ∧
    m ≤ (mxArray.accessor (counted ops) c
        { m_rep := { rep := self.m_rep, calls := n, swaps := m },
          m_name := self.m_name }).self.m_rep.swaps ∧
    (mxArray.accessor (counted ops) c
        { m_rep := { rep := self.m_rep, calls := n, swaps := m },
          m_name := self.m_name }).self.m_rep.swaps
      ≤ m + maybeMutateCalls (mxArray.accessor ops c self).trace ∧
    (∀ new_val, ops.mutate (ops.call c self.m_rep).2 = some new_val →
      (mxArray.accessor (counted ops) c
        { m_rep := { rep := self.m_rep, calls := n, swaps := m },
          m_name := self.m_name }).self.m_rep.swaps
      = m + maybeMutateCalls (mxArray.accessor ops c self).trace) := by
  cases hb : accessorBody c
  · simp [mxArray.accessor, hb, mxArray.RETURN_REP_METHOD, counted, methodCalls,
      maybeMutateCalls]
  · simp [mxArray.accessor, hb, mxArray.VOID_REP_METHOD, counted, methodCalls,
      maybeMutateCalls]
  · simp only [mxArray.accessor, hb, mxArray.DO_MUTABLE_METHOD, counted]
    cases h1 : (ops.call c self.m_rep).1 with
    | error e => simp [methodCalls, maybeMutateCalls]
    | ok v =>
      cases hm : ops.mutation_needed (ops.call c self.m_rep).2 with
      | false => simp [methodCalls, maybeMutateCalls]
      | true =>
        cases hmu : ops.mutate (ops.call c self.m_rep).2 with
        | none => simp [mxArray.maybe_mutate, hmu, methodCalls, maybeMutateCalls]
        | some nv => simp [mxArray.maybe_mutate, hmu, methodCalls, maybeMutateCalls]
  · simp only [mxArray.accessor, hb, mxArray.DO_VOID_MUTABLE_METHOD, counted]
    cases h1 : (ops.call c self.m_rep).1 with
    | error e => simp [methodCalls, maybeMutateCalls]
    | ok v =>
      cases hm : ops.mutation_needed (ops.call c self.m_rep).2 with
      | false => simp [methodCalls, maybeMutateCalls]
      | true =>
        cases hmu : ops.mutate (ops.call c self.m_rep).2 with
        | none => simp [mxArray.maybe_mutate, hmu, methodCalls, maybeMutateCalls]
        | some nv => simp [mxArray.maybe_mutate, hmu, methodCalls, maybeMutateCalls]

/-- A sequence of accessor calls gives one outcome for each call. -/
theorem accessors_length (ops : mxArray_base R V) (cs : List RepCall) :
    ∀ self : mxArray R, (mxArray.accessors ops cs self).length = cs.length := by
  induction cs with
  | nil => intro _; rfl
  | cons c cs ih => intro self; simp [mxArray.accessors, ih]

/-- On a handle whose representation never reports a needed mutation, a sequence of
accessor calls hands back what the member functions of the representation give when they
are called directly, one after the other. -/
theorem accessors_repCalls (ops : mxArray_base R V) (B : R)
    (hnever : ∀ r, Reaches ops B r → ops.mutation_needed r = false) (cs : List RepCall) :
    ∀ (self : mxArray R), Reaches ops B self.m_rep →
      (mxArray.accessors ops cs self).map (fun o => (o.retval, o.self.m_rep))
        = repCalls ops cs self.m_rep := by
  induction cs with
  | nil => intro _ _; rfl
  | cons c cs ih =>
    intro self hs
    have hd := accessor_direct ops c self (hnever _ (Reaches.call c hs))
    have hs2 : Reaches ops B (mxArray.accessor ops c self).self.m_rep := by
      rw [hd.2.2.2.2]; exact Reaches.call c hs
    have := ih _ hs2
    simp only [mxArray.accessors, List.map_cons, repCalls, this, hd.2.2.2.1, hd.2.2.2.2]

/-- C1: every accessor built with `DO_MUTABLE_METHOD` (`get_data`, `get_doubles`, `get_cell`,
`set_dimensions`, `add_field`, `get_field_number` among them) first calls the method on the
active representation; if that call returns and the representation then reports
`mutation_needed () == false`, the accessor returns that first result; if it reports `true`,
the accessor calls `maybe_mutate ()` and returns the result of the same call, same
arguments, on the representation that is active afterwards.  (If the first call raises an
error, the accessor leaves with it.) -/
theorem C1_mutable_method_returns (ops : mxArray_base R V) (c : RepCall) (self : mxArray R)
    (hc : accessorBody c = .mutable_method) :
    (mxArray.accessor ops c self).trace.head? = some (.method c self.m_rep) ∧
    (∀ v, (mxArray.firstCall ops c self).1 = .ok v →
      ops.mutation_needed (mxArray.firstCall ops c self).2 = false →
        (mxArray.accessor ops c self).retval = .ok (some v) ∧
        (mxArray.accessor ops c self).trace =
          [.method c self.m_rep, .mutation_needed (mxArray.firstCall ops c self).2 false]) ∧
    (∀ v, (mxArray.firstCall ops c self).1 = .ok v →
      ops.mutation_needed (mxArray.firstCall ops c self).2 = true →
        (mxArray.accessor ops c self).retval
          = retOf (ops.call c (mxArray.maybe_mutate ops
              { self with m_rep := (mxArray.firstCall ops c self).2 }).m_rep).1 ∧
        (mxArray.accessor ops c self).trace =
          [.method c self.m_rep, .mutation_needed (mxArray.firstCall ops c self).2 true,
           .maybe_mutate (mxArray.firstCall ops c self).2
             (mxArray.maybe_mutate ops
               { self with m_rep := (mxArray.firstCall ops c self).2 }).m_rep,
           .method c (mxArray.maybe_mutate ops
               { self with m_rep := (mxArray.firstCall ops c self).2 }).m_rep]) ∧
    (∀ e, (mxArray.firstCall ops c self).1 = .error e →
      (mxArray.accessor ops c self).retval = .error e) ∧
    (accessorBody .get_data = .mutable_method ∧ accessorBody .get_doubles = .mutable_method ∧
      (∀ idx, accessorBody (.get_cell idx) = .mutable_method) ∧
      (∀ d n, accessorBody (.set_dimensions d n) = .mutable_method) ∧
      (∀ key, accessorBody (.add_field key) = .mutable_method) ∧
      (∀ key, accessorBody (.get_field_number key) = .mutable_method)) := by
  have hmut : isMutableAccessor c = true := by simp [isMutableAccessor, hc]
  refine ⟨?_, ?_, ?_, ?_, ?_⟩
  · cases h1 : (mxArray.firstCall ops c self).1 with
    | error e => rw [accessor_first_error ops c self hmut e h1]; rfl
    | ok v =>
      cases hm : ops.mutation_needed (mxArray.firstCall ops c self).2
      · rw [accessor_no_mutation ops c self hmut v h1 hm]; rfl
      · rw [accessor_mutation ops c self hmut v h1 hm]; rfl
  · intro v h1 hm
    rw [accessor_no_mutation ops c self hmut v h1 hm]
    simp [resultOf, hc, retOf]
  · intro v h1 hm
    rw [accessor_mutation ops c self hmut v h1 hm]
    simp [resultOf, hc, mxArray.secondCall, mxArray.swapped]
  · intro e h1
    rw [accessor_first_error ops c self hmut e h1]
  · exact ⟨rfl, rfl, fun _ => rfl, fun _ _ => rfl, fun _ => rfl, fun _ => rfl⟩

/-- C2: one call of an accessor built with `DO_MUTABLE_METHOD` or `DO_VOID_MUTABLE_METHOD`
invokes the representation's method at most twice and calls `maybe_mutate ()` at most once;
the swap and the second call happen exactly once when the first call returned and the
representation then reports that a mutation is needed, and not at all otherwise.  In the
first case the accessor hands back the result of the second call, made on the
representation that `maybe_mutate ()` has put in place, and leaves that representation
active; in the other cases it hands back the result of the first call and leaves the
representation the first call was made on.  The same numbers are read off counters kept
in the representation itself: `calls` grows by two and `swaps` by one in the first case, by
one and by nothing in the others. -/
theorem C2_at_most_one_retry (ops : mxArray_base R V) (c : RepCall) (self : mxArray R)
    (hc : isMutableAccessor c = true) :
    methodCalls (mxArray.accessor ops c self).trace ≤ 2 ∧
    maybeMutateCalls (mxArray.accessor ops c self).trace ≤ 1 ∧
    (∀ v, (mxArray.firstCall ops c self).1 = .ok v →
      ops.mutation_needed (mxArray.firstCall ops c self).2 = true →
        methodCalls (mxArray.accessor ops c self).trace = 2 ∧
        maybeMutateCalls (mxArray.accessor ops c self).trace = 1) ∧
    (ops.mutation_needed (mxArray.firstCall ops c self).2 = false →
        methodCalls (mxArray.accessor ops c self).trace = 1 ∧
        maybeMutateCalls (mxArray.accessor ops c self).trace = 0) ∧
    (∀ e, (mxArray.firstCall ops c self).1 = .error e →
        methodCalls (mxArray.accessor ops c self).trace = 1 ∧
        maybeMutateCalls (mxArray.accessor ops c self).trace = 0) ∧
    (∀ v, (mxArray.firstCall ops c self).1 = .ok v →
      ops.mutation_needed (mxArray.firstCall ops c self).2 = true →
        (mxArray.accessor ops c self).retval
          = resultOf c (ops.call c (mxArray.maybe_mutate ops
              { self with m_rep := (ops.call c self.m_rep).2 }).m_rep).1 ∧
        (mxArray.accessor ops c self).self.m_rep
          = (ops.call c (mxArray.maybe_mutate ops
              { self with m_rep := (ops.call c self.m_rep).2 }).m_rep).2 ∧
        (mxArray.accessor ops c self).trace =
          [.method c self.m_rep, .mutation_needed (ops.call c self.m_rep).2 true,
           .maybe_mutate (ops.call c self.m_rep).2
             (mxArray.maybe_mutate ops
               { self with m_rep := (ops.call c self.m_rep).2 }).m_rep,
           .method c (mxArray.maybe_mutate ops
               { self with m_rep := (ops.call c self.m_rep).2 }).m_rep] ∧
        (∀ new_val, ops.mutate (ops.call c self.m_rep).2 = some new_val →
          (mxArray.accessor ops c self).retval
            = resultOf c (ops.call c new_val.m_rep).1 ∧
          (mxArray.accessor ops c self).self.m_rep = (ops.call c new_val.m_rep).2)) ∧
    (∀ v, (mxArray.firstCall ops c self).1 = .ok v →
      ops.mutation_needed (mxArray.firstCall ops c self).2 = false →
        (mxArray.accessor ops c self).retval = resultOf c (.ok v) ∧
        (mxArray.accessor ops c self).self.m_rep = (ops.call c self.m_rep).2 ∧
        (mxArray.accessor ops c self).trace =
          [.method c self.m_rep, .mutation_needed (ops.call c self.m_rep).2 false]) ∧
    (∀ e, (mxArray.firstCall ops c self).1 = .error e →
        (mxArray.accessor ops c self).retval = .error e ∧
        (mxArray.accessor ops c self).self.m_rep = (ops.call c self.m_rep).2 ∧
        (mxArray.accessor ops c self).trace = [.method c self.m_rep]) ∧
    (∀ n m,
      (mxArray.accessor (counted ops) c
          { m_rep := { rep := self.m_rep, calls := n, swaps := m },
            m_name := self.m_name }).self.m_rep.calls ≤ n + 2 ∧
      (mxArray.accessor (counted ops) c
          { m_rep := { rep := self.m_rep, calls := n, swaps := m },
            m_name := self.m_name }).self.m_rep.swaps ≤ m + 1 ∧
      (∀ v, (mxArray.firstCall ops c self).1 = .ok v →
        ops.mutation_needed (mxArray.firstCall ops c self).2 = true →
          (mxArray.accessor (counted ops) c
              { m_rep := { rep := self.m_rep, calls := n, swaps := m },
                m_name := self.m_name }).self.m_rep.calls = n + 2 ∧
          ∀ new_val, ops.mutate (ops.call c self.m_rep).2 = some new_val →
            (mxArray.accessor (counted ops) c
                { m_rep := { rep := self.m_rep, calls := n, swaps := m },
                  m_name := self.m_name }).self.m_rep.swaps = m + 1) ∧
      (ops.mutation_needed (mxArray.firstCall ops c self).2 = false →
          (mxArray.accessor (counted ops) c
              { m_rep := { rep := self.m_rep, calls := n, swaps := m },
                m_name := self.m_name }).self.m_rep.calls = n + 1 ∧
          (mxArray.accessor (counted ops) c
              { m_rep := { rep := self.m_rep, calls := n, swaps := m },
                m_name := self.m_name }).self.m_rep.swaps = m) ∧
      (∀ e, (mxArray.firstCall ops c self).1 = .error e →
          (mxArray.accessor (counted ops) c
              { m_rep := { rep := self.m_rep, calls := n, swaps := m },
                m_name := self.m_name }).self.m_rep.calls = n + 1 ∧
          (mxArray.accessor (counted ops) c
              { m_rep := { rep := self.m_rep, calls := n, swaps := m },
                m_name := self.m_name }).self.m_rep.swaps = m)) := by
  have herr : ∀ e, (mxArray.firstCall ops c self).1 = .error e →
      methodCalls (mxArray.accessor ops c self).trace = 1 ∧
      maybeMutateCalls (mxArray.accessor ops c self).trace = 0 := by
    intro e h1
    rw [accessor_first_error ops c self hc e h1]
    simp [methodCalls, maybeMutateCalls]
  have hyes : ∀ v, (mxArray.firstCall ops c self).1 = .ok v →
      ops.mutation_needed (mxArray.firstCall ops c self).2 = true →
        methodCalls (mxArray.accessor ops c self).trace = 2 ∧
        maybeMutateCalls (mxArray.accessor ops c self).trace = 1 := by
    intro v h1 hm
    rw [accessor_mutation ops c self hc v h1 hm]
    simp [methodCalls, maybeMutateCalls]
  have hno : ops.mutation_needed (mxArray.firstCall ops c self).2 = false →
      methodCalls (mxArray.accessor ops c self).trace = 1 ∧
      maybeMutateCalls (mxArray.accessor ops c self).trace = 0 := by
    intro hm
    cases h1 : (mxArray.firstCall ops c self).1 with
    | error e => exact herr e h1
    | ok v =>
      rw [accessor_no_mutation ops c self hc v h1 hm]
      simp [methodCalls, maybeMutateCalls]
  have hle : methodCalls (mxArray.accessor ops c self).trace ≤ 2 ∧
      maybeMutateCalls (mxArray.accessor ops c self).trace ≤ 1 := by
    cases h1 : (mxArray.firstCall ops c self).1 with
    | error e => rw [(herr e h1).1, (herr e h1).2]; decide
    | ok v =>
      cases hm : ops.mutation_needed (mxArray.firstCall ops c self).2
      · rw [(hno hm).1, (hno hm).2]; decide
      · rw [(hyes v h1 hm).1, (hyes v h1 hm).2]; decide
  refine ⟨hle.1, hle.2, hyes, hno, herr, ?_, ?_, ?_, ?_⟩
  · intro v h1 hm
    rw [accessor_mutation ops c self hc v h1 hm]
    refine ⟨rfl, rfl, rfl, ?_⟩
    intro new_val hmu
    simp [mxArray.secondCall, mxArray.swapped, mxArray.firstCall, mxArray.maybe_mutate, hmu]
  · intro v h1 hm
    rw [accessor_no_mutation ops c self hc v h1 hm]
    exact ⟨rfl, rfl, rfl⟩
  · intro e h1
    rw [accessor_first_error ops c self hc e h1]
    exact ⟨rfl, rfl, rfl⟩
  · intro n m
    obtain ⟨_, _, hcalls, hlow, hup, hex⟩ := counted_accessor ops c self n m
    refine ⟨by rw [hcalls]; omega, by omega, ?_, ?_, ?_⟩
    · intro v h1 hm
      refine ⟨by rw [hcalls, (hyes v h1 hm).1], ?_⟩
      intro new_val hmu
      rw [hex new_val hmu, (hyes v h1 hm).2]
    · intro hm
      have := hno hm
      exact ⟨by rw [hcalls, this.1], by omega⟩
    · intro e h1
      have := herr e h1
      exact ⟨by rw [hcalls, this.1], by omega⟩

/-- Witness of C1 on the example representations: `get_data` on a `cheap` representation
(first result 0, mutation needed, second result 7 on the `full` one) and on a `full`
representation (first result 5, no mutation needed). -/
theorem C1_mutable_method_returns_witness :
    accessorBody .get_data = .mutable_method ∧
    (mxArray.firstCall toyOps .get_data toyHandle).1 = .ok 0 ∧
    toyOps.mutation_needed (mxArray.firstCall toyOps .get_data toyHandle).2 = true ∧
    (mxArray.accessor toyOps .get_data toyHandle).retval = .ok (some 7) ∧
    (mxArray.firstCall toyOps .get_data { m_rep := .full 5, m_name := none }).1 = .ok 5 ∧
    toyOps.mutation_needed
      (mxArray.firstCall toyOps .get_data { m_rep := .full 5, m_name := none }).2 = false ∧
    (mxArray.accessor toyOps .get_data { m_rep := .full 5, m_name := none }).retval
      = .ok (some 5) :=
  ⟨rfl, rfl, rfl,
    ((C1_mutable_method_returns toyOps .get_data toyHandle rfl).2.2.1 0 rfl rfl).1,
    rfl, rfl,
    ((C1_mutable_method_returns toyOps .get_data
        { m_rep := .full 5, m_name := none } rfl).2.1 5 rfl rfl).1⟩

/-- Witness of C2 on the example representations: `set_m 3` on a `cheap` representation
takes two calls and one swap; the handle is left on the `full` representation that
`mutate ()` produced, after its `set_m 3` (address 7 + 3).  `get_data` on a `full`
representation takes one call and no swap. -/
theorem C2_at_most_one_retry_witness :
    isMutableAccessor (.set_m 3) = true ∧
    (mxArray.firstCall toyOps (.set_m 3) toyHandle).1 = .ok 0 ∧
    toyOps.mutation_needed (mxArray.firstCall toyOps (.set_m 3) toyHandle).2 = true ∧
    methodCalls (mxArray.accessor toyOps (.set_m 3) toyHandle).trace = 2 ∧
    maybeMutateCalls (mxArray.accessor toyOps (.set_m 3) toyHandle).trace = 1 ∧
    toyOps.mutate (toyOps.call (.set_m 3) toyHandle.m_rep).2
      = some { m_rep := .full 7, m_name := none } ∧
    (mxArray.accessor toyOps (.set_m 3) toyHandle).retval = .ok none ∧
    (mxArray.accessor toyOps (.set_m 3) toyHandle).self.m_rep = .full 10 ∧
    (mxArray.accessor (counted toyOps) (.set_m 3)
        { m_rep := { rep := toyHandle.m_rep, calls := 0, swaps := 0 },
          m_name := toyHandle.m_name }).self.m_rep.calls = 2 ∧
    (mxArray.accessor (counted toyOps) (.set_m 3)
        { m_rep := { rep := toyHandle.m_rep, calls := 0, swaps := 0 },
          m_name := toyHandle.m_name }).self.m_rep.swaps = 1 ∧
    (mxArray.accessor toyOps .get_data { m_rep := .full 5, m_name := none }).retval
      = .ok (some 5) ∧
    (mxArray.accessor (counted toyOps) .get_data
        { m_rep := { rep := .full 5, calls := 0, swaps := 0 },
          m_name := none }).self.m_rep.calls = 1 ∧
    (mxArray.accessor (counted toyOps) .get_data
        { m_rep := { rep := .full 5, calls := 0, swaps := 0 },
          m_name := none }).self.m_rep.swaps = 0 :=
  have h := C2_at_most_one_retry toyOps (.set_m 3) toyHandle rfl
  have hs := h.2.2.2.2.2.1 0 rfl rfl
  have hk := (h.2.2.2.2.2.2.2.2 0 0).2.2.1 0 rfl rfl
  have g := C2_at_most_one_retry toyOps .get_data { m_rep := .full 5, m_name := none } rfl
  have gk := (g.2.2.2.2.2.2.2.2 0 0).2.2.2.1 rfl
  ⟨rfl, rfl, rfl, (h.2.2.1 0 rfl rfl).1, (h.2.2.1 0 rfl rfl).2, rfl,
    (hs.2.2.2 { m_rep := .full 7, m_name := none } rfl).1,
    (hs.2.2.2 { m_rep := .full 7, m_name := none } rfl).2,
    hk.1, hk.2 { m_rep := .full 7, m_name := none } rfl,
    (g.2.2.2.2.2.2.1 5 rfl rfl).1, gk.1, gk.2⟩

/-- C3 fails on the code: `get_data` on a handle whose `cheap` representation mutates into
a `needy` one.  After the swap and the second call the new representation still reports
that a mutation is needed, and the accessor returns the second result, 9, with no error. -/
theorem C3_counterexample :
    isMutableAccessor .get_data = true ∧
    (mxArray.firstCall toyOps .get_data toyHandleNeedy).1 = .ok 0 ∧
    toyOps.mutation_needed (mxArray.firstCall toyOps .get_data toyHandleNeedy).2 = true ∧
    (mxArray.swapped toyOps .get_data toyHandleNeedy).m_rep = .needy 9 ∧
    toyOps.mutation_needed (mxArray.secondCall toyOps .get_data toyHandleNeedy).2 = true ∧
    (mxArray.accessor toyOps .get_data toyHandleNeedy).retval = .ok (some 9) ∧
    ¬ ∃ e, (mxArray.accessor toyOps .get_data toyHandleNeedy).retval = .error e := by
  refine ⟨rfl, rfl, rfl, rfl, rfl, rfl, ?_⟩
  rintro ⟨e, he⟩
  have h9 : (mxArray.accessor toyOps .get_data toyHandleNeedy).retval = .ok (some 9) := rfl
  rw [h9] at he
  cases he

/-- C3, amended: when a mutable accessor has swapped the representation and called the
method again, it does not ask `mutation_needed ()` a second time.  Even if the new
representation still reports that a mutation is needed, the accessor hands back the result
of the second call (nothing for a `void` accessor), raises no error of its own, and makes no
third call and no second swap. -/
theorem C3_no_check_after_retry (ops : mxArray_base R V) (c : RepCall) (self : mxArray R)
    (hc : isMutableAccessor c = true) (v : V)
    (h1 : (mxArray.firstCall ops c self).1 = .ok v)
    (hm : ops.mutation_needed (mxArray.firstCall ops c self).2 = true)
    (_hstill : ops.mutation_needed (mxArray.secondCall ops c self).2 = true) :
    (mxArray.accessor ops c self).retval = resultOf c (mxArray.secondCall ops c self).1 ∧
    (∀ v2, (mxArray.secondCall ops c self).1 = .ok v2 →
      ∃ ret, (mxArray.accessor ops c self).retval = .ok ret) ∧
    (mxArray.accessor ops c self).self.m_rep = (mxArray.secondCall ops c self).2 ∧
    mutationNeededCalls (mxArray.accessor ops c self).trace = 1 ∧
    methodCalls (mxArray.accessor ops c self).trace = 2 ∧
    maybeMutateCalls (mxArray.accessor ops c self).trace = 1 := by
  rw [accessor_mutation ops c self hc v h1 hm]
  refine ⟨rfl, ?_, rfl, rfl, rfl, rfl⟩
  intro v2 h2
  rcases isMutableAccessor_cases c hc with hb | hb
  · exact ⟨some v2, by simp [resultOf, hb, h2, retOf]⟩
  · exact ⟨none, by simp [resultOf, hb, h2, voidOf]⟩

/-- Witness of the amended C3 on the example of the counterexample. -/
theorem C3_no_check_after_retry_witness :
    isMutableAccessor .get_data = true ∧
    (mxArray.firstCall toyOps .get_data toyHandleNeedy).1 = .ok 0 ∧
    toyOps.mutation_needed (mxArray.firstCall toyOps .get_data toyHandleNeedy).2 = true ∧
    toyOps.mutation_needed (mxArray.secondCall toyOps .get_data toyHandleNeedy).2 = true ∧
    (mxArray.accessor toyOps .get_data toyHandleNeedy).retval = .ok (some 9) ∧
    mutationNeededCalls (mxArray.accessor toyOps .get_data toyHandleNeedy).trace = 1 :=
  ⟨rfl, rfl, rfl, rfl,
    (C3_no_check_after_retry toyOps .get_data toyHandleNeedy rfl 0 rfl rfl rfl).1,
    (C3_no_check_after_retry toyOps .get_data toyHandleNeedy rfl 0 rfl rfl rfl).2.2.2.1⟩

/-- C4: a handle holds a representation `A`; a mutable accessor is called, the first call
returns, `A` then reports that a mutation is needed and its `mutate ()` yields a
representation `B` that never reports that a mutation is needed, in any state it can reach.
Then that accessor call swaps once, returns the result of the call on `B` and leaves `B`
(after that call) as the active representation.  Every accessor call made later on the
handle finds a state of `B` active, invokes the method exactly once, on that state, returns
the result of that call, leaves `B` active in the state the call has brought it to, and does
not swap.  So a sequence of later calls gives one outcome for each call, and hands back just
what the member functions of `B` give when they are called directly, one after the other. -/
theorem C4_served_by_new_representation (ops : mxArray_base R V) (c : RepCall) (A B : R)
    (name : Option String) (new_val : mxArray R) (v : V)
    (hc : isMutableAccessor c = true)
    (h1 : (ops.call c A).1 = .ok v)
    (hm : ops.mutation_needed (ops.call c A).2 = true)
    (hmut : ops.mutate (ops.call c A).2 = some new_val)
    (hB : new_val.m_rep = B)
    (hnever : ∀ r, Reaches ops B r → ops.mutation_needed r = false) :
    maybeMutateCalls (mxArray.accessor ops c { m_rep := A, m_name := name }).trace = 1 ∧
    (mxArray.accessor ops c { m_rep := A, m_name := name }).retval
      = resultOf c (ops.call c B).1 ∧
    (mxArray.accessor ops c { m_rep := A, m_name := name }).self.m_rep = (ops.call c B).2 ∧
    (∀ (cs : List RepCall),
      ∀ o ∈ mxArray.accessors ops cs (mxArray.accessor ops c { m_rep := A, m_name := name }).self,
        ∃ c1 r, c1 ∈ cs ∧ Reaches ops B r ∧
          o.trace.head? = some (.method c1 r) ∧ methodCalls o.trace = 1 ∧
          maybeMutateCalls o.trace = 0 ∧ o.retval = resultOf c1 (ops.call c1 r).1 ∧
          o.self.m_rep = (ops.call c1 r).2) ∧
    Reaches ops B (mxArray.accessor ops c { m_rep := A, m_name := name }).self.m_rep ∧
    (∀ (later : mxArray R), Reaches ops B later.m_rep → ∀ c1 : RepCall,
      (mxArray.accessor ops c1 later).retval = resultOf c1 (ops.call c1 later.m_rep).1 ∧
      (mxArray.accessor ops c1 later).self.m_rep = (ops.call c1 later.m_rep).2 ∧
      (mxArray.accessor ops c1 later).trace.head? = some (.method c1 later.m_rep) ∧
      methodCalls (mxArray.accessor ops c1 later).trace = 1 ∧
      maybeMutateCalls (mxArray.accessor ops c1 later).trace = 0 ∧
      Reaches ops B (mxArray.accessor ops c1 later).self.m_rep ∧
      ∀ n m,
        (mxArray.accessor (counted ops) c1
            { m_rep := { rep := later.m_rep, calls := n, swaps := m },
              m_name := later.m_name }).self.m_rep.calls = n + 1 ∧
        (mxArray.accessor (counted ops) c1
            { m_rep := { rep := later.m_rep, calls := n, swaps := m },
              m_name := later.m_name }).self.m_rep.swaps = m) ∧
    (∀ (cs : List RepCall),
      (mxArray.accessors ops cs
          (mxArray.accessor ops c { m_rep := A, m_name := name }).self).length = cs.length ∧
      (mxArray.accessors ops cs
          (mxArray.accessor ops c { m_rep := A, m_name := name }).self).map
          (fun o => (o.retval, o.self.m_rep))
        = repCalls ops cs (ops.call c B).2) := by
  have hsw : (mxArray.swapped ops c { m_rep := A, m_name := name }).m_rep = B := by
    simp [mxArray.swapped, mxArray.maybe_mutate, mxArray.firstCall, hmut, hB]
  have hacc := accessor_mutation ops c { m_rep := A, m_name := name } hc v h1 hm
  have h2 : mxArray.secondCall ops c { m_rep := A, m_name := name } = ops.call c B := by
    simp [mxArray.secondCall, hsw]
  rw [hacc, h2]
  refine ⟨rfl, rfl, rfl, ?_, Reaches.call c Reaches.refl, ?_, ?_⟩
  · intro cs o ho
    exact accessors_direct ops B hnever cs _ (Reaches.call c Reaches.refl) o ho
  · intro later hl c1
    have hd := accessor_direct ops c1 later (hnever _ (Reaches.call c1 hl))
    refine ⟨hd.2.2.2.1, hd.2.2.2.2, hd.1, hd.2.1, hd.2.2.1, ?_, ?_⟩
    · rw [hd.2.2.2.2]; exact Reaches.call c1 hl
    · intro n m
      obtain ⟨_, _, hcalls, hlow, hup, _⟩ := counted_accessor ops c1 later n m
      exact ⟨by rw [hcalls, hd.2.1], by omega⟩
  · intro cs
    refine ⟨accessors_length ops cs _, ?_⟩
    exact accessors_repCalls ops B hnever cs _ (Reaches.call c Reaches.refl)

/-- Witness of C4 on the example representations: `A` is a fresh `cheap` representation,
`B` the `full` one at address 7; the first `get_data` swaps and returns 7.  The calls
`set_m 3`, `get_data` that follow give two outcomes, each with one call and no swap:
`set_m 3` hands back nothing and leaves `B` at address 10, `get_data` then returns 10. -/
theorem C4_served_by_new_representation_witness :
    isMutableAccessor .get_data = true ∧
    (toyOps.call .get_data (.cheap false true)).1 = .ok 0 ∧
    toyOps.mutation_needed (toyOps.call .get_data (.cheap false true)).2 = true ∧
    toyOps.mutate (toyOps.call .get_data (.cheap false true)).2
      = some { m_rep := .full 7, m_name := none } ∧
    (∀ r, Reaches toyOps (.full 7) r → toyOps.mutation_needed r = false) ∧
    (mxArray.accessor toyOps .get_data toyHandle).retval = .ok (some 7) ∧
    (mxArray.accessor toyOps .get_data toyHandle).self.m_rep = .full 7 ∧
    (∀ o ∈ mxArray.accessors toyOps [.set_m 3, .get_data]
        (mxArray.accessor toyOps .get_data toyHandle).self,
      methodCalls o.trace = 1 ∧ maybeMutateCalls o.trace = 0) ∧
    (mxArray.accessors toyOps [.set_m 3, .get_data]
        (mxArray.accessor toyOps .get_data toyHandle).self).length = 2 ∧
    (mxArray.accessors toyOps [.set_m 3, .get_data]
        (mxArray.accessor toyOps .get_data toyHandle).self).map
        (fun o => (o.retval, o.self.m_rep))
      = [(.ok none, .full 10), (.ok (some 10), .full 10)] ∧
    repCalls toyOps [.set_m 3, .get_data] (.full 7)
      = [(.ok none, .full 10), (.ok (some 10), .full 10)] ∧
    (mxArray.accessor toyOps (.set_m 3) { m_rep := .full 7, m_name := some "x" }).retval
      = .ok none ∧
    (mxArray.accessor toyOps (.set_m 3) { m_rep := .full 7, m_name := some "x" }).self.m_rep
      = .full 10 ∧
    (mxArray.accessor (counted toyOps) (.set_m 3)
        { m_rep := { rep := .full 7, calls := 2, swaps := 1 },
          m_name := some "x" }).self.m_rep.calls = 3 ∧
    (mxArray.accessor (counted toyOps) (.set_m 3)
        { m_rep := { rep := .full 7, calls := 2, swaps := 1 },
          m_name := some "x" }).self.m_rep.swaps = 1 :=
  have h := C4_served_by_new_representation toyOps .get_data (.cheap false true) (.full 7)
    (some "x") { m_rep := .full 7, m_name := none } 0 rfl rfl rfl rfl rfl (toy_full_never 7)
  have hl := h.2.2.2.2.2.1 { m_rep := .full 7, m_name := some "x" } Reaches.refl (.set_m 3)
  ⟨rfl, rfl, rfl, rfl, toy_full_never 7, h.2.1, h.2.2.1, fun o ho =>
    match h.2.2.2.1 [.set_m 3, .get_data] o ho with
    | ⟨_, _, _, _, _, hcalls, hswaps, _, _⟩ => ⟨hcalls, hswaps⟩,
    (h.2.2.2.2.2.2 [.set_m 3, .get_data]).1,
    (h.2.2.2.2.2.2 [.set_m 3, .get_data]).2,
    rfl, hl.1, hl.2.1, (hl.2.2.2.2.2.2 2 1).1, (hl.2.2.2.2.2.2 2 1).2⟩

/-- C5 fails on the code: `get_scalar` on a handle whose `cheap` representation reports,
after the call, that a mutation is needed.  The handle returns the first result, 1, keeps
the `cheap` representation, and never asks `mutation_needed ()` nor calls `maybe_mutate ()`;
calling `get_scalar` again after a swap would have given 2. -/
theorem C5_counterexample :
    (mxArray.firstCall toyOps .get_scalar toyHandle).1 = .ok 1 ∧
    toyOps.mutation_needed (mxArray.firstCall toyOps .get_scalar toyHandle).2 = true ∧
    (mxArray.secondCall toyOps .get_scalar toyHandle).1 = .ok 2 ∧
    (mxArray.accessor toyOps .get_scalar toyHandle).retval = .ok (some 1) ∧
    (mxArray.accessor toyOps .get_scalar toyHandle).self.m_rep = .cheap true true ∧
    mutationNeededCalls (mxArray.accessor toyOps .get_scalar toyHandle).trace = 0 ∧
    maybeMutateCalls (mxArray.accessor toyOps .get_scalar toyHandle).trace = 0 ∧
    (mxArray.accessor toyOps .get_scalar toyHandle).retval
      ≠ retOf (mxArray.secondCall toyOps .get_scalar toyHandle).1 := by
  refine ⟨rfl, rfl, rfl, rfl, rfl, rfl, rfl, ?_⟩
  intro h
  have h1 : (mxArray.accessor toyOps .get_scalar toyHandle).retval = .ok (some 1) := rfl
  have h2 : retOf (mxArray.secondCall toyOps .get_scalar toyHandle).1 = .ok (some 2) := rfl
  rw [h1, h2] at h
  cases h

/-- C5, amended: only the accessors built with `DO_MUTABLE_METHOD` or
`DO_VOID_MUTABLE_METHOD` follow the call / check / swap / call-again pattern.  Every other
accessor, `get_scalar`, `get_m`, `get_n`, `get_dimensions`, `get_number_of_elements`,
`get_nzmax`, `get_number_of_fields`, `get_string` and `get_class_id` among them, calls the
method of the active representation once and hands back that result: it does not ask
`mutation_needed ()` and does not swap, whatever the representation reports. -/
theorem C5_plain_forward_accessors (ops : mxArray_base R V) (c : RepCall)
    (self : mxArray R) (hc : isMutableAccessor c = false) :
    (mxArray.accessor ops c self).retval = resultOf c (ops.call c self.m_rep).1 ∧
    (mxArray.accessor ops c self).self.m_rep = (ops.call c self.m_rep).2 ∧
    (mxArray.accessor ops c self).trace = [.method c self.m_rep] ∧
    mutationNeededCalls (mxArray.accessor ops c self).trace = 0 ∧
    maybeMutateCalls (mxArray.accessor ops c self).trace = 0 ∧
    (isMutableAccessor .get_scalar = false ∧ isMutableAccessor .get_m = false ∧
      isMutableAccessor .get_n = false ∧ isMutableAccessor .get_dimensions = false ∧
      isMutableAccessor .get_number_of_elements = false ∧
      isMutableAccessor .get_nzmax = false ∧
      isMutableAccessor .get_number_of_fields = false ∧
      (∀ buf buflen, isMutableAccessor (.get_string buf buflen) = false) ∧
      isMutableAccessor .get_class_id = false) ∧
    (∀ c2 v, isMutableAccessor c2 = true → (mxArray.firstCall ops c2 self).1 = .ok v →
      ops.mutation_needed (mxArray.firstCall ops c2 self).2 = true →
        (mxArray.accessor ops c2 self).retval
          = resultOf c2 (mxArray.secondCall ops c2 self).1 ∧
        (mxArray.accessor ops c2 self).self.m_rep = (mxArray.secondCall ops c2 self).2 ∧
        maybeMutateCalls (mxArray.accessor ops c2 self).trace = 1) := by
  rw [accessor_forward ops c self hc]
  refine ⟨rfl, rfl, rfl, rfl, rfl,
    ⟨rfl, rfl, rfl, rfl, rfl, rfl, rfl, fun _ _ => rfl, rfl⟩, ?_⟩
  intro c2 v hc2 h1 hm
  rw [accessor_mutation ops c2 self hc2 v h1 hm]
  exact ⟨rfl, rfl, rfl⟩

/-- Witness of the amended C5 on the example of the counterexample. -/
theorem C5_plain_forward_accessors_witness :
    isMutableAccessor .get_scalar = false ∧
    (mxArray.accessor toyOps .get_scalar toyHandle).retval = .ok (some 1) ∧
    maybeMutateCalls (mxArray.accessor toyOps .get_scalar toyHandle).trace = 0 :=
  ⟨rfl, (C5_plain_forward_accessors toyOps .get_scalar toyHandle rfl).1,
    (C5_plain_forward_accessors toyOps .get_scalar toyHandle rfl).2.2.2.2.1⟩

/-- C6: an accessor call changes at most the active representation `m_rep` of the handle:
the name `get_name ()` returns is the same before and after the call, for every accessor,
every representation and every state of the handle, whether or not a swap occurred. -/
theorem C6_name_is_kept (ops : mxArray_base R V) (c : RepCall) (self : mxArray R) :
    (mxArray.accessor ops c self).self.get_name = self.get_name ∧
    (mxArray.accessor ops c self).self
      = { self with m_rep := (mxArray.accessor ops c self).self.m_rep } := by
  have key : (mxArray.accessor ops c self).self.m_name = self.m_name := by
    cases hmut : isMutableAccessor c
    · rw [accessor_forward ops c self hmut]
    · cases h1 : (mxArray.firstCall ops c self).1 with
      | error e => rw [accessor_first_error ops c self hmut e h1]
      | ok v =>
        cases hm : ops.mutation_needed (mxArray.firstCall ops c self).2
        · rw [accessor_no_mutation ops c self hmut v h1 hm]
        · rw [accessor_mutation ops c self hmut v h1 hm]
          simp [mxArray.swapped, maybe_mutate_name]
  refine ⟨key, ?_⟩
  cases hs : (mxArray.accessor ops c self).self with
  | mk rep nm =>
    rw [hs] at key
    simp at key
    simp [key]

end Bridge

/-! ## Theorems, part 2: kernels and installers -/

section Operators

/-- C7: in both `div` kernels, (matrix, sparse complex matrix) and (complex matrix, sparse
complex matrix), a right operand with exactly one row and one column gives the left
operand's array divided by the right operand's complex value, and `xdiv` is not called; in
every other case the result is that of `xdiv` on the left matrix value, the right sparse
complex value and the matrix type of the right operand. -/
theorem C7_div_kernels (L : Lib) (m : octave_matrix L) (cm : octave_complex_matrix L)
    (v2 : octave_sparse_complex_matrix L) :
    (v2.rows = 1 ∧ v2.columns = 1 →
      (op_m_scm.oct_binop_div L m v2).retval
        = .ok (.complex_nd_array (L.nd_div m.array_value v2.complex_value)) ∧
      LibCall.xdiv ∉ (op_m_scm.oct_binop_div L m v2).calls ∧
      (op_cm_scm.oct_binop_div L cm v2).retval
        = .ok (.complex_nd_array (L.cnd_div cm.complex_array_value v2.complex_value)) ∧
      LibCall.xdiv ∉ (op_cm_scm.oct_binop_div L cm v2).calls) ∧
    (¬ (v2.rows = 1 ∧ v2.columns = 1) →
      (op_m_scm.oct_binop_div L m v2).retval
        = xdivResult (L.xdiv_m_scm m.matrix_value v2.sparse_complex_matrix_value
            v2.matrix_type) ∧
      (op_m_scm.oct_binop_div L m v2).calls = [.xdiv] ∧
      (op_cm_scm.oct_binop_div L cm v2).retval
        = xdivResult (L.xdiv_cm_scm cm.complex_matrix_value v2.sparse_complex_matrix_value
            v2.matrix_type) ∧
      (op_cm_scm.oct_binop_div L cm v2).calls = [.xdiv]) := by
  constructor
  · intro h
    simp [op_m_scm.oct_binop_div, op_cm_scm.oct_binop_div, h]
  · intro h
    unfold op_m_scm.oct_binop_div op_cm_scm.oct_binop_div
    rw [if_neg h, if_neg h]
    dsimp only
    generalize L.xdiv_m_scm m.matrix_value v2.sparse_complex_matrix_value v2.matrix_type
      = res1
    generalize L.xdiv_cm_scm cm.complex_matrix_value v2.sparse_complex_matrix_value
      v2.matrix_type = res2
    refine ⟨?_, ?_, ?_, ?_⟩
    · rcases res1 with e | ⟨ret, typ1⟩ <;> rfl
    · rcases res1 with e | ⟨ret, typ1⟩ <;> rfl
    · rcases res2 with e | ⟨ret, typ1⟩ <;> rfl
    · rcases res2 with e | ⟨ret, typ1⟩ <;> rfl

/-- Witness of C7 on the integer library: [6, 8] and [6+2i, 8+4i] divided by the 1x1 sparse
operand 2, and by a 2x2 sparse operand through `xdiv`. -/
theorem C7_div_kernels_witness :
    (toySparseScalar.rows = 1 ∧ toySparseScalar.columns = 1) ∧
    (op_m_scm.oct_binop_div toyLib toyMatrix toySparseScalar).retval
      = .ok (.complex_nd_array [(3, 0), (4, 0)]) ∧
    (op_cm_scm.oct_binop_div toyLib toyComplexMatrix toySparseScalar).retval
      = .ok (.complex_nd_array [(3, 1), (4, 2)]) ∧
    ¬ (toySparseSquare.rows = 1 ∧ toySparseSquare.columns = 1) ∧
    (op_m_scm.oct_binop_div toyLib toyMatrix toySparseSquare).retval
      = .ok (.complex_matrix [(3, 0), (4, 0)]) ∧
    (op_cm_scm.oct_binop_div toyLib toyComplexMatrix toySparseSquare).calls = [.xdiv] :=
  ⟨⟨rfl, rfl⟩,
    ((C7_div_kernels toyLib toyMatrix toyComplexMatrix toySparseScalar).1 ⟨rfl, rfl⟩).1,
    ((C7_div_kernels toyLib toyMatrix toyComplexMatrix toySparseScalar).1 ⟨rfl, rfl⟩).2.2.1,
    by decide,
    ((C7_div_kernels toyLib toyMatrix toyComplexMatrix toySparseSquare).2 (by decide)).1,
    ((C7_div_kernels toyLib toyMatrix toyComplexMatrix toySparseSquare).2
      (by decide)).2.2.2⟩

/-- C8: the `pow` kernels for (matrix, sparse complex matrix) and (complex matrix, sparse
complex matrix) never return a value: for every pair of operands, whatever their shapes,
they fail with the error "can't do A ^ B for A and B both matrices". -/
theorem C8_pow_kernels_fail (L : Lib) (m : octave_matrix L) (cm : octave_complex_matrix L)
    (v2 : octave_sparse_complex_matrix L) :
    op_m_scm.oct_binop_pow L m v2 = .error "can't do A ^ B for A and B both matrices" ∧
    op_cm_scm.oct_binop_pow L cm v2 = .error "can't do A ^ B for A and B both matrices" ∧
    (∀ v, op_m_scm.oct_binop_pow L m v2 ≠ .ok v) ∧
    (∀ v, op_cm_scm.oct_binop_pow L cm v2 ≠ .ok v) := by
  refine ⟨rfl, rfl, ?_, ?_⟩ <;> intro v h <;> cases h

/-- Two registration calls that write different entries can be made in either order. -/
theorem install_comm (ti : type_info) (r1 r2 : Registration) (h : r1.key ≠ r2.key) :
    (ti.install r1).install r2 = (ti.install r2).install r1 := by
  cases r1 <;> cases r2 <;> simp only [type_info.install] <;>
    simp only [Registration.key, ne_eq, TableKey.binary.injEq, TableKey.cat.injEq,
      TableKey.assign.injEq, TableKey.assign_conv.injEq, TableKey.widen.injEq] at h <;>
    congr 1 <;> apply Function.update_comm <;> simpa using h

theorem installAll_install_comm (calls : List Registration) (r0 : Registration) :
    ∀ (ti : type_info), (∀ r ∈ calls, r.key ≠ r0.key) →
      (ti.installAll calls).install r0 = (ti.install r0).installAll calls := by
  induction calls with
  | nil => intro ti _; rfl
  | cons r rs ih =>
    intro ti h
    have hr : r.key ≠ r0.key := h r (List.mem_cons_self _ _)
    have hrs : ∀ x ∈ rs, x.key ≠ r0.key := fun x hx => h x (List.mem_cons_of_mem _ hx)
    simp only [type_info.installAll, List.foldl_cons] at ih ⊢
    rw [ih (ti.install r) hrs, install_comm ti r r0 hr]

/-- Two installers whose calls write different entries can run in either order. -/
theorem installAll_comm (calls1 calls2 : List Registration) :
    ∀ (ti : type_info), (∀ r1 ∈ calls1, ∀ r2 ∈ calls2, r1.key ≠ r2.key) →
      (ti.installAll calls1).installAll calls2 = (ti.installAll calls2).installAll calls1 := by
  induction calls2 with
  | nil => intro ti _; rfl
  | cons r rs ih =>
    intro ti h
    have hr : ∀ x ∈ calls1, x.key ≠ r.key := fun x hx => h x hx r (List.mem_cons_self _ _)
    have hrs : ∀ r1 ∈ calls1, ∀ r2 ∈ rs, r1.key ≠ r2.key :=
      fun x hx y hy => h x hx y (List.mem_cons_of_mem _ hy)
    have step : (ti.installAll calls1).installAll (r :: rs)
        = ((ti.installAll calls1).install r).installAll rs := rfl
    have step2 : (ti.installAll (r :: rs)) = (ti.install r).installAll rs := rfl
    rw [step, step2, installAll_install_comm calls1 r ti hr, ih (ti.install r) hrs]

theorem m_scm_cm_scm_keys :
    ∀ r1 ∈ install_m_scm_ops_calls, ∀ r2 ∈ install_cm_scm_ops_calls, r1.key ≠ r2.key := by
  decide

theorem m_scm_pm_sm_keys :
    ∀ r1 ∈ install_m_scm_ops_calls, ∀ r2 ∈ install_pm_sm_ops_calls, r1.key ≠ r2.key := by
  decide

theorem cm_scm_pm_sm_keys :
    ∀ r1 ∈ install_cm_scm_ops_calls, ∀ r2 ∈ install_pm_sm_ops_calls, r1.key ≠ r2.key := by
  decide

theorem m_cm_comm (ti : type_info) :
    install_cm_scm_ops (install_m_scm_ops ti) = install_m_scm_ops (install_cm_scm_ops ti) :=
  installAll_comm _ _ ti m_scm_cm_scm_keys

theorem m_pm_comm (ti : type_info) :
    install_pm_sm_ops (install_m_scm_ops ti) = install_m_scm_ops (install_pm_sm_ops ti) :=
  installAll_comm _ _ ti m_scm_pm_sm_keys

theorem cm_pm_comm (ti : type_info) :
    install_pm_sm_ops (install_cm_scm_ops ti) = install_cm_scm_ops (install_pm_sm_ops ti) :=
  installAll_comm _ _ ti cm_scm_pm_sm_keys

/-- C9: reading each `INSTALL_BINOP_TI` call as the key (operator kind, left type, right
type), no key is registered twice within `install_m_scm_ops`, `install_cm_scm_ops` or
`install_pm_sm_ops`, and no key of one installer is a key of another. -/
theorem C9_binop_keys_distinct :
    (binopKeys install_m_scm_ops_calls).Nodup ∧
    (binopKeys install_cm_scm_ops_calls).Nodup ∧
    (binopKeys install_pm_sm_ops_calls).Nodup ∧
    (∀ k ∈ binopKeys install_m_scm_ops_calls, k ∉ binopKeys install_cm_scm_ops_calls) ∧
    (∀ k ∈ binopKeys install_m_scm_ops_calls, k ∉ binopKeys install_pm_sm_ops_calls) ∧
    (∀ k ∈ binopKeys install_cm_scm_ops_calls, k ∉ binopKeys install_pm_sm_ops_calls) ∧
    (binopKeys install_m_scm_ops_calls).length = 18 ∧
    (binopKeys install_cm_scm_ops_calls).length = 20 ∧
    (binopKeys install_pm_sm_ops_calls).length = 4 := by
  refine ⟨?_, ?_, ?_, ?_, ?_, ?_, ?_, ?_, ?_⟩ <;> decide

/-- C10: from every initial operator table, running `install_m_scm_ops`,
`install_cm_scm_ops` and `install_pm_sm_ops` in any of the six orders yields the same final
table: the same entry under every binary, concatenation, assignment, assignment-conversion
and widening key. -/
theorem C10_installers_in_any_order (ti : type_info) :
    install_cm_scm_ops (install_pm_sm_ops (install_m_scm_ops ti))
      = install_pm_sm_ops (install_cm_scm_ops (install_m_scm_ops ti)) ∧
    install_pm_sm_ops (install_m_scm_ops (install_cm_scm_ops ti))
      = install_pm_sm_ops (install_cm_scm_ops (install_m_scm_ops ti)) ∧
    install_m_scm_ops (install_pm_sm_ops (install_cm_scm_ops ti))
      = install_pm_sm_ops (install_cm_scm_ops (install_m_scm_ops ti)) ∧
    install_cm_scm_ops (install_m_scm_ops (install_pm_sm_ops ti))
      = install_pm_sm_ops (install_cm_scm_ops (install_m_scm_ops ti)) ∧
    install_m_scm_ops (install_cm_scm_ops (install_pm_sm_ops ti))
      = install_pm_sm_ops (install_cm_scm_ops (install_m_scm_ops ti)) := by
  refine ⟨?_, ?_, ?_, ?_, ?_⟩
  · rw [cm_pm_comm]
  · rw [m_cm_comm]
  · rw [m_cm_comm ti, m_pm_comm]
  · rw [← m_pm_comm ti, cm_pm_comm]
  · rw [← cm_pm_comm ti, ← m_pm_comm, m_cm_comm ti]

end Operators


/-! ## Theorems, part 3: looking an entry up -/

section Lookup

/-- After one registration call, the key it writes holds its entry and every other key
holds what it held before. -/
theorem lookup_install (ti : type_info) (r : Registration) (k : TableKey) :
    (ti.install r).lookup k = if r.key = k then some r.entry else ti.lookup k := by
  cases r <;> cases k <;>
    simp [type_info.install, type_info.lookup, Registration.key, Registration.entry,
      Function.update_apply] <;>
    split_ifs <;> simp_all

theorem lookup_installAll (calls : List Registration) :
    ∀ (ti : type_info) (k : TableKey),
      (ti.installAll calls).lookup k =
        match lastInstall calls k with
        | some r => some r.entry
        | none => ti.lookup k := by
  induction calls with
  | nil => intro ti k; rfl
  | cons r rs ih =>
    intro ti k
    have step : ti.installAll (r :: rs) = (ti.install r).installAll rs := rfl
    rw [step, ih (ti.install r) k]
    unfold lastInstall
    rw [List.reverse_cons, List.find?_append]
    cases h : rs.reverse.find? fun x => decide (x.key = k) with
    | some x => simp
    | none =>
      simp only [Option.none_or, List.find?_cons, List.find?_nil]
      rw [lookup_install]
      by_cases hk : r.key = k <;> simp [hk]

theorem lastInstall_eq_none (calls : List Registration) (k : TableKey) :
    lastInstall calls k = none ↔ ∀ r ∈ calls, r.key ≠ k := by
  simp [lastInstall]

theorem lastInstall_eq_some (calls : List Registration) (k : TableKey) (r : Registration) :
    lastInstall calls k = some r ↔
      r.key = k ∧ ∃ before after, calls = before ++ r :: after ∧ ∀ x ∈ after, x.key ≠ k := by
  unfold lastInstall
  rw [List.find?_eq_some]
  constructor
  · rintro ⟨hk, as, bs, hrev, hbs⟩
    refine ⟨by simpa using hk, bs.reverse, as.reverse, ?_, ?_⟩
    · have := congrArg List.reverse hrev
      simpa using this
    · intro x hx
      have := hbs x (by simpa using hx)
      simpa using this
  · rintro ⟨hk, before, after, hcalls, hafter⟩
    refine ⟨by simpa using hk, after.reverse, before.reverse, ?_, ?_⟩
    · simp [hcalls]
    · intro x hx
      have := hafter x (by simpa using hx)
      simpa using this

/-- C11: for every key, `lookup` after a sequence of registration calls returns exactly
the entry of the last call for that exact key, and what the table held before (nothing,
from the empty table) for a key no call writes.  After `install_pm_sm_ops` on the empty
table, `lookup (op_mul, perm_matrix, sparse_matrix)` is `mul_pm_sm`,
`lookup (op_mul, sparse_matrix, perm_matrix)` is `mul_sm_pm`, and
`lookup (op_div, perm_matrix, sparse_matrix)` and `lookup (op_ldiv, sparse_matrix,
perm_matrix)` are absent: a swapped type pair does not match. -/
theorem C11_lookup_returns_last_install (ti : type_info) (calls : List Registration)
    (k : TableKey) :
    ((ti.installAll calls).lookup k =
      match lastInstall calls k with
      | some r => some r.entry
      | none => ti.lookup k) ∧
    (type_info.empty.installAll calls).lookup k
      = (lastInstall calls k).map Registration.entry ∧
    (lastInstall calls k = none ↔ ∀ r ∈ calls, r.key ≠ k) ∧
    (∀ r, lastInstall calls k = some r ↔
      r.key = k ∧ ∃ before after, calls = before ++ r :: after ∧ ∀ x ∈ after, x.key ≠ k) ∧
    (install_pm_sm_ops type_info.empty).lookup_binary_op .op_mul .octave_perm_matrix
      .octave_sparse_matrix = some (pm_sm "mul_pm_sm") ∧
    (install_pm_sm_ops type_info.empty).lookup_binary_op .op_mul .octave_sparse_matrix
      .octave_perm_matrix = some (pm_sm "mul_sm_pm") ∧
    (install_pm_sm_ops type_info.empty).lookup_binary_op .op_div .octave_perm_matrix
      .octave_sparse_matrix = none ∧
    (install_pm_sm_ops type_info.empty).lookup_binary_op .op_ldiv .octave_sparse_matrix
      .octave_perm_matrix = none := by
  refine ⟨lookup_installAll calls ti k, ?_, lastInstall_eq_none calls k,
    lastInstall_eq_some calls k, rfl, rfl, rfl, rfl⟩
  rw [lookup_installAll calls type_info.empty k]
  cases lastInstall calls k <;> cases k <;> rfl

end Lookup


/-! ## Theorems, part 4: the null values -/

section NullValues

theorem sentinel_cases (s : octave_base_value) (hs : s ∈ sentinels) :
    s = octave_null_matrix_instance ∨ s = octave_null_str_instance ∨
      s = octave_null_sq_str_instance := by
  simpa [sentinels] using hs

/-- C12: `isnull ()` returns true for each of the three sentinel objects
`octave_null_matrix`, `octave_null_str` and `octave_null_sq_str`, and for an object of no
other class; in particular the `empty_clone ()` of an `octave_diag_matrix` and a
default-constructed `octave_matrix`, both empty, have `isnull () == false`. -/
theorem C12_isnull_only_for_sentinels (v d : octave_base_value) :
    octave_null_matrix_instance.isnull = true ∧
    octave_null_str_instance.isnull = true ∧
    octave_null_sq_str_instance.isnull = true ∧
    (v.isnull = true ↔
      v.cls = .octave_null_matrix ∨ v.cls = .octave_null_str ∨
        v.cls = .octave_null_sq_str) ∧
    (octave_diag_matrix.empty_clone d).isempty = true ∧
    (octave_diag_matrix.empty_clone d).isnull = false ∧
    (octave_diag_matrix.clone d).isnull = false ∧
    (default_constructed .octave_matrix).isempty = true ∧
    (default_constructed .octave_matrix).isnull = false := by
  refine ⟨rfl, rfl, rfl, ?_, rfl, rfl, rfl, rfl, rfl⟩
  obtain ⟨c, r, n⟩ := v
  cases c <;>
    simp [octave_base_value.isnull, ov_class.isnull_declared, octave_base_value_isnull]

/-- C13: for each of the three sentinels, cloning it yields an ordinary empty value of the
class it derives from (`octave_matrix`, `octave_char_matrix_str`,
`octave_char_matrix_sq_str`) whose `isnull ()` is false; so a mutating operation on a handle
that shares the sentinel object, which first clones it, leaves the handle with
`isnull () == false`, and so does every mutating operation after it. -/
theorem C13_clone_loses_null_status (s : octave_base_value) (hs : s ∈ sentinels) :
    s.isnull = true ∧
    some s.clone.cls = s.cls.base ∧
    (∀ c, s.cls.base = some c → s.clone = default_constructed c) ∧
    s.clone.isempty = true ∧
    s.clone.isnull = false ∧
    (octave_null_matrix_instance.clone.cls = .octave_matrix ∧
      octave_null_str_instance.clone.cls = .octave_char_matrix_str ∧
      octave_null_sq_str_instance.clone.cls = .octave_char_matrix_sq_str) ∧
    (∀ h : ov_handle, shares_instance h s →
      h.isnull = true ∧
      h.make_unique.isnull = false ∧
      ∀ rows columns, (h.resize rows columns).isnull = false ∧
        ∀ rows2 columns2, ((h.resize rows columns).resize rows2 columns2).isnull = false) := by
  have hclone : ∀ (h : ov_handle), shares_instance h s → h.make_unique
      = { rep := s.clone, count := 1 } := by
    rintro ⟨rep, count⟩ ⟨hrep, hcount⟩
    simp only at hrep hcount
    subst hrep
    have : count > 1 := hcount
    simp [ov_handle.make_unique, this]
  have hresize : ∀ (h : ov_handle), shares_instance h s → ∀ rows columns,
      h.resize rows columns
        = { rep := { s.clone with rows := rows, columns := columns }, count := 1 } := by
    intro h hsh rows columns
    simp only [ov_handle.resize, hclone h hsh]
  rcases sentinel_cases s hs with rfl | rfl | rfl
  all_goals
    refine ⟨rfl, rfl, ?_, rfl, rfl, ⟨rfl, rfl, rfl⟩, ?_⟩
    · intro c hc
      cases hc
      rfl
    · intro h hsh
      refine ⟨?_, ?_, ?_⟩
      · rw [ov_handle.isnull, hsh.1]; rfl
      · rw [hclone h hsh]; rfl
      · intro rows columns
        rw [hresize h hsh rows columns]
        exact ⟨rfl, fun _ _ => rfl⟩

/-- Witness of C13: the null matrix, and a handle that shares it with `instance`. -/
theorem C13_clone_loses_null_status_witness :
    octave_null_matrix_instance ∈ sentinels ∧
    shares_instance { rep := octave_null_matrix_instance, count := 2 }
      octave_null_matrix_instance ∧
    octave_null_matrix_instance.clone = default_constructed .octave_matrix ∧
    (ov_handle.resize { rep := octave_null_matrix_instance, count := 2 } 0 3).isnull
      = false :=
  have h := C13_clone_loses_null_status octave_null_matrix_instance (by simp [sentinels])
  ⟨by simp [sentinels], ⟨rfl, by decide⟩, h.2.2.1 .octave_matrix rfl,
    ((h.2.2.2.2.2.2 { rep := octave_null_matrix_instance, count := 2 }
      ⟨rfl, by decide⟩).2.2 0 3).1⟩

end NullValues


/-! ## Theorems, part 5: the kernels of `op-pm-sm.cc` -/

section PermSparse

/-- C20: the shape policy of the `mul` kernels between a permutation matrix and a sparse
matrix is decided inside the kernel.  `mul_pm_sm` returns (permutation as sparse) * d when
the sparse operand is 1x1 with value d, also when both operands are 1x1; the sparse operand
unchanged when only the permutation operand is 1x1; the product permutation * sparse
otherwise.  `mul_sm_pm` mirrors it: d * (permutation as sparse) when the sparse left operand
is 1x1, the sparse operand unchanged when only the permutation is 1x1, sparse * permutation
otherwise. -/
theorem C20_mul_shape_policy (L : PmSmLib) (pm : octave_perm_matrix L)
    (sm : octave_sparse_matrix L) :
    (sm.rows = 1 ∧ sm.columns = 1 →
      op_pm_sm.oct_binop_mul_pm_sm L pm sm
        = .ok (L.sparse_times_scalar pm.sparse_matrix_value sm.scalar_value) ∧
      op_pm_sm.oct_binop_mul_sm_pm L sm pm
        = .ok (L.scalar_times_sparse sm.scalar_value pm.sparse_matrix_value)) ∧
    (¬ (sm.rows = 1 ∧ sm.columns = 1) → pm.rows = 1 ∧ pm.columns = 1 →
      op_pm_sm.oct_binop_mul_pm_sm L pm sm = .ok sm.sparse_matrix_value ∧
      op_pm_sm.oct_binop_mul_sm_pm L sm pm = .ok sm.sparse_matrix_value) ∧
    (¬ (sm.rows = 1 ∧ sm.columns = 1) → ¬ (pm.rows = 1 ∧ pm.columns = 1) →
      op_pm_sm.oct_binop_mul_pm_sm L pm sm
        = L.perm_times_sparse pm.perm_matrix_value sm.sparse_matrix_value ∧
      op_pm_sm.oct_binop_mul_sm_pm L sm pm
        = L.sparse_times_perm sm.sparse_matrix_value pm.perm_matrix_value) := by
  refine ⟨?_, ?_, ?_⟩
  · intro h
    simp [op_pm_sm.oct_binop_mul_pm_sm, op_pm_sm.oct_binop_mul_sm_pm, h]
  · intro h1 h2
    simp [op_pm_sm.oct_binop_mul_pm_sm, op_pm_sm.oct_binop_mul_sm_pm, h1, h2]
  · intro h1 h2
    simp [op_pm_sm.oct_binop_mul_pm_sm, op_pm_sm.oct_binop_mul_sm_pm, h1, h2]

/-- Witness of C20 on the integer library: the row swap times the 1x1 sparse 3, the 1x1
permutation times a 2x2 sparse matrix, and the row swap times that matrix. -/
theorem C20_mul_shape_policy_witness :
    (toySparseThree.rows = 1 ∧ toySparseThree.columns = 1) ∧
    op_pm_sm.oct_binop_mul_pm_sm toyPmSmLib toySwap toySparseThree
      = .ok [[0, 3], [3, 0]] ∧
    op_pm_sm.oct_binop_mul_pm_sm toyPmSmLib toyPermOne toySparseThree = .ok [[3]] ∧
    ¬ (toySparseTwoByTwo.rows = 1 ∧ toySparseTwoByTwo.columns = 1) ∧
    (toyPermOne.rows = 1 ∧ toyPermOne.columns = 1) ∧
    op_pm_sm.oct_binop_mul_sm_pm toyPmSmLib toySparseTwoByTwo toyPermOne
      = .ok [[1, 2], [3, 4]] ∧
    ¬ (toySwap.rows = 1 ∧ toySwap.columns = 1) ∧
    op_pm_sm.oct_binop_mul_pm_sm toyPmSmLib toySwap toySparseTwoByTwo
      = .ok [[3, 4], [1, 2]] ∧
    op_pm_sm.oct_binop_mul_sm_pm toyPmSmLib toySparseTwoByTwo toySwap
      = .ok [[2, 1], [4, 3]] :=
  ⟨⟨rfl, rfl⟩,
    ((C20_mul_shape_policy toyPmSmLib toySwap toySparseThree).1 ⟨rfl, rfl⟩).1,
    ((C20_mul_shape_policy toyPmSmLib toyPermOne toySparseThree).1 ⟨rfl, rfl⟩).1,
    by decide, ⟨rfl, rfl⟩,
    ((C20_mul_shape_policy toyPmSmLib toyPermOne toySparseTwoByTwo).2.1 (by decide)
      ⟨rfl, rfl⟩).2,
    by decide,
    ((C20_mul_shape_policy toyPmSmLib toySwap toySparseTwoByTwo).2.2 (by decide)
      (by decide)).1,
    ((C20_mul_shape_policy toyPmSmLib toySwap toySparseTwoByTwo).2.2 (by decide)
      (by decide)).2⟩

end PermSparse


/-! ## Theorems, part 6: `KeyboardTranslator::Entry::matches` -/

namespace KeyboardTranslator

theorem inter_singleton_ne_empty {α : Type} [DecidableEq α] (s : Finset α) (a : α) :
    s ∩ {a} ≠ ∅ ↔ a ∈ s := by
  by_cases h : a ∈ s
  · simp [Finset.inter_singleton_of_mem h, h]
  · simp [Finset.inter_singleton_of_not_mem h, h]

/-- On an entry that allows no modifier (`AnyModifierState` in the state mask, not in the
state), a query whose only modifier is the keypad one is rejected: the modifiers are not
empty, so `AnyModifierState` is added to the state of the query and the masked states
differ. -/
theorem matches_keypad_rejected (e : Entry) (keyCode : Int) (state : States)
    (hmask : State.AnyModifierState ∈ e._stateMask)
    (hstate : State.AnyModifierState ∉ e._state) :
    e.matches keyCode {KeyboardModifier.KeypadModifier} state = false := by
  unfold Entry.matches
  by_cases h1 : e._keyCode ≠ keyCode
  · simp [h1]
  · rw [if_neg h1]
    by_cases h2 : ({KeyboardModifier.KeypadModifier} ∩ e._modifierMask)
        ≠ (e._modifiers ∩ e._modifierMask)
    · rw [if_pos h2]
    · rw [if_neg h2]
      have hne : ({KeyboardModifier.KeypadModifier} : KeyboardModifiers) ≠ ∅ := by decide
      have h3 : ((state ∪ {State.AnyModifierState}) ∩ e._stateMask)
          ≠ (e._state ∩ e._stateMask) := by
        intro heq
        have hin : State.AnyModifierState ∈ (state ∪ {State.AnyModifierState}) ∩ e._stateMask := by
          simp [hmask]
        rw [heq] at hin
        exact hstate (Finset.mem_inter.mp hin).1
      simp only [hne, ne_eq, not_false_eq_true, if_true]
      rw [if_pos h3]

/-- C14 fails on the code: the entry `key Up-AnyMod` (state mask `AnyModifierState`, state
and modifier mask empty) and the query with its key code, the keypad modifier alone and no
state.  The entry meets every condition of the claim, and `matches` returns false, while it
returns true for the same query without the keypad modifier. -/
theorem C14_keypad_counts_as_modifier :
    State.AnyModifierState ∈ upNoModifier._stateMask ∧
    State.AnyModifierState ∉ upNoModifier._state ∧
    upNoModifier._modifierMask = ∅ ∧
    (∅ : States) ∩ (upNoModifier._stateMask \ {State.AnyModifierState})
      = upNoModifier._state ∩ (upNoModifier._stateMask \ {State.AnyModifierState}) ∧
    upNoModifier.matches upNoModifier._keyCode {KeyboardModifier.KeypadModifier} ∅ = false ∧
    upNoModifier.matches upNoModifier._keyCode ∅ ∅ = true := by
  decide

/-- C15: for an entry whose state mask contains `AnyModifierState`, `matches` returns false
when the state of the entry contains `AnyModifierState` and the modifiers of the query are
empty or exactly the keypad one, and when the state of the entry does not contain it and
the modifiers of the query are neither empty nor exactly the keypad one; and `matches`
returns false whenever the key codes differ or the modifiers under the modifier mask
differ. -/
theorem C15_matches_rejects (e : Entry) (keyCode : Int) (modifiers : KeyboardModifiers)
    (state : States) (hmask : State.AnyModifierState ∈ e._stateMask) :
    (State.AnyModifierState ∈ e._state →
      (modifiers = ∅ ∨ modifiers = {KeyboardModifier.KeypadModifier}) →
        e.matches keyCode modifiers state = false) ∧
    (State.AnyModifierState ∉ e._state →
      modifiers ≠ ∅ → modifiers ≠ {KeyboardModifier.KeypadModifier} →
        e.matches keyCode modifiers state = false) ∧
    (keyCode ≠ e._keyCode → e.matches keyCode modifiers state = false) ∧
    ((modifiers ∩ e._modifierMask) ≠ (e._modifiers ∩ e._modifierMask) →
      e.matches keyCode modifiers state = false) := by
  have hm : (e._stateMask ∩ {State.AnyModifierState}) ≠ ∅ :=
    (inter_singleton_ne_empty _ _).mpr hmask
  refine ⟨?_, ?_, ?_, ?_⟩
  · intro hstate hmods
    have hs : (e._state ∩ {State.AnyModifierState}) ≠ ∅ :=
      (inter_singleton_ne_empty _ _).mpr hstate
    have hany : (decide (modifiers ≠ ∅)
        && decide (modifiers ≠ {KeyboardModifier.KeypadModifier})) = false := by
      rcases hmods with h | h <;> simp [h]
    unfold Entry.matches
    split_ifs <;> simp_all
  · intro hstate h0 hk
    have hs : ¬ (e._state ∩ {State.AnyModifierState}) ≠ ∅ := by
      rw [inter_singleton_ne_empty]; exact hstate
    have hany : (decide (modifiers ≠ ∅)
        && decide (modifiers ≠ {KeyboardModifier.KeypadModifier})) = true := by
      simp [h0, hk]
    unfold Entry.matches
    split_ifs <;> simp_all
  · intro hk
    have : e._keyCode ≠ keyCode := fun h => hk h.symm
    simp [Entry.matches, this]
  · intro hmod
    unfold Entry.matches
    split_ifs <;> simp_all

/-- Witness of C15: the entry `key Up+AnyMod` rejects a query without modifiers and one
with the keypad modifier alone; the entry `key Up-AnyMod` rejects a query with the shift
modifier. -/
theorem C15_matches_rejects_witness :
    State.AnyModifierState ∈ upAnyModifier._stateMask ∧
    State.AnyModifierState ∈ upAnyModifier._state ∧
    upAnyModifier.matches 0x01000013 ∅ {State.AnyModifierState} = false ∧
    upAnyModifier.matches 0x01000013 {KeyboardModifier.KeypadModifier} ∅ = false ∧
    State.AnyModifierState ∈ upNoModifier._stateMask ∧
    State.AnyModifierState ∉ upNoModifier._state ∧
    upNoModifier.matches 0x01000013 {KeyboardModifier.ShiftModifier} ∅ = false ∧
    upNoModifier.matches 0x01000012 ∅ ∅ = false :=
  ⟨by decide, by decide,
    (C15_matches_rejects upAnyModifier 0x01000013 ∅ {State.AnyModifierState}
      (by decide)).1 (by decide) (Or.inl rfl),
    (C15_matches_rejects upAnyModifier 0x01000013 {KeyboardModifier.KeypadModifier} ∅
      (by decide)).1 (by decide) (Or.inr rfl),
    by decide, by decide,
    (C15_matches_rejects upNoModifier 0x01000013 {KeyboardModifier.ShiftModifier} ∅
      (by decide)).2.1 (by decide) (by decide) (by decide),
    (C15_matches_rejects upNoModifier 0x01000012 ∅ ∅ (by decide)).2.2.1 (by decide)⟩

end KeyboardTranslator


/-! ## Theorems, part 7: `KeyboardTranslatorReader::decodeSequence` -/

namespace KeyboardTranslator

theorem isLetterOrNumber_ne_sign (c : Char) (h : isLetterOrNumber c = true) :
    c ≠ '+' ∧ c ≠ '-' := by
  constructor <;> rintro rfl <;> revert h <;> decide

theorem decodeChar_letter (f : List Char → Option Int) (c : Char) (s : DecodeState)
    (h : isLetterOrNumber c = true) :
    decodeChar f c false s = { s with buffer := s.buffer ++ [c] } := by
  obtain ⟨h1, h2⟩ := isLetterOrNumber_ne_sign c h
  simp [decodeChar, h, h1, h2]

theorem decodeChar_last_letter (f : List Char → Option Int) (c : Char) (s : DecodeState)
    (h : isLetterOrNumber c = true) :
    decodeChar f c true s = decodeItem f { s with buffer := s.buffer ++ [c] } := by
  obtain ⟨h1, h2⟩ := isLetterOrNumber_ne_sign c h
  simp [decodeChar, h, h1, h2]

theorem decodeChar_sign (f : List Char → Option Int) (wanted isLast : Bool)
    (s : DecodeState) (hb : s.buffer ≠ []) :
    decodeChar f (if wanted then '+' else '-') isLast s
      = { decodeItem f s with isWanted := wanted } := by
  have hp : isLetterOrNumber '+' = false := by decide
  have hm : isLetterOrNumber '-' = false := by decide
  have hpm : ('-' : Char) ≠ '+' := by decide
  cases wanted <;> simp [decodeChar, hp, hm, hb, hpm]

/-- A word of letters and digits followed by more text is collected in the buffer. -/
theorem decodeLoop_word (f : List Char → Option Int) (w rest : List Char)
    (hw : ∀ c ∈ w, isLetterOrNumber c = true) (hrest : rest ≠ []) :
    ∀ s : DecodeState,
      decodeLoop f (w ++ rest) s = decodeLoop f rest { s with buffer := s.buffer ++ w } := by
  induction w with
  | nil => intro s; simp
  | cons c w ih =>
    intro s
    have hc : isLetterOrNumber c = true := hw c (List.mem_cons_self _ _)
    have hw2 : ∀ x ∈ w, isLetterOrNumber x = true := fun x hx => hw x (List.mem_cons_of_mem _ hx)
    have hne : (w ++ rest).isEmpty = false := by
      cases w <;> cases rest <;> simp_all
    have step : decodeLoop f (c :: (w ++ rest)) s
        = decodeLoop f (w ++ rest) (decodeChar f c (w ++ rest).isEmpty s) := rfl
    rw [List.cons_append, step, hne, decodeChar_letter f c s hc, ih hw2]
    simp

/-- A word of letters and digits at the end of the text is collected and read as an
item. -/
theorem decodeLoop_last_word (f : List Char → Option Int) (w : List Char)
    (hw : ∀ c ∈ w, isLetterOrNumber c = true) (hne : w ≠ []) :
    ∀ s : DecodeState,
      decodeLoop f w s = decodeItem f { s with buffer := s.buffer ++ w } := by
  induction w with
  | nil => exact absurd rfl hne
  | cons c w ih =>
    intro s
    have hc : isLetterOrNumber c = true := hw c (List.mem_cons_self _ _)
    have hw2 : ∀ x ∈ w, isLetterOrNumber x = true := fun x hx => hw x (List.mem_cons_of_mem _ hx)
    cases w with
    | nil =>
      have step : decodeLoop f [c] s = decodeChar f c true s := rfl
      rw [step, decodeChar_last_letter f c s hc]
    | cons d w2 =>
      have step : decodeLoop f (c :: d :: w2) s
          = decodeLoop f (d :: w2) (decodeChar f c false s) := rfl
      rw [step, decodeChar_letter f c s hc,
        ih hw2 (by simp) { s with buffer := s.buffer ++ [c] }]
      simp

end KeyboardTranslator


namespace KeyboardTranslator

theorem decodeChar_sign_empty (f : List Char → Option Int) (wanted isLast : Bool)
    (s : DecodeState) (hb : s.buffer = []) :
    decodeChar f (if wanted then '+' else '-') isLast s = { s with isWanted := wanted } := by
  have hp : isLetterOrNumber '+' = false := by decide
  have hm : isLetterOrNumber '-' = false := by decide
  have hpm : ('-' : Char) ≠ '+' := by decide
  cases wanted <;> simp [decodeChar, hp, hm, hb, hpm]

theorem decodeItem_buffer (f : List Char → Option Int) (s : DecodeState) :
    (decodeItem f s).buffer = [] := by
  unfold decodeItem
  cases parseAsModifier s.buffer <;> simp only []
  cases parseAsStateFlag s.buffer <;> simp only []
  cases parseAsKeyCode f s.buffer <;> rfl

theorem parseAsStateFlag_not_modifier (w : List Char) (fl : State)
    (h : parseAsStateFlag w = some fl) : parseAsModifier w = none := by
  unfold parseAsStateFlag at h
  split_ifs at h with h1 h2 h3 h4 h5 <;> subst_vars <;> rfl

/-- The items of a key sequence are read one after the other, each with its own sign. -/
theorem decodeLoop_items (f : List Char → Option Int) (items : List (Bool × List Char)) :
    ∀ (name : List Char) (s : DecodeState), s.buffer = [] → name ≠ [] →
      (∀ c ∈ name, isLetterOrNumber c = true) →
      (∀ it ∈ items, it.2 ≠ [] ∧ ∀ c ∈ it.2, isLetterOrNumber c = true) →
      decodeLoop f (name ++ items.flatMap fun item => (if item.1 then '+' else '-') :: item.2) s
        = items.foldl (applyItem f) (applyItem f s (s.isWanted, name)) := by
  induction items with
  | nil =>
    intro name s hb hne hname _
    simp only [List.flatMap_nil, List.append_nil, List.foldl_nil]
    rw [decodeLoop_last_word f name hname hne s, hb]
    rfl
  | cons it its ih =>
    intro name s hb hne hname hitems
    have hit := hitems it (List.mem_cons_self _ _)
    have hits : ∀ x ∈ its, x.2 ≠ [] ∧ ∀ c ∈ x.2, isLetterOrNumber c = true :=
      fun x hx => hitems x (List.mem_cons_of_mem _ hx)
    simp only [List.flatMap_cons, List.cons_append, List.foldl_cons]
    rw [decodeLoop_word f name _ hname (by simp) s, hb]
    have step : ∀ (R : List Char) (t : DecodeState),
        decodeLoop f ((if it.1 then '+' else '-') :: R) t
          = decodeLoop f R (decodeChar f (if it.1 then '+' else '-') R.isEmpty t) :=
      fun _ _ => rfl
    rw [step, decodeChar_sign f it.1 _ _ (by simpa using hne)]
    rw [ih it.2 { decodeItem f { s with buffer := [] ++ name } with isWanted := it.1 }
      (decodeItem_buffer f _) hit.1 hit.2 hits]
    rfl

theorem mem_applyItem_modifierMask (f : List Char → Option Int) (s : DecodeState)
    (it : Bool × List Char) (m : KeyboardModifier) :
    m ∈ (applyItem f s it).tempModifierMask ↔
      m ∈ s.tempModifierMask ∨ parseAsModifier it.2 = some m := by
  unfold applyItem decodeItem
  cases hm : parseAsModifier it.2 with
  | some x => simp [eq_comm]
  | none =>
    simp only []
    cases parseAsStateFlag it.2 <;> simp only []
    · cases parseAsKeyCode f it.2 <;> simp
    · simp

theorem mem_applyItem_modifiers (f : List Char → Option Int) (s : DecodeState)
    (it : Bool × List Char) (m : KeyboardModifier) :
    m ∈ (applyItem f s it).tempModifiers ↔
      m ∈ s.tempModifiers ∨ (it.1 = true ∧ parseAsModifier it.2 = some m) := by
  unfold applyItem decodeItem
  cases hm : parseAsModifier it.2 with
  | some x => cases hw : it.1 <;> simp [eq_comm]
  | none =>
    simp only []
    cases parseAsStateFlag it.2 <;> simp only []
    · cases parseAsKeyCode f it.2 <;> simp
    · simp

theorem mem_applyItem_flagMask (f : List Char → Option Int) (s : DecodeState)
    (it : Bool × List Char) (fl : State) :
    fl ∈ (applyItem f s it).tempFlagMask ↔
      fl ∈ s.tempFlagMask ∨ parseAsStateFlag it.2 = some fl := by
  unfold applyItem decodeItem
  cases hm : parseAsModifier it.2 with
  | some x =>
    have : parseAsStateFlag it.2 ≠ some fl := fun h => by
      rw [parseAsStateFlag_not_modifier _ _ h] at hm; cases hm
    simp [this]
  | none =>
    simp only []
    cases parseAsStateFlag it.2 <;> simp only []
    · cases parseAsKeyCode f it.2 <;> simp
    · simp [eq_comm]

theorem mem_applyItem_flags (f : List Char → Option Int) (s : DecodeState)
    (it : Bool × List Char) (fl : State) :
    fl ∈ (applyItem f s it).tempFlags ↔
      fl ∈ s.tempFlags ∨ (it.1 = true ∧ parseAsStateFlag it.2 = some fl) := by
  unfold applyItem decodeItem
  cases hm : parseAsModifier it.2 with
  | some x =>
    have : parseAsStateFlag it.2 ≠ some fl := fun h => by
      rw [parseAsStateFlag_not_modifier _ _ h] at hm; cases hm
    simp [this]
  | none =>
    simp only []
    cases parseAsStateFlag it.2 <;> simp only []
    · cases parseAsKeyCode f it.2 <;> simp
    · cases hw : it.1 <;> simp [eq_comm]

/-- A set of flags after a list of items holds what it held before and what the items
add. -/
theorem mem_foldl_applyItem {α : Type} (f : List Char → Option Int)
    (proj : DecodeState → Finset α) (adds : Bool × List Char → α → Prop)
    (hstep : ∀ s it a, a ∈ proj (applyItem f s it) ↔ a ∈ proj s ∨ adds it a)
    (items : List (Bool × List Char)) :
    ∀ (s : DecodeState) (a : α),
      a ∈ proj (items.foldl (applyItem f) s) ↔ a ∈ proj s ∨ ∃ it ∈ items, adds it a := by
  induction items with
  | nil => intro s a; simp
  | cons it its ih =>
    intro s a
    rw [List.foldl_cons, ih, hstep]
    simp only [List.mem_cons, exists_eq_or_imp, or_assoc]

end KeyboardTranslator


namespace KeyboardTranslator

theorem decodeItem_key (f : List Char → Option Int) (s : DecodeState)
    (hmod : parseAsModifier s.buffer = none) (hflag : parseAsStateFlag s.buffer = none) :
    (decodeItem f s).tempModifiers = s.tempModifiers ∧
    (decodeItem f s).tempModifierMask = s.tempModifierMask ∧
    (decodeItem f s).tempFlags = s.tempFlags ∧
    (decodeItem f s).tempFlagMask = s.tempFlagMask ∧
    (decodeItem f s).isWanted = s.isWanted := by
  unfold decodeItem
  rw [hmod, hflag]
  cases parseAsKeyCode f s.buffer <;> exact ⟨rfl, rfl, rfl, rfl, rfl⟩

/-- The whole text of a key sequence: after the name of the key, which changes no set of
flags, the items are read one after the other. -/
theorem decodeLoop_sequenceText (f : List Char → Option Int) (keyName : List Char)
    (items : List (Bool × List Char)) (s0 : DecodeState) (hs0 : s0.buffer = [])
    (hkey : ∀ c ∈ keyName, isLetterOrNumber c = true)
    (hkeyMod : parseAsModifier keyName = none) (hkeyFlag : parseAsStateFlag keyName = none)
    (hitems : ∀ it ∈ items, it.2 ≠ [] ∧ ∀ c ∈ it.2, isLetterOrNumber c = true) :
    ∃ t : DecodeState,
      t.tempModifiers = s0.tempModifiers ∧ t.tempModifierMask = s0.tempModifierMask ∧
      t.tempFlags = s0.tempFlags ∧ t.tempFlagMask = s0.tempFlagMask ∧
      decodeLoop f (sequenceText keyName items) s0 = items.foldl (applyItem f) t := by
  have hdec := decodeItem_key f { s0 with buffer := s0.buffer ++ keyName }
    (by simpa [hs0] using hkeyMod) (by simpa [hs0] using hkeyFlag)
  cases items with
  | nil =>
    by_cases hk : keyName = []
    · exact ⟨s0, rfl, rfl, rfl, rfl, by simp [sequenceText, hk, decodeLoop]⟩
    · refine ⟨decodeItem f { s0 with buffer := s0.buffer ++ keyName },
        hdec.1, hdec.2.1, hdec.2.2.1, hdec.2.2.2.1, ?_⟩
      simp only [sequenceText, List.flatMap_nil, List.append_nil, List.foldl_nil]
      exact decodeLoop_last_word f keyName hkey hk s0
  | cons it its =>
    have hit := hitems it (List.mem_cons_self _ _)
    have hits : ∀ x ∈ its, x.2 ≠ [] ∧ ∀ c ∈ x.2, isLetterOrNumber c = true :=
      fun x hx => hitems x (List.mem_cons_of_mem _ hx)
    have step : ∀ (R : List Char) (t : DecodeState),
        decodeLoop f ((if it.1 then '+' else '-') :: R) t
          = decodeLoop f R (decodeChar f (if it.1 then '+' else '-') R.isEmpty t) :=
      fun _ _ => rfl
    simp only [sequenceText, List.flatMap_cons, List.cons_append, List.foldl_cons]
    rw [decodeLoop_word f keyName _ hkey (by simp) s0, step]
    by_cases hk : keyName = []
    · refine ⟨{ s0 with isWanted := it.1 }, rfl, rfl, rfl, rfl, ?_⟩
      rw [decodeChar_sign_empty f it.1 _ _ (by simp [hs0, hk])]
      rw [decodeLoop_items f its it.2
        { s0 with buffer := s0.buffer ++ keyName, isWanted := it.1 }
        (by simp [hs0, hk]) hit.1 hit.2 hits]
      simp [applyItem]
    · refine ⟨decodeItem f { s0 with buffer := s0.buffer ++ keyName },
        hdec.1, hdec.2.1, hdec.2.2.1, hdec.2.2.2.1, ?_⟩
      rw [decodeChar_sign f it.1 _ _ (by simp [hk])]
      rw [decodeLoop_items f its it.2
        { decodeItem f { s0 with buffer := s0.buffer ++ keyName } with isWanted := it.1 }
        (decodeItem_buffer f _) hit.1 hit.2 hits]
      simp [applyItem]

end KeyboardTranslator


namespace KeyboardTranslator

/-- The text of a key sequence read from the empty sets: the first word is read like an
item with `+` in front, then the items one after the other. -/
theorem decodeLoop_first_word (f : List Char → Option Int) (keyName : List Char)
    (items : List (Bool × List Char)) (keyCode : Int)
    (hkey : ∀ c ∈ keyName, isLetterOrNumber c = true)
    (hitems : ∀ it ∈ items, it.2 ≠ [] ∧ ∀ c ∈ it.2, isLetterOrNumber c = true) :
    ∃ t : DecodeState,
      (∀ m, m ∈ t.tempModifierMask ↔ parseAsModifier keyName = some m) ∧
      (∀ m, m ∈ t.tempModifiers ↔ parseAsModifier keyName = some m) ∧
      (∀ fl, fl ∈ t.tempFlagMask ↔ parseAsStateFlag keyName = some fl) ∧
      (∀ fl, fl ∈ t.tempFlags ↔ parseAsStateFlag keyName = some fl) ∧
      decodeLoop f (sequenceText keyName items)
          { isWanted := true, buffer := [], keyCode := keyCode, tempModifiers := ∅,
            tempModifierMask := ∅, tempFlags := ∅, tempFlagMask := ∅ }
        = items.foldl (applyItem f) t := by
  by_cases hk : keyName = []
  · subst hk
    obtain ⟨t, h1, h2, h3, h4, hrun⟩ := decodeLoop_sequenceText f [] items
      { isWanted := true, buffer := [], keyCode := keyCode, tempModifiers := ∅,
        tempModifierMask := ∅, tempFlags := ∅, tempFlagMask := ∅ }
      rfl hkey rfl rfl hitems
    simp only at h1 h2 h3 h4
    have hm : parseAsModifier [] = none := rfl
    have hf : parseAsStateFlag [] = none := rfl
    exact ⟨t, by simp [h2, hm], by simp [h1, hm], by simp [h4, hf], by simp [h3, hf], hrun⟩
  · refine ⟨applyItem f
        { isWanted := true, buffer := [], keyCode := keyCode, tempModifiers := ∅,
          tempModifierMask := ∅, tempFlags := ∅, tempFlagMask := ∅ } (true, keyName),
      ?_, ?_, ?_, ?_, ?_⟩
    · intro m; rw [mem_applyItem_modifierMask]; simp
    · intro m; rw [mem_applyItem_modifiers]; simp
    · intro fl; rw [mem_applyItem_flagMask]; simp
    · intro fl; rw [mem_applyItem_flags]; simp
    · exact decodeLoop_items f items keyName _ rfl hk hkey hitems

/-- C18, amended: `decodeSequence` is called with empty modifiers, masks and flags on a text
made of a first word of letters and digits followed by items, each a name of letters and
digits with `+` or `-` in front.  The first word is read like an item with `+` in front: it
is tried as the name of a modifier, then of a state flag, and only then as the name of a
key.  So a modifier (`shift`, `ctrl`/`control`, `alt`, `meta`, `keypad`) or a state flag
(`appcukeys`, `ansi`, `newline`, `appscreen`, `anymod`) is in the resulting mask if and only
if the first word or an item names it, and in the resulting modifiers or flags if and only
if the first word names it or an item names it with `+` in front.  When the first word is
the name of a key, not of a modifier or state flag, this is the claim: in the mask if and
only if an item names it, in the modifiers or flags if and only if an item names it with `+`
in front, in neither when no item names it. -/
theorem C18_decodeSequence_items (fromString : List Char → Option Int)
    (keyName : List Char) (items : List (Bool × List Char)) (keyCode : Int)
    (hkey : ∀ c ∈ keyName, isLetterOrNumber c = true)
    (hitems : ∀ it ∈ items, it.2 ≠ [] ∧ ∀ c ∈ it.2, isLetterOrNumber c = true) :
    (∀ m, m ∈ (decodeSequence fromString (sequenceText keyName items) keyCode ∅ ∅ ∅ ∅).modifierMask
      ↔ parseAsModifier keyName = some m ∨ ∃ it ∈ items, parseAsModifier it.2 = some m) ∧
    (∀ m, m ∈ (decodeSequence fromString (sequenceText keyName items) keyCode ∅ ∅ ∅ ∅).modifiers
      ↔ parseAsModifier keyName = some m ∨
        ∃ it ∈ items, it.1 = true ∧ parseAsModifier it.2 = some m) ∧
    (∀ fl, fl ∈ (decodeSequence fromString (sequenceText keyName items) keyCode ∅ ∅ ∅ ∅).flagMask
      ↔ parseAsStateFlag keyName = some fl ∨ ∃ it ∈ items, parseAsStateFlag it.2 = some fl) ∧
    (∀ fl, fl ∈ (decodeSequence fromString (sequenceText keyName items) keyCode ∅ ∅ ∅ ∅).flags
      ↔ parseAsStateFlag keyName = some fl ∨
        ∃ it ∈ items, it.1 = true ∧ parseAsStateFlag it.2 = some fl) ∧
    (parseAsModifier keyName = none → parseAsStateFlag keyName = none →
      (∀ m, m ∈ (decodeSequence fromString (sequenceText keyName items) keyCode ∅ ∅ ∅ ∅).modifierMask
        ↔ ∃ it ∈ items, parseAsModifier it.2 = some m) ∧
      (∀ m, m ∈ (decodeSequence fromString (sequenceText keyName items) keyCode ∅ ∅ ∅ ∅).modifiers
        ↔ ∃ it ∈ items, it.1 = true ∧ parseAsModifier it.2 = some m) ∧
      (∀ fl, fl ∈ (decodeSequence fromString (sequenceText keyName items) keyCode ∅ ∅ ∅ ∅).flagMask
        ↔ ∃ it ∈ items, parseAsStateFlag it.2 = some fl) ∧
      (∀ fl, fl ∈ (decodeSequence fromString (sequenceText keyName items) keyCode ∅ ∅ ∅ ∅).flags
        ↔ ∃ it ∈ items, it.1 = true ∧ parseAsStateFlag it.2 = some fl)) ∧
    (parseAsModifier "shift".toList = some .ShiftModifier ∧
      parseAsModifier "ctrl".toList = some .ControlModifier ∧
      parseAsModifier "control".toList = some .ControlModifier ∧
      parseAsModifier "alt".toList = some .AltModifier ∧
      parseAsModifier "meta".toList = some .MetaModifier ∧
      parseAsModifier "keypad".toList = some .KeypadModifier ∧
      parseAsStateFlag "appcukeys".toList = some .CursorKeysState ∧
      parseAsStateFlag "ansi".toList = some .AnsiState ∧
      parseAsStateFlag "newline".toList = some .NewLineState ∧
      parseAsStateFlag "appscreen".toList = some .AlternateScreenState ∧
      parseAsStateFlag "anymod".toList = some .AnyModifierState) := by
  obtain ⟨t, h2, h1, h4, h3, hrun⟩ :=
    decodeLoop_first_word fromString keyName items keyCode hkey hitems
  have g1 : ∀ m, m ∈ (decodeSequence fromString (sequenceText keyName items) keyCode
      ∅ ∅ ∅ ∅).modifierMask
      ↔ parseAsModifier keyName = some m ∨ ∃ it ∈ items, parseAsModifier it.2 = some m := by
    intro m
    simp only [decodeSequence, hrun]
    rw [mem_foldl_applyItem fromString (fun s => s.tempModifierMask)
      (fun it a => parseAsModifier it.2 = some a)
      (mem_applyItem_modifierMask fromString) items t m, h2]
  have g2 : ∀ m, m ∈ (decodeSequence fromString (sequenceText keyName items) keyCode
      ∅ ∅ ∅ ∅).modifiers
      ↔ parseAsModifier keyName = some m ∨
        ∃ it ∈ items, it.1 = true ∧ parseAsModifier it.2 = some m := by
    intro m
    simp only [decodeSequence, hrun]
    rw [mem_foldl_applyItem fromString (fun s => s.tempModifiers)
      (fun it a => it.1 = true ∧ parseAsModifier it.2 = some a)
      (mem_applyItem_modifiers fromString) items t m, h1]
  have g3 : ∀ fl, fl ∈ (decodeSequence fromString (sequenceText keyName items) keyCode
      ∅ ∅ ∅ ∅).flagMask
      ↔ parseAsStateFlag keyName = some fl ∨ ∃ it ∈ items, parseAsStateFlag it.2 = some fl := by
    intro fl
    simp only [decodeSequence, hrun]
    rw [mem_foldl_applyItem fromString (fun s => s.tempFlagMask)
      (fun it a => parseAsStateFlag it.2 = some a)
      (mem_applyItem_flagMask fromString) items t fl, h4]
  have g4 : ∀ fl, fl ∈ (decodeSequence fromString (sequenceText keyName items) keyCode
      ∅ ∅ ∅ ∅).flags
      ↔ parseAsStateFlag keyName = some fl ∨
        ∃ it ∈ items, it.1 = true ∧ parseAsStateFlag it.2 = some fl := by
    intro fl
    simp only [decodeSequence, hrun]
    rw [mem_foldl_applyItem fromString (fun s => s.tempFlags)
      (fun it a => it.1 = true ∧ parseAsStateFlag it.2 = some a)
      (mem_applyItem_flags fromString) items t fl, h3]
  refine ⟨g1, g2, g3, g4, ?_, ?_⟩
  · intro hkeyMod hkeyFlag
    refine ⟨fun m => ?_, fun m => ?_, fun fl => ?_, fun fl => ?_⟩
    · rw [g1 m, hkeyMod]; simp
    · rw [g2 m, hkeyMod]; simp
    · rw [g3 fl, hkeyFlag]; simp
    · rw [g4 fl, hkeyFlag]; simp
  · exact ⟨rfl, rfl, rfl, rfl, rfl, rfl, rfl, rfl, rfl, rfl, rfl⟩

end KeyboardTranslator


/-! ## Theorems, part 8: `escapedText`, `unescape`, `createEntry` -/

namespace KeyboardTranslator

theorem hexDigitValue_of_not_print (ch : Nat) (h : isPrint ch = false) :
    hexDigitValue ch = none := by
  simp only [isPrint, Bool.or_eq_false_iff, Bool.and_eq_false_iff, decide_eq_false_iff_not,
    Nat.not_le] at h
  unfold hexDigitValue
  split_ifs <;> first | rfl | omega

/-- Every byte that is not printable and is not one of the six named control bytes is
replaced by the three bytes `\`, `x`, `0`, whatever its value. -/
theorem escapedText_not_print (ch : Nat) (h : isPrint ch = false)
    (h27 : ch ≠ 27) (h8 : ch ≠ 8) (h12 : ch ≠ 12) (h9 : ch ≠ 9) (h13 : ch ≠ 13)
    (h10 : ch ≠ 10) :
    escapedText [ch] = some [92, 120, 48] := by
  have hrep : escapedTextReplacement ch = 120 := by
    unfold escapedTextReplacement
    split <;> simp_all
  have hat : escapedTextAt [ch] 0 = [92, 120, 48] := by
    simp [escapedTextAt, hrep, toInt16, hexDigitValue_of_not_print ch h, replace, number]
    rfl
  have h1 : escapedTextAt [92, 120, 48] 1 = [92, 120, 48] := by decide
  have h2 : escapedTextAt [92, 120, 48] 2 = [92, 120, 48] := by decide
  simp [escapedText, escapedTextLoop, hat, h1, h2]

/-- The witness of `escapedText_not_print`: the byte 0x90. -/
theorem escapedText_not_print_witness :
    isPrint 0x90 = false ∧ escapedText [0x90] = some [92, 120, 48] :=
  ⟨by decide, escapedText_not_print 0x90 (by decide) (by decide) (by decide) (by decide)
    (by decide) (by decide) (by decide)⟩

/-- C16 fails on the code: the byte 1 and the byte 127 are not printable and are none of
the six named control bytes, and `escapedText` turns each of them into `\x0` (the bytes 92,
120, 48), not into `\x1` or `\x01` (92, 120, 49 or 92, 120, 48, 49) and `\x7f` (92, 120, 55,
102): `QByteArray(1,ch).toInt(nullptr, 16)` reads the byte as a hexadecimal numeral, which
it is not, and gives 0.  Printable bytes are left as they are. -/
theorem C16_escape_loses_byte_value :
    isPrint 1 = false ∧ isPrint 127 = false ∧
    escapedText [1] = some [92, 120, 48] ∧
    escapedText [1] ≠ some [92, 120, 49] ∧
    escapedText [1] ≠ some [92, 120, 48, 49] ∧
    escapedText [127] = some [92, 120, 48] ∧
    escapedText [127] ≠ some [92, 120, 55, 102] ∧
    escapedText [97, 1, 98] = some [97, 92, 120, 48, 98] ∧
    escapedText [97, 27, 98] = some [97, 92, 69, 98] := by
  decide

/-- C17 fails on the code: on `\x00` (the bytes 92, 120, 48, 48) and on `\x0` (92, 120, 48)
`unescape` returns the empty array, not the one byte 0: the replacement is handed over as a
C string, which ends at its first 0 byte.  With text behind the sequence, `\x00ab` gives
`ab`; `\x41` gives the byte 65 as the claim says. -/
theorem C17_unescape_drops_zero_byte :
    unescape [92, 120, 48, 48] = some [] ∧
    unescape [92, 120, 48, 48] ≠ some [0] ∧
    unescape [92, 120, 48] = some [] ∧
    unescape [92, 120, 48] ≠ some [0] ∧
    unescape [92, 120, 48, 48, 97, 98] = some [97, 98] ∧
    unescape [92, 120, 52, 49] = some [65] ∧
    unescape [92, 120, 55, 103] = some [7, 103] := by
  decide

/-- Witness of C18: the text `up+shift-ansi`, key name `up` and the items `+shift` and
`-ansi`.  Shift is in the modifiers and in their mask, Ansi is in the mask of the flags and
not in the flags, Control is in no mask.  And the text `alt-shift`, whose first word names a
modifier: Alt is in the modifiers and in their mask, Shift in their mask only. -/
theorem C18_decodeSequence_items_witness :
    (∀ c ∈ "up".toList, isLetterOrNumber c = true) ∧
    parseAsModifier "up".toList = none ∧ parseAsStateFlag "up".toList = none ∧
    sequenceText "up".toList [(true, "shift".toList), (false, "ansi".toList)]
      = "up+shift-ansi".toList ∧
    KeyboardModifier.ShiftModifier ∈
      (decodeSequence toyFromString "up+shift-ansi".toList 0 ∅ ∅ ∅ ∅).modifiers ∧
    State.AnsiState ∈
      (decodeSequence toyFromString "up+shift-ansi".toList 0 ∅ ∅ ∅ ∅).flagMask ∧
    (decodeSequence toyFromString "up+shift-ansi".toList 0 ∅ ∅ ∅ ∅).modifiers
      = {KeyboardModifier.ShiftModifier} ∧
    (decodeSequence toyFromString "up+shift-ansi".toList 0 ∅ ∅ ∅ ∅).modifierMask
      = {KeyboardModifier.ShiftModifier} ∧
    (decodeSequence toyFromString "up+shift-ansi".toList 0 ∅ ∅ ∅ ∅).flags = ∅ ∧
    (decodeSequence toyFromString "up+shift-ansi".toList 0 ∅ ∅ ∅ ∅).flagMask
      = {State.AnsiState} ∧
    KeyboardModifier.AltModifier ∈
      (decodeSequence toyFromString "alt-shift".toList 0 ∅ ∅ ∅ ∅).modifiers ∧
    KeyboardModifier.ShiftModifier ∈
      (decodeSequence toyFromString "alt-shift".toList 0 ∅ ∅ ∅ ∅).modifierMask :=
  have hkey : ∀ c ∈ "up".toList, isLetterOrNumber c = true := by decide
  have hitems : ∀ it ∈ [(true, "shift".toList), (false, "ansi".toList)],
      it.2 ≠ [] ∧ ∀ c ∈ it.2, isLetterOrNumber c = true := by decide
  have h := (C18_decodeSequence_items toyFromString "up".toList
    [(true, "shift".toList), (false, "ansi".toList)] 0 hkey hitems).2.2.2.2.1 rfl rfl
  have g := C18_decodeSequence_items toyFromString "alt".toList
    [(false, "shift".toList)] 0 (by decide) (by decide)
  ⟨hkey, rfl, rfl, rfl,
    (h.2.1 .ShiftModifier).mpr ⟨(true, "shift".toList), by simp, rfl, rfl⟩,
    (h.2.2.1 .AnsiState).mpr ⟨(false, "ansi".toList), by simp, rfl⟩,
    by decide, by decide, by decide, by decide,
    (g.2.1 .AltModifier).mpr (Or.inl rfl),
    (g.1 .ShiftModifier).mpr (Or.inr ⟨(false, "shift".toList), by simp, rfl⟩)⟩

/-- C18 as stated fails: the text `alt-shift` is a key name, `alt`, followed by the one item
`-shift`.  No item names `alt`, with or without `+` in front, and yet the Alt modifier is in
the resulting modifiers and in their mask: the first word is tried as the name of a modifier
before it is tried as the name of a key, and it counts as wanted since no `-` stands in
front of it. -/
theorem C18_counterexample :
    sequenceText "alt".toList [(false, "shift".toList)] = "alt-shift".toList ∧
    (∀ c ∈ "alt".toList, isLetterOrNumber c = true) ∧
    (¬ ∃ it ∈ [(false, "shift".toList)], parseAsModifier it.2 = some .AltModifier) ∧
    KeyboardModifier.AltModifier ∈
      (decodeSequence toyFromString "alt-shift".toList 0 ∅ ∅ ∅ ∅).modifiers ∧
    KeyboardModifier.AltModifier ∈
      (decodeSequence toyFromString "alt-shift".toList 0 ∅ ∅ ∅ ∅).modifierMask ∧
    (decodeSequence toyFromString "alt-shift".toList 0 ∅ ∅ ∅ ∅).modifiers
      = {KeyboardModifier.AltModifier} ∧
    (decodeSequence toyFromString "alt-shift".toList 0 ∅ ∅ ∅ ∅).modifierMask
      = {KeyboardModifier.AltModifier, KeyboardModifier.ShiftModifier} ∧
    (decodeSequence toyFromString "alt-shift".toList 0 ∅ ∅ ∅ ∅).keyCode = 0 := by
  decide

/-- The name of a key that is also the name of a modifier is read as that modifier, wanted:
on the text `shift+ansi` the Shift modifier is in the modifiers and in their mask. -/
theorem decodeSequence_key_named_shift :
    (decodeSequence toyFromString "shift+ansi".toList 0 ∅ ∅ ∅ ∅).modifiers
      = {KeyboardModifier.ShiftModifier} ∧
    (decodeSequence toyFromString "shift+ansi".toList 0 ∅ ∅ ∅ ∅).modifierMask
      = {KeyboardModifier.ShiftModifier} := by
  decide

/-- C19 fails on the code: `createEntry` with the condition `Up` and the result `#`, which
is no command name.  The line `key Up : "#"` holds a `#`, `tokenize` takes it for a comment
and returns no token, the reader finds no entry, and `createEntry` returns the entry of the
default constructor, whose text is empty, whatever the setters do.  And the results `a  b`
(two spaces) and `a b` give the same entry, since `tokenize` simplifies the line first. -/
theorem C19_createEntry_loses_result (api : EntrySetters)
    (fromString : List Char → Option Int) :
    parseAsCommand "#".toList = none ∧
    tokenize ("key Up : ".toList ++ [dquote] ++ "#".toList ++ [dquote]) = [] ∧
    createEntry api fromString "Up".toList "#".toList = Entry.new ∧
    (createEntry api fromString "Up".toList "#".toList)._text = [] ∧
    (createEntry api fromString "Up".toList "#".toList)._text ≠ "#".toList.map Char.toNat ∧
    parseAsCommand "a  b".toList = none ∧
    createEntry api fromString "Up".toList "a  b".toList
      = createEntry api fromString "Up".toList "a b".toList ∧
    (createEntry plainSetters toyFromString "Up".toList "a  b".toList)._text
      = "a b".toList.map Char.toNat ∧
    (createEntry plainSetters toyFromString "Up".toList "abc".toList)._text
      = "abc".toList.map Char.toNat ∧
    (createEntry plainSetters toyFromString "Up".toList "Erase".toList)._command
      = .EraseCommand := by
  refine ⟨rfl, rfl, rfl, rfl, ?_, rfl, rfl, rfl, rfl, rfl⟩
  have h : (createEntry api fromString "Up".toList "#".toList)._text = [] := rfl
  rw [h]
  decide

end KeyboardTranslator


/-! ## Theorems, part 9: the loops of `escapedText` and `unescape` reach the end -/

namespace KeyboardTranslator

theorem getD_append_length (pre tl : List Nat) (x : Nat) :
    (pre ++ x :: tl).getD pre.length 0 = x := by
  induction pre with
  | nil => rfl
  | cons p pre ih => simpa using ih

theorem escapedTextAt_append (pre rest : List Nat) (ch : Nat) :
    escapedTextAt (pre ++ ch :: rest) pre.length = pre ++ escapeByte ch ++ rest := by
  unfold escapedTextAt escapeByte
  simp only [getD_append_length]
  split_ifs with h1 h2
  · simp [replace]
  · simp [insert, remove, List.take_append_eq_append_take, List.drop_append_eq_append_drop,
      List.take_of_length_le, List.drop_of_length_le]
  · simp

theorem cstr_pair_length (c : Nat) : (cstr [c, 0]).length ≤ 1 := by
  by_cases h : c = 0
  · simp [cstr, List.takeWhile, h]
  · have hc : (c != 0) = true := by simpa using h
    simp [cstr, List.takeWhile, hc]

theorem replace_length_le (result after : List Nat) (i n : Nat) (hi : i + 1 < result.length)
    (hafter : after.length ≤ 1) (hn : 2 ≤ n) :
    (replace result i n after).length ≤ result.length := by
  simp only [replace, List.length_append, List.length_take, List.length_drop]
  omega

theorem unescapeAt_length_le (result : List Nat) (i : Nat) (hi : i + 1 < result.length) :
    (unescapeAt result i).length ≤ result.length := by
  unfold unescapeAt
  simp only []
  by_cases h92 : result.getD i 0 = 92
  · rw [if_pos h92]
    split
    all_goals first
      | exact replace_length_le _ _ _ _ hi (cstr_pair_length _) (by omega)
      | exact Nat.le_refl _
  · rw [if_neg h92]

theorem toInt16_le (ch : Nat) : toInt16 ch ≤ 15 := by
  unfold toInt16 hexDigitValue
  split_ifs <;> simp <;> omega

theorem number_inert (n : Nat) (hn : n ≤ 15) :
    (number n).length ≤ 2 ∧ ∀ b ∈ number n, escapedTextReplacement b = 0 := by
  interval_cases n <;> decide

theorem escapedTextReplacement_cases (ch : Nat) :
    escapedTextReplacement ch = 0 ∨ escapedTextReplacement ch = 120 ∨
      escapedTextReplacement ch ∈ [69, 98, 102, 116, 114, 110] := by
  unfold escapedTextReplacement
  split <;> simp
  split_ifs <;> simp

/-- The replacement of a byte is the byte itself when the byte is left alone, and else
starts with a backslash and goes on with at most three bytes that are left alone. -/
theorem escapeByte_shape (ch : Nat) :
    ∃ b tl, escapeByte ch = b :: tl ∧ tl.length ≤ 3 ∧
      ∀ x ∈ tl, escapedTextReplacement x = 0 := by
  unfold escapeByte
  rcases escapedTextReplacement_cases ch with h | h | h
  · exact ⟨ch, [], by simp [h], by simp, by simp⟩
  · obtain ⟨hl, hin⟩ := number_inert (toInt16 ch) (toInt16_le ch)
    refine ⟨92, 120 :: number (toInt16 ch), by simp [h], by simpa using by omega, ?_⟩
    intro x hx
    rcases List.mem_cons.mp hx with rfl | hx
    · decide
    · exact hin x hx
  · refine ⟨92, [escapedTextReplacement ch], ?_, by simp, ?_⟩
    · have h120 : escapedTextReplacement ch ≠ 120 := by
        intro h2; rw [h2] at h; revert h; decide
      have h0 : escapedTextReplacement ch ≠ 0 := by
        intro h2; rw [h2] at h; revert h; decide
      simp [h120, h0]
    · intro x hx
      have hx2 : x = escapedTextReplacement ch := by simpa using hx
      rw [hx2]
      simp only [List.mem_cons, List.mem_singleton, List.not_mem_nil, or_false] at h
      rcases h with h | h | h | h | h | h <;> rw [h] <;> decide

theorem escapeByte_inert (ch : Nat) (h : escapedTextReplacement ch = 0) :
    escapeByte ch = [ch] := by
  simp [escapeByte, h]

/-- The loop of `escapedText` from the index behind `pre`, where `inert` are bytes the loop
leaves alone and `rest` the bytes of the text it has not seen: with enough fuel it ends,
with every byte of `rest` replaced. -/
theorem escapedTextLoop_spec (fuel : Nat) :
    ∀ (pre inert rest : List Nat), (∀ x ∈ inert, escapedTextReplacement x = 0) →
      inert.length + 4 * rest.length ≤ fuel →
      escapedTextLoop fuel pre.length (pre ++ inert ++ rest)
        = some (pre ++ inert ++ rest.flatMap escapeByte) := by
  induction fuel with
  | zero =>
    intro pre inert rest _ hf
    have h1 : inert = [] := List.length_eq_zero.mp (by omega)
    have h2 : rest = [] := List.length_eq_zero.mp (by omega)
    subst h1 h2
    simp [escapedTextLoop]
  | succ fuel ih =>
    intro pre inert rest hin hf
    cases inert with
    | cons b inert2 =>
      have hb : escapedTextReplacement b = 0 := hin b (List.mem_cons_self _ _)
      have hlt : pre.length < (pre ++ b :: inert2 ++ rest).length := by simp
      have hstep : escapedTextAt (pre ++ b :: inert2 ++ rest) pre.length
          = pre ++ b :: inert2 ++ rest := by
        have := escapedTextAt_append pre (inert2 ++ rest) b
        simpa [escapeByte_inert b hb] using this
      rw [escapedTextLoop, if_pos hlt, hstep]
      have := ih (pre ++ [b]) inert2 rest
        (fun x hx => hin x (List.mem_cons_of_mem _ hx))
        (by simp only [List.length_cons] at hf; omega)
      simpa using this
    | nil =>
      cases rest with
      | nil => simp [escapedTextLoop]
      | cons ch rest2 =>
        obtain ⟨b, tl, hshape, hlen, hinert⟩ := escapeByte_shape ch
        have hlt : pre.length < (pre ++ [] ++ ch :: rest2).length := by simp
        have hstep : escapedTextAt (pre ++ [] ++ ch :: rest2) pre.length
            = pre ++ escapeByte ch ++ rest2 := by
          simpa using escapedTextAt_append pre rest2 ch
        rw [escapedTextLoop, if_pos hlt, hstep, hshape]
        have := ih (pre ++ [b]) tl rest2 hinert
          (by simp only [List.length_cons, List.length_nil] at hf; omega)
        simpa [hshape] using this

/-- The loop of `escapedText` reaches the end on every text, and its result is the text
with every byte replaced by `escapeByte`. -/
theorem escapedText_eq (text : List Nat) :
    escapedText text = some (text.flatMap escapeByte) := by
  have := escapedTextLoop_spec (4 * text.length) [] [] text (by simp) (by simp)
  simpa [escapedText] using this

/-- The loop of `unescape` reaches the end on every input: no iteration makes the array
longer. -/
theorem unescapeLoop_total (fuel : Nat) :
    ∀ (i : Nat) (result : List Nat), result.length ≤ fuel + i + 1 →
      ∃ r, unescapeLoop fuel i result = some r := by
  induction fuel with
  | zero =>
    intro i result h
    have : ¬ (i + 1 < result.length) := by omega
    exact ⟨result, by simp [unescapeLoop, this]⟩
  | succ fuel ih =>
    intro i result h
    by_cases hlt : i + 1 < result.length
    · have hle := unescapeAt_length_le result i hlt
      obtain ⟨r, hr⟩ := ih (i + 1) (unescapeAt result i) (by omega)
      exact ⟨r, by rw [unescapeLoop, if_pos hlt, hr]⟩
    · exact ⟨result, by rw [unescapeLoop, if_neg hlt]⟩

/-- The member `unescape` returns on every input. -/
theorem unescape_total (input : List Nat) : ∃ r, unescape input = some r :=
  unescapeLoop_total input.length 0 input (by omega)


end KeyboardTranslator


/-! ## Theorems, part 10: widening edges and the defaults of `mxArray_base` -/

section WideningAndDefaults

/-- C21: across the installers of src there are two widening edges, matrix -> sparse
complex matrix and complex matrix -> sparse complex matrix; every edge has a target type
different from its source type, and no source type has two edges.  For every operand of the
source type, the registered conversion function returns an object whose type is the
registered target type, `octave_sparse_complex_matrix`, built from the complex matrix value
of the operand; the table the three installers fill holds, for each of the two source types,
that target type and that conversion function. -/
theorem C21_widening_edges (L : Lib) (C : ConvLib L) (m : octave_matrix L)
    (cm : octave_complex_matrix L) :
    widenEdges =
      [(.octave_matrix, .octave_sparse_complex_matrix, m_scm "sparse_complex_matrix_conv"),
       (.octave_complex_matrix, .octave_sparse_complex_matrix,
         cm_scm "sparse_complex_matrix_conv")] ∧
    (∀ e ∈ widenEdges, e.2.1 ≠ e.1) ∧
    (widenEdges.map fun e => e.1).Nodup ∧
    (op_m_scm.oct_conv_sparse_complex_matrix_conv L C m).type_id
      = .octave_sparse_complex_matrix ∧
    (op_m_scm.oct_conv_sparse_complex_matrix_conv L C m).built_from
      = C.SparseComplexMatrix (C.complex_matrix_value m) ∧
    (op_cm_scm.oct_conv_sparse_complex_matrix_conv L C cm).type_id
      = .octave_sparse_complex_matrix ∧
    (op_cm_scm.oct_conv_sparse_complex_matrix_conv L C cm).built_from
      = C.SparseComplexMatrix cm.complex_matrix_value ∧
    (install_pm_sm_ops (install_cm_scm_ops (install_m_scm_ops type_info.empty))).widening_ops
        .octave_matrix
      = some ((op_m_scm.oct_conv_sparse_complex_matrix_conv L C m).type_id,
          m_scm "sparse_complex_matrix_conv") ∧
    (install_pm_sm_ops (install_cm_scm_ops (install_m_scm_ops type_info.empty))).widening_ops
        .octave_complex_matrix
      = some ((op_cm_scm.oct_conv_sparse_complex_matrix_conv L C cm).type_id,
          cm_scm "sparse_complex_matrix_conv") := by
  have hedges : widenEdges =
      [(.octave_matrix, .octave_sparse_complex_matrix, m_scm "sparse_complex_matrix_conv"),
       (.octave_complex_matrix, .octave_sparse_complex_matrix,
         cm_scm "sparse_complex_matrix_conv")] := by decide
  refine ⟨hedges, ?_, ?_, rfl, rfl, rfl, rfl, rfl, rfl⟩
  · rw [hedges]; decide
  · rw [hedges]; decide

/-- The message of `err_invalid_type`: the class name, the fixed text, the operation. -/
theorem sprintf_invalid_type (class_name op : String) :
    String.mk (sprintf "%s: invalid type for mxArray::%s".toList [class_name, op])
      = class_name ++ ": invalid type for mxArray::" ++ op := by
  cases class_name with
  | mk cs =>
    cases op with
    | mk os =>
      show String.mk _ = String.mk _
      congr 1
      simp [sprintf, String.toList]

/-- C23: for a representation that keeps the defaults of `mxArray_base`, `get_property`
returns a null pointer for every index and property name and raises nothing; `set_property`
and `get_cell` never return and fail with the message `<class name>: invalid type for
mxArray::set_property` and `<class name>: invalid type for mxArray::get_cell`, where
`<class name>` is what `get_class_name ()` returns. -/
theorem C23_mxArray_base_defaults {R : Type} (get_class_name : R → String) (self : R)
    (idx : Nat) (pname : String) (pval : Nat) :
    mxArray_base.get_property self idx pname = .ok none ∧
    mxArray_base.set_property get_class_name self idx pname pval
      = .error (get_class_name self ++ ": invalid type for mxArray::set_property") ∧
    mxArray_base.get_cell get_class_name self idx
      = .error (get_class_name self ++ ": invalid type for mxArray::get_cell") ∧
    (∀ u, mxArray_base.set_property get_class_name self idx pname pval ≠ .ok u) ∧
    (∀ p, mxArray_base.get_cell get_class_name self idx ≠ .ok p) := by
  have hset : mxArray_base.set_property get_class_name self idx pname pval
      = .error (get_class_name self ++ ": invalid type for mxArray::set_property") := by
    simp only [mxArray_base.set_property, mxArray_base.err_invalid_type, error,
      sprintf_invalid_type]
    rw [String.append_assoc]; rfl
  have hget : mxArray_base.get_cell get_class_name self idx
      = .error (get_class_name self ++ ": invalid type for mxArray::get_cell") := by
    simp only [mxArray_base.get_cell, mxArray_base.err_invalid_type, error,
      sprintf_invalid_type]
    rw [String.append_assoc]; rfl
  refine ⟨rfl, hset, hget, ?_, ?_⟩
  · intro u h; rw [hset] at h; cases h
  · intro p h; rw [hget] at h; cases h

end WideningAndDefaults


/-! ## Theorems, part 11: the round trip of `escapedText` and `unescape` -/

namespace KeyboardTranslator

/-- The last iterations of the loop of `unescape`: past the end nothing changes. -/
theorem unescapeLoop_done (fuel i : Nat) (result : List Nat)
    (h : ¬ (i + 1 < result.length)) : unescapeLoop fuel i result = some result := by
  cases fuel <;> simp [unescapeLoop, h]

/-- The body of the loop of `unescape` leaves a byte that is no backslash alone. -/
theorem unescapeAt_other (pre tl : List Nat) (b : Nat) (hb : b ≠ 92) :
    unescapeAt (pre ++ b :: tl) pre.length = pre ++ b :: tl := by
  unfold unescapeAt
  simp only [getD_append_length]
  simp [hb]

/-- The byte after the one at the end of `pre`. -/
theorem getD_append_length_succ (pre tl : List Nat) (x y : Nat) :
    (pre ++ x :: y :: tl).getD (pre.length + 1) 0 = y := by
  have := getD_append_length (pre ++ [x]) tl y
  simpa using this

/-- Two bytes replaced by the C string of one byte that is not 0. -/
theorem replace_two (pre tl : List Nat) (x y c : Nat) (hc : c ≠ 0) :
    replace (pre ++ x :: y :: tl) pre.length 2 (cstr [c, 0]) = pre ++ c :: tl := by
  have h1 : cstr [c, 0] = [c] := by simp [cstr, hc]
  have h2 : (pre ++ x :: y :: tl).drop (pre.length + 2) = tl := by
    have : pre ++ x :: y :: tl = (pre ++ [x, y]) ++ tl := by simp
    rw [this]
    have hl : pre.length + 2 = (pre ++ [x, y]).length := by simp
    rw [hl, List.drop_left]
  unfold replace
  rw [h1, h2, List.take_left]
  simp

/-- The body of the loop of `unescape` puts the control byte in the place of a backslash
and its letter. -/
theorem unescapeAt_control (pre tl : List Nat) (c l : Nat)
    (h : (c, l) ∈ [(27, 69), (8, 98), (12, 102), (9, 116), (13, 114), (10, 110)]) :
    unescapeAt (pre ++ 92 :: l :: tl) pre.length = pre ++ c :: tl := by
  unfold unescapeAt
  simp only [getD_append_length, getD_append_length_succ]
  simp only [List.mem_cons, Prod.mk.injEq, List.mem_singleton, List.not_mem_nil, or_false] at h
  rcases h with ⟨rfl, rfl⟩ | ⟨rfl, rfl⟩ | ⟨rfl, rfl⟩ | ⟨rfl, rfl⟩ | ⟨rfl, rfl⟩ | ⟨rfl, rfl⟩ <;>
    simp only [if_true] <;> exact replace_two pre tl _ _ _ (by decide)

/-- What `escapedText` makes of a byte of the round trip: the byte itself, or a backslash
and the letter of the control byte. -/
theorem escapeByte_round_trip (b : Nat)
    (h : (32 ≤ b ∧ b ≤ 126 ∧ b ≠ 92) ∨ b ∈ [27, 8, 12, 9, 13, 10]) :
    (escapeByte b = [b] ∧ b ≠ 92) ∨
      ∃ l, escapeByte b = [92, l] ∧
        (b, l) ∈ [(27, 69), (8, 98), (12, 102), (9, 116), (13, 114), (10, 110)] := by
  rcases h with ⟨h1, h2, h3⟩ | h
  · left
    refine ⟨?_, h3⟩
    have hp : isPrint b = true := by simp [isPrint, h1, h2]
    have hr : escapedTextReplacement b = 0 := by
      unfold escapedTextReplacement
      split <;> first | omega | simp [hp]
    simp [escapeByte, hr]
  · right
    simp only [List.mem_cons, List.mem_singleton, List.not_mem_nil, or_false] at h
    rcases h with rfl | rfl | rfl | rfl | rfl | rfl
    · exact ⟨69, by decide, by decide⟩
    · exact ⟨98, by decide, by decide⟩
    · exact ⟨102, by decide, by decide⟩
    · exact ⟨116, by decide, by decide⟩
    · exact ⟨114, by decide, by decide⟩
    · exact ⟨110, by decide, by decide⟩

/-- On the bytes of the round trip the result of `escapedText` is the escaped form of the
specification. -/
theorem escapeByte_eq_spec (t : List Nat)
    (h : ∀ b ∈ t, (32 ≤ b ∧ b ≤ 126 ∧ b ≠ 92) ∨ b ∈ [27, 8, 12, 9, 13, 10]) :
    t.flatMap escapeByte = spec_escapedForm t := by
  unfold spec_escapedForm
  induction t with
  | nil => rfl
  | cons b t ih =>
    have hb := h b (List.mem_cons_self _ _)
    have ht := ih fun x hx => h x (List.mem_cons_of_mem _ hx)
    simp only [List.flatMap_cons, ht]
    congr 1
    rcases hb with ⟨h1, h2, h3⟩ | hb
    · rcases escapeByte_round_trip b (Or.inl ⟨h1, h2, h3⟩) with ⟨he, _⟩ | ⟨l, he, hl⟩
      · rw [he]
        have : b ≠ 27 ∧ b ≠ 8 ∧ b ≠ 12 ∧ b ≠ 9 ∧ b ≠ 13 ∧ b ≠ 10 := by omega
        simp [this]
      · simp only [List.mem_cons, Prod.mk.injEq, List.mem_singleton, List.not_mem_nil,
          or_false] at hl
        omega
    · simp only [List.mem_cons, List.mem_singleton, List.not_mem_nil, or_false] at hb
      rcases hb with rfl | rfl | rfl | rfl | rfl | rfl <;> decide

/-- The loop of `unescape` on an escaped text, from the end of what it has already
restored. -/
theorem unescapeLoop_round_trip :
    ∀ (rest pre : List Nat) (fuel : Nat),
      (∀ b ∈ rest, (32 ≤ b ∧ b ≤ 126 ∧ b ≠ 92) ∨ b ∈ [27, 8, 12, 9, 13, 10]) →
      rest.length ≤ fuel →
      unescapeLoop fuel pre.length (pre ++ rest.flatMap escapeByte) = some (pre ++ rest) := by
  intro rest
  induction rest with
  | nil =>
    intro pre fuel _ _
    simpa using unescapeLoop_done fuel pre.length pre (by omega)
  | cons b rest ih =>
    intro pre fuel h hfuel
    obtain ⟨fuel, rfl⟩ : ∃ f, fuel = f + 1 := ⟨fuel - 1, by simp at hfuel; omega⟩
    have hrest := ih (pre ++ [b]) fuel (fun x hx => h x (List.mem_cons_of_mem _ hx))
      (by simp at hfuel; omega)
    simp only [List.length_append, List.length_singleton, List.append_assoc,
      List.singleton_append] at hrest
    simp only [List.flatMap_cons]
    rcases escapeByte_round_trip b (h b (List.mem_cons_self _ _)) with ⟨he, hb⟩ | ⟨l, he, hl⟩
    · rw [he]
      simp only [List.singleton_append]
      by_cases hlt : pre.length + 1 < (pre ++ b :: rest.flatMap escapeByte).length
      · have step : unescapeLoop (fuel + 1) pre.length (pre ++ b :: rest.flatMap escapeByte)
            = unescapeLoop fuel (pre.length + 1)
                (unescapeAt (pre ++ b :: rest.flatMap escapeByte) pre.length) := by
          simp only [unescapeLoop, hlt, if_true]
        rw [step, unescapeAt_other pre _ b hb, hrest]
      · rw [unescapeLoop_done _ _ _ hlt, ← hrest, unescapeLoop_done _ _ _ (by omega)]
    · rw [he]
      have hlt : pre.length + 1 < (pre ++ ([92, l] ++ rest.flatMap escapeByte)).length := by
        simp
      have step : unescapeLoop (fuel + 1) pre.length (pre ++ ([92, l] ++ rest.flatMap escapeByte))
          = unescapeLoop fuel (pre.length + 1)
              (unescapeAt (pre ++ ([92, l] ++ rest.flatMap escapeByte)) pre.length) := by
        simp only [unescapeLoop, hlt, if_true]
      rw [step]
      have := unescapeAt_control pre (rest.flatMap escapeByte) b l hl
      simp only [List.cons_append, List.nil_append] at this ⊢
      rw [this, hrest]

/-- Escaping does not make a text shorter. -/
theorem flatMap_escapeByte_length (t : List Nat) :
    t.length ≤ (t.flatMap escapeByte).length := by
  induction t with
  | nil => simp
  | cons b t ih =>
    have : 1 ≤ (escapeByte b).length := by
      unfold escapeByte; split_ifs <;> simp
    simp only [List.flatMap_cons, List.length_append, List.length_cons]
    omega

/-- C24: round trip of the text escaping.  For every byte string `t` whose bytes are each
either printable ASCII other than the backslash (32 to 126, not 92) or one of the six control
bytes 27, 8, 12, 9, 13, 10, `escapedText` returns the escaped form of `t` (each control byte
replaced by a backslash and `E`, `b`, `f`, `t`, `r`, `n`), and `unescape` applied to this
escaped form returns exactly `t`. -/
theorem C24_escape_round_trip (t : List Nat)
    (h : ∀ b ∈ t, (32 ≤ b ∧ b ≤ 126 ∧ b ≠ 92) ∨ b ∈ [27, 8, 12, 9, 13, 10]) :
    escapedText t = some (spec_escapedForm t) ∧ unescape (spec_escapedForm t) = some t := by
  have hspec := escapeByte_eq_spec t h
  refine ⟨by rw [escapedText_eq, hspec], ?_⟩
  have := unescapeLoop_round_trip t [] (t.flatMap escapeByte).length h
    (flatMap_escapeByte_length t)
  rw [← hspec]
  simpa [unescape] using this

/-- Witness of C24: the text `a`, escape, `[`, `A`, carriage return, line feed. -/
theorem C24_escape_round_trip_witness :
    escapedText [97, 27, 91, 65, 13, 10] = some (spec_escapedForm [97, 27, 91, 65, 13, 10]) ∧
      unescape (spec_escapedForm [97, 27, 91, 65, 13, 10]) = some [97, 27, 91, 65, 13, 10] :=
  C24_escape_round_trip [97, 27, 91, 65, 13, 10] (by decide)

end KeyboardTranslator


/-! ## Theorems, part 12: `KeyboardTranslatorReader::tokenize` on key lines -/

namespace KeyboardTranslator

/-! ### Lemmas on the matcher -/

/-- Greedy repetition takes a whole run of the class when what follows succeeds. -/
theorem starRun_append {α : Type} (p : Char → Bool) (k : List Char → Option α) (res : α) :
    ∀ (l r : List Char), (∀ c ∈ l, p c = true) → starRun p r k = some res →
      starRun p (l ++ r) k = some res := by
  intro l
  induction l with
  | nil => intro r _ h; simpa using h
  | cons x l ih =>
    intro r hl h
    have hx : p x = true := hl x (List.mem_cons_self _ _)
    have := ih r (fun c hc => hl c (List.mem_cons_of_mem _ hc)) h
    have step : starRun p (x :: (l ++ r)) k =
        if p x then
          match starRun p (l ++ r) k with
          | some r => some r
          | none => k (x :: (l ++ r))
        else k (x :: (l ++ r)) := rfl
    rw [List.cons_append, step, this]
    simp [hx]

/-- Greedy repetition stops at a character outside the class. -/
theorem starRun_stop {α : Type} (p : Char → Bool) (k : List Char → Option α) (x : Char)
    (r : List Char) (hx : p x = false) : starRun p (x :: r) k = k (x :: r) := by
  simp [starRun, hx]

/-- The text a group has taken: the input without what is left of it. -/
theorem take_length_sub (l r : List Char) :
    (l ++ r).take ((l ++ r).length - r.length) = l := by
  simp

/-- A pattern that starts with the literal text `s` matches only where `s` starts. -/
theorem lits_run_starts (re : Regex) (k : List Char → Captures → Option Captures) :
    ∀ (s input : List Char) (caps r : Captures),
      (Regex.lits s re).run input caps k = some r → s <+: input := by
  intro s
  induction s with
  | nil => intro input _ _ _; exact ⟨input, rfl⟩
  | cons c s ih =>
    intro input caps r h
    have hl : Regex.lits (c :: s) re = .seq (.lit c) (Regex.lits s re) := rfl
    rw [hl] at h
    cases input with
    | nil => simp [Regex.run] at h
    | cons x rest =>
      simp only [Regex.run] at h
      by_cases hx : x = c
      · subst hx
        simp only [if_true] at h
        obtain ⟨t, ht⟩ := ih rest caps r h
        exact ⟨t, by simp [ht]⟩
      · simp [hx] at h

/-- A pattern that starts with the literal text `s` has no match in a text that does not
contain `s`. -/
theorem lits_match_none (re : Regex) (s : List Char) :
    ∀ text : List Char, ¬ s <:+: text → (Regex.lits s re).match_ text = none := by
  intro text
  induction text with
  | nil =>
    intro h
    cases hr : (Regex.lits s re).run [] [] fun _ caps => some caps with
    | none => simpa [Regex.match_] using hr
    | some r => exact absurd (lits_run_starts re _ s [] [] r hr).isInfix h
  | cons x rest ih =>
    intro h
    have hrest : ¬ s <:+: rest := fun hi => h (hi.trans (List.suffix_cons x rest).isInfix)
    cases hr : (Regex.lits s re).run (x :: rest) [] fun _ caps => some caps with
    | none => simp only [Regex.match_, hr]; exact ih hrest
    | some r => exact absurd (lits_run_starts re _ s (x :: rest) [] r hr).isInfix h

/-- The comment pattern has no match in a text without the character `#`. -/
theorem comment_match_none :
    ∀ text : List Char, Char.ofNat 35 ∉ text → commentRegex.match_ text = none := by
  intro text
  induction text with
  | nil => intro _; rfl
  | cons x rest ih =>
    intro h
    have hx : x ≠ Char.ofNat 35 := fun e => h (e ▸ List.mem_cons_self _ _)
    have hrest : Char.ofNat 35 ∉ rest := fun hm => h (List.mem_cons_of_mem _ hm)
    have hr : commentRegex.run (x :: rest) [] (fun _ caps => some caps) = none := by
      simp [commentRegex, Regex.run, hx]
    simp only [Regex.match_, hr]
    exact ih hrest


/-- Greedy repetition gives back the last character when the continuation fails at the end
of the input and succeeds one character before it. -/
theorem starRun_last {α : Type} (p : Char → Bool) (k : List Char → Option α)
    (l : List Char) (x : Char) (hl : ∀ c ∈ l, p c = true) (hx : p x = true)
    (h0 : k [] = none) (h1 : (k [x]).isSome = true) :
    starRun p (l ++ [x]) k = k [x] := by
  obtain ⟨res, hres⟩ := Option.isSome_iff_exists.1 h1
  rw [hres]
  apply starRun_append _ _ _ l _ hl
  simp [starRun, hx, h0, hres]

/-- The key pattern on a key line with an output text, matched from the start of the
line: group 1 is the key sequence, group 3 the text between the quotes. -/
theorem keyRegex_run (w0 s0 : Char) (ws1 seq ws3 chars : List Char)
    (hw0 : reSpace w0 = true) (hws1 : ∀ c ∈ ws1, reSpace c = true)
    (hs0 : reSpace s0 = false)
    (hs0K : (reWord s0 || s0 = '+' || reSpace s0 || s0 = '-') = true)
    (hseq : ∀ c ∈ seq, (reWord c || c = '+' || reSpace c || c = '-') = true)
    (hws3 : ∀ c ∈ ws3, reSpace c = true)
    (hchars : ∀ c ∈ chars, reDot c = true) :
    keyRegex.run
        ('k' :: 'e' :: 'y' :: w0 :: (ws1 ++ (s0 :: (seq ++ (':' :: (ws3 ++
          (dquote :: (chars ++ [dquote]))))))))
        [] (fun _ caps => some caps)
      = some [(2, dquote :: (chars ++ [dquote])), (3, chars), (1, s0 :: seq)] := by
  have hkey : "key".toList = ['k', 'e', 'y'] := rfl
  simp only [keyRegex, Regex.lits, hkey, List.foldr, Regex.run, if_true, hw0]
  apply starRun_append _ _ _ ws1 _ hws1
  rw [starRun_stop _ _ s0 _ hs0]
  simp only [hs0K, if_true]
  apply starRun_append _ _ _ seq _ hseq
  rw [starRun_stop _ _ ':' _ (by decide)]
  rw [starRun_stop _ _ ':' _ (by decide)]
  simp only [if_true]
  apply starRun_append _ _ _ ws3 _ hws3
  rw [starRun_stop _ _ dquote _ (by decide)]
  simp only [if_true]
  have h1 := take_length_sub (s0 :: seq) (':' :: (ws3 ++ dquote :: (chars ++ [dquote])))
  have h3 := take_length_sub chars [dquote]
  simp only [List.cons_append] at h1
  rw [h1, starRun_last reDot _ chars dquote hchars (by decide)]
  · simp only [if_true, h3]
    simp
  · rfl
  · simp

/-! ### Lemmas on `simplified` -/

/-- No word of a text holds a whitespace character. -/
theorem wordsOf_no_space :
    ∀ (l cur : List Char), (∀ c ∈ cur, isSpace c = false) →
      ∀ w ∈ wordsOf l cur, ∀ c ∈ w, isSpace c = false := by
  intro l
  induction l with
  | nil =>
    intro cur hcur w hw
    by_cases he : cur.isEmpty = true
    · simp [wordsOf, he] at hw
    · simp only [wordsOf, he] at hw
      simp only [Bool.false_eq_true, if_false, List.mem_singleton] at hw
      subst hw
      exact hcur
  | cons x l ih =>
    intro cur hcur w hw
    have step : wordsOf (x :: l) cur =
        if isSpace x then
          if cur.isEmpty then wordsOf l [] else cur :: wordsOf l []
        else wordsOf l (cur ++ [x]) := rfl
    rw [step] at hw
    by_cases hx : isSpace x = true
    · by_cases he : cur.isEmpty = true
      · simp only [hx, he, if_true] at hw
        exact ih [] (by simp) w hw
      · simp only [hx, he, if_true, Bool.false_eq_true, if_false, List.mem_cons] at hw
        rcases hw with rfl | hw
        · exact hcur
        · exact ih [] (by simp) w hw
    · simp only [hx, Bool.false_eq_true, if_false] at hw
      refine ih (cur ++ [x]) ?_ w hw
      intro c hc
      rcases List.mem_append.1 hc with h | h
      · exact hcur c h
      · simp only [List.mem_singleton] at h
        subst h
        simpa using hx

/-- A character of words joined by spaces is a space or a character of a word. -/
theorem mem_intercalate_space (ws : List (List Char)) (c : Char)
    (hc : c ∈ List.intercalate [' '] ws) : c = ' ' ∨ ∃ w ∈ ws, c ∈ w := by
  induction ws with
  | nil => simp [List.intercalate] at hc
  | cons w ws ih =>
    cases ws with
    | nil =>
      right
      exact ⟨w, List.mem_cons_self _ _, by simpa [List.intercalate] using hc⟩
    | cons w2 ws =>
      have hstep : List.intercalate [' '] (w :: w2 :: ws)
          = w ++ ' ' :: List.intercalate [' '] (w2 :: ws) := by
        simp [List.intercalate, List.intersperse]
      rw [hstep] at hc
      rcases List.mem_append.1 hc with h | h
      · exact Or.inr ⟨w, List.mem_cons_self _ _, h⟩
      · rcases List.mem_cons.1 h with h | h
        · exact Or.inl h
        · rcases ih h with h | ⟨v, hv, hcv⟩
          · exact Or.inl h
          · exact Or.inr ⟨v, List.mem_cons_of_mem _ hv, hcv⟩

/-- A simplified text holds no whitespace character but the space. -/
theorem simplified_chars (line : List Char) (c : Char) (hc : c ∈ simplified line) :
    c = ' ' ∨ isSpace c = false := by
  rcases mem_intercalate_space _ c hc with h | ⟨w, hw, hcw⟩
  · exact Or.inl h
  · exact Or.inr (wordsOf_no_space line [] (by simp) w hw c hcw)

/-- A simplified text holds no line feed: the class `.` of a pattern takes each of its
characters. -/
theorem simplified_reDot (line : List Char) (c : Char) (hc : c ∈ simplified line) :
    reDot c = true := by
  rcases simplified_chars line c hc with h | h
  · subst h; decide
  · by_contra hnd
    have h10 : c.toNat = 10 := by simpa [reDot] using hnd
    have hsp : isSpace c = true := by simp [isSpace, h10]
    rw [h] at hsp
    cases hsp

/-- A line of whitespace has no word. -/
theorem wordsOf_blank : ∀ l : List Char, (∀ c ∈ l, isSpace c = true) → wordsOf l [] = [] := by
  intro l
  induction l with
  | nil => intro _; rfl
  | cons x l ih =>
    intro h
    have hx : isSpace x = true := h x (List.mem_cons_self _ _)
    have step : wordsOf (x :: l) [] =
        if isSpace x then
          if ([] : List Char).isEmpty then wordsOf l [] else [] :: wordsOf l []
        else wordsOf l ([] ++ [x]) := rfl
    rw [step]
    simp only [hx, List.isEmpty_nil, if_true]
    exact ih fun c hc => h c (List.mem_cons_of_mem _ hc)

/-- The title pattern has no match in a text that does not contain the word `keyboard`. -/
theorem title_match_none (text : List Char) (h : ¬ "keyboard".toList <:+: text) :
    titleRegex.match_ text = none :=
  lits_match_none _ _ text h

/-- Greedy repetition succeeds when what follows succeeds on every input. -/
theorem starRun_isSome {α : Type} (p : Char → Bool) (k : List Char → Option α)
    (hk : ∀ r, (k r).isSome = true) : ∀ l : List Char, (starRun p l k).isSome = true := by
  intro l
  induction l with
  | nil => exact hk []
  | cons x l ih =>
    have step : starRun p (x :: l) k =
        if p x then
          match starRun p l k with
          | some r => some r
          | none => k (x :: l)
        else k (x :: l) := rfl
    rw [step]
    by_cases hx : p x = true
    · obtain ⟨r, hr⟩ := Option.isSome_iff_exists.1 ih
      simp [hx, hr]
    · simp [hx, hk]

/-- The comment pattern has a match in every text that holds the character `#`, wherever
it stands. -/
theorem comment_match_some :
    ∀ text : List Char, Char.ofNat 35 ∈ text → (commentRegex.match_ text).isSome = true := by
  intro text
  induction text with
  | nil => intro h; simp at h
  | cons x rest ih =>
    intro h
    cases hr : commentRegex.run (x :: rest) [] (fun _ caps => some caps) with
    | some r => simp [Regex.match_, hr]
    | none =>
      simp only [Regex.match_, hr]
      apply ih
      rcases List.mem_cons.1 h with h | h
      · exfalso
        subst h
        have := starRun_isSome reDot (fun _ => some ([] : Captures)) (fun _ => rfl) rest
        simp only [commentRegex, Regex.run, if_true] at hr
        rw [hr] at this
        simp at this
      · exact h

/-- A line that holds the character `#` gives no token, whatever its form. -/
theorem tokenize_hash (line : List Char) (h : Char.ofNat 35 ∈ simplified line) :
    tokenize line = [] := by
  unfold tokenize
  simp [comment_match_some _ h]


/-- C22, amended: `tokenize` simplifies the line first, so the output text is delivered as
it stands after the simplification.  For every line whose simplified form is
`key <KeySequence>:<spaces>"<characters>"`, where `<KeySequence>` (all that stands between
`key ` and the colon) starts with a character that is no whitespace and is made of word
characters, `+`, `-` and whitespace, `<characters>` is not empty and holds no `#`, and the
title pattern has no match in the line, `tokenize` returns exactly three tokens: KeyKeyword,
KeySequence carrying the key sequence with its spaces removed, and OutputText carrying
`<characters>`.  And for every line that is empty or made of whitespace only it returns no
token. -/
theorem C22_tokenize_key_line (line seq ws chars : List Char)
    (hline : simplified line
      = "key ".toList ++ (seq ++ (':' :: (ws ++ (dquote :: (chars ++ [dquote]))))))
    (hseq0 : ∃ s0 tl, seq = s0 :: tl ∧ reSpace s0 = false)
    (hseq : ∀ c ∈ seq, (reWord c || c = '+' || reSpace c || c = '-') = true)
    (hws : ∀ c ∈ ws, reSpace c = true)
    (hchars : chars ≠ [])
    (hhash : Char.ofNat 35 ∉ chars)
    (htitle : titleRegex.match_ (simplified line) = none) :
    tokenize line
        = [{ type := .KeyKeyword, text := [] },
           { type := .KeySequence, text := seq.filter fun c => c != ' ' },
           { type := .OutputText, text := chars }] ∧
      ∀ blank : List Char, (∀ c ∈ blank, isSpace c = true) → tokenize blank = [] := by
  constructor
  · obtain ⟨s0, tl, rfl, hs0⟩ := hseq0
    have hdot : ∀ c ∈ chars, reDot c = true := by
      intro c hc
      apply simplified_reDot line c
      rw [hline]
      simp [hc]
    have hrun := keyRegex_run ' ' s0 [] tl ws chars (by decide) (by simp) hs0
      (hseq s0 (List.mem_cons_self _ _)) (fun c hc => hseq c (List.mem_cons_of_mem _ hc))
      hws hdot
    have hkey : keyRegex.match_ (simplified line)
        = some [(2, dquote :: (chars ++ [dquote])), (3, chars), (1, s0 :: tl)] := by
      rw [hline]
      have : "key ".toList ++ (s0 :: tl ++ (':' :: (ws ++ (dquote :: (chars ++ [dquote])))))
          = 'k' :: 'e' :: 'y' :: ' ' :: ([] ++ (s0 :: (tl ++ (':' :: (ws ++
              (dquote :: (chars ++ [dquote]))))))) := rfl
      rw [this]
      simp only [Regex.match_, hrun]
    have hcomment : commentRegex.match_ (simplified line) = none := by
      apply comment_match_none
      rw [hline]
      intro hm
      rcases List.mem_append.1 hm with h | h
      · revert h; decide
      rcases List.mem_append.1 h with h | h
      · have := hseq _ h
        revert this; decide
      rcases List.mem_cons.1 h with h | h
      · revert h; decide
      rcases List.mem_append.1 h with h | h
      · have := hws _ h
        revert this; decide
      rcases List.mem_cons.1 h with h | h
      · revert h; decide
      rcases List.mem_append.1 h with h | h
      · exact hhash h
      · revert h; decide
    have hne : (simplified line).isEmpty = false := by rw [hline]; rfl
    have hc3 : (captured [(2, dquote :: (chars ++ [dquote])), (3, chars), (1, s0 :: tl)] 3)
        = chars := rfl
    have hc1 : (captured [(2, dquote :: (chars ++ [dquote])), (3, chars), (1, s0 :: tl)] 1)
        = s0 :: tl := rfl
    have hce : chars.isEmpty = false := by
      cases chars with
      | nil => exact absurd rfl hchars
      | cons _ _ => rfl
    unfold tokenize
    simp only [hne, hcomment, htitle, hkey, hc3, hc1, hce]
    simp
  · intro blank hblank
    unfold tokenize
    simp [simplified, wordsOf_blank blank hblank, List.intercalate]


/-- Witness of C22: the line `  key  Up + Shift  : "a b" `, whose simplified form is
`key Up + Shift : "a b"`; the line `key Up : "a  b"` with two no-break spaces U+00A0 in the
place of the two spaces, whose simplified form is `key Up : "a b"`; and the line of three
spaces. -/
theorem C22_tokenize_key_line_witness :
    simplified ("  key  Up + Shift  : ".toList ++ [dquote] ++ "a b".toList ++ [dquote, ' '])
      = "key Up + Shift : ".toList ++ [dquote] ++ "a b".toList ++ [dquote] ∧
    tokenize ("  key  Up + Shift  : ".toList ++ [dquote] ++ "a b".toList ++ [dquote, ' '])
      = [{ type := .KeyKeyword, text := [] },
         { type := .KeySequence, text := "Up+Shift".toList },
         { type := .OutputText, text := "a b".toList }] ∧
    simplified ("key Up : ".toList ++ [dquote, 'a', Char.ofNat 160, Char.ofNat 160, 'b', dquote])
      = "key Up : ".toList ++ [dquote] ++ "a b".toList ++ [dquote] ∧
    tokenize ("key Up : ".toList ++ [dquote, 'a', Char.ofNat 160, Char.ofNat 160, 'b', dquote])
      = [{ type := .KeyKeyword, text := [] },
         { type := .KeySequence, text := "Up".toList },
         { type := .OutputText, text := "a b".toList }] ∧
    tokenize "   ".toList = [] ∧
    tokenize [Char.ofNat 160, Char.ofNat 9, Char.ofNat 0x2028] = [] :=
  have h := C22_tokenize_key_line
    ("  key  Up + Shift  : ".toList ++ [dquote] ++ "a b".toList ++ [dquote, ' '])
    "Up + Shift ".toList " ".toList "a b".toList rfl ⟨'U', "p + Shift ".toList, rfl, by decide⟩
    (by decide) (by decide) (by decide) (by decide) rfl
  have h2 := C22_tokenize_key_line
    ("key Up : ".toList ++ [dquote, 'a', Char.ofNat 160, Char.ofNat 160, 'b', dquote])
    "Up ".toList " ".toList "a b".toList rfl ⟨'U', "p ".toList, rfl, by decide⟩
    (by decide) (by decide) (by decide) (by decide) rfl
  ⟨rfl, h.1, rfl, h2.1, h.2 "   ".toList (by decide),
    h.2 [Char.ofNat 160, Char.ofNat 9, Char.ofNat 0x2028] (by decide)⟩

/-- C22 as stated fails: the line `key Up : "a  b"` has the documented form with the
characters `a  b` (two spaces), and the OutputText token carries `a b` (one space). -/
theorem C22_counterexample :
    tokenize ("key Up : ".toList ++ [dquote] ++ "a  b".toList ++ [dquote])
      = [{ type := .KeyKeyword, text := [] },
         { type := .KeySequence, text := "Up".toList },
         { type := .OutputText, text := "a b".toList }] ∧
    "a b".toList ≠ "a  b".toList := by
  refine ⟨rfl, by decide⟩

end KeyboardTranslator


end Octave
